import Mathlib

/-!
# C-minus front end: scanner and recursive-descent parser

A shallow embedding of `src/src/lexer.cpp` and `src/src/parser.cpp`
(with the data model of `src/include/lexer.h` and `src/include/ast.h`).

Conventions of the embedding:

* the source buffer `std::string source` is a `List Char`; the sentinel
  `'\0'` is `Char.ofNat 0`;
* `size_t` arithmetic is `Nat` arithmetic modulo `2 ^ 64` where the code
  can wrap (`source.size() - 1`);
* the line counter (`int`) is a `Nat`: it counts the newlines consumed and
  stays below the source length;
* both `throw std::runtime_error(...)` sites become an `Except` error that
  records the message and the throwing component;
* reading `tokenBuffer[i]` with `i ≥ tokenBuffer.size()` has no defined
  result in C++; the embedding stops there with `Err.outOfBounds`;
* the character classes of `<cctype>` are those of the "C" locale, so a
  character outside ASCII belongs to none of them;
* a `while` loop is a recursive function with a bound on its iterations: the
  scanner loops are bounded by the number of unread characters (which is
  enough, see the lemmas on iteration bounds), the parser routines by a `fuel`
  argument, and a run that uses it up ends in `Err.outOfFuel`;
* the debug output written to `std::cout` is left out.
-/

namespace CMinus

/-! ## Tokens (`lexer.h`) -/

/-- The enumeration `TokenType`, in declaration order. -/
inductive TokenType where
  | IF | ELSE | INT | RETURN | VOID | WHILE
  | PLUS | MINUS | TIMES | DIVIDE | ASSIGN | EQ | NE | LT | LE | GT | GE
  | SEMICOLON | COMMA | LPAREN | RPAREN | LBRACKET | RBRACKET | LBRACE | RBRACE
  | ID | NUM
  | END_OF_FILE
  | ERROR
  deriving DecidableEq, Repr, Inhabited

/-- The value of `static_cast<int>(t)`: the position in the enumeration. -/
def TokenType.code : TokenType → Nat
  | .IF => 0 | .ELSE => 1 | .INT => 2 | .RETURN => 3 | .VOID => 4 | .WHILE => 5
  | .PLUS => 6 | .MINUS => 7 | .TIMES => 8 | .DIVIDE => 9 | .ASSIGN => 10
  | .EQ => 11 | .NE => 12 | .LT => 13 | .LE => 14 | .GT => 15 | .GE => 16
  | .SEMICOLON => 17 | .COMMA => 18 | .LPAREN => 19 | .RPAREN => 20
  | .LBRACKET => 21 | .RBRACKET => 22 | .LBRACE => 23 | .RBRACE => 24
  | .ID => 25 | .NUM => 26
  | .END_OF_FILE => 27
  | .ERROR => 28

/-- The struct `Token`. -/
structure Token where
  type : TokenType
  lexeme : String
  line : Nat
  deriving DecidableEq, Repr, Inhabited

/-- What a run can end in other than a value. -/
inductive Err where
  /-- The `std::runtime_error` thrown by `Lexer::skipComment`. -/
  | scan (msg : String)
  /-- The `std::runtime_error` thrown by `Parser::error`. -/
  | parse (msg : String)
  /-- The `std::invalid_argument` thrown by `std::stoi`. -/
  | invalidArgument
  /-- The `std::out_of_range` thrown by `std::stoi`. -/
  | outOfRange
  /-- A read of `tokenBuffer[i]` with `i ≥ tokenBuffer.size()`. -/
  | outOfBounds (index size : Nat)
  /-- The recursion budget of the embedding is used up (no C++ counterpart). -/
  | outOfFuel
  deriving DecidableEq, Repr

/-! ## Scanner (`lexer.cpp`) -/

/-- The sentinel character `'\0'`. -/
def NUL : Char := Char.ofNat 0

/-- The function `isspace` of the "C" locale: space, `\t`, `\n`, `\v`, `\f`, `\r`. -/
def isspace (c : Char) : Bool :=
  c = ' ' || (9 ≤ c.toNat && c.toNat ≤ 13)

/-- The function `isdigit`. -/
def isdigit (c : Char) : Bool :=
  '0'.toNat ≤ c.toNat && c.toNat ≤ '9'.toNat

/-- The function `isalpha` of the "C" locale. -/
def isalpha (c : Char) : Bool :=
  ('a'.toNat ≤ c.toNat && c.toNat ≤ 'z'.toNat) ||
  ('A'.toNat ≤ c.toNat && c.toNat ≤ 'Z'.toNat)

/-- The function `isalnum` of the "C" locale. -/
def isalnum (c : Char) : Bool :=
  isalpha c || isdigit c

/-- The test `strchr(set, c) != nullptr`: the terminating NUL of `set` counts
as part of the string. -/
def strchr (set : List Char) (c : Char) : Bool :=
  c = NUL || set.contains c

/-- The mutable members of class `Lexer` with its source buffer. -/
structure Lexer where
  source : List Char
  currentPos : Nat
  currentLine : Nat
  deriving DecidableEq, Repr

/-- The constructor `Lexer::Lexer`. -/
def Lexer.new (source : List Char) : Lexer :=
  { source := source, currentPos := 0, currentLine := 1 }

/-- The method `Lexer::peek`. -/
def Lexer.peek (l : Lexer) : Char :=
  if l.currentPos < l.source.length then l.source.getD l.currentPos NUL else NUL

/-- The method `Lexer::advance`: the character consumed and the new state. -/
def Lexer.advance (l : Lexer) : Char × Lexer :=
  if l.currentPos ≥ l.source.length then (NUL, l)
  else
    let c := l.source.getD l.currentPos NUL
    (c, { l with currentPos := l.currentPos + 1,
                 currentLine := if c = '\n' then l.currentLine + 1 else l.currentLine })

/-- The characters not yet consumed; every scanner loop consumes one of them
per iteration, so their number bounds the iterations of each loop. -/
def Lexer.remaining (l : Lexer) : Nat :=
  l.source.length - l.currentPos

/-- The characters from the cursor on. -/
def Lexer.rest (l : Lexer) : List Char :=
  l.source.drop l.currentPos

/-- The loop of `Lexer::skipWhitespace`, at most `n` iterations. -/
def Lexer.skipWhitespaceLoop : Nat → Lexer → Lexer
  | 0, l => l
  | n + 1, l => if isspace l.peek then skipWhitespaceLoop n l.advance.2 else l

/-- The method `Lexer::skipWhitespace`. -/
def Lexer.skipWhitespace (l : Lexer) : Lexer :=
  l.skipWhitespaceLoop l.remaining

/-- The `while (peek() != '\0')` loop of `Lexer::skipComment` with the `throw`
behind it, at most `n` iterations before the loop condition is read a last
time. -/
def Lexer.skipCommentLoop : Nat → Lexer → Except Err Lexer
  | 0, l =>
    .error (.scan ("Unterminated comment at line " ++ toString l.currentLine))
  | n + 1, l =>
    if l.peek ≠ NUL then
      if l.peek = '*' then
        let l1 := l.advance.2
        if l1.peek = '/' then .ok l1.advance.2
        else skipCommentLoop n l1
      else skipCommentLoop n l.advance.2
    else
      .error (.scan ("Unterminated comment at line " ++ toString l.currentLine))

/-- The method `Lexer::skipComment`. -/
def Lexer.skipComment (l : Lexer) : Except Err Lexer :=
  let l2 := l.advance.2.advance.2
  l2.skipCommentLoop l2.remaining

/-- The table `Lexer::keywords`, as the lookup `keywords.find(lexeme)`. -/
def keywords (lexeme : String) : Option TokenType :=
  if lexeme = "if" then some .IF
  else if lexeme = "else" then some .ELSE
  else if lexeme = "int" then some .INT
  else if lexeme = "return" then some .RETURN
  else if lexeme = "void" then some .VOID
  else if lexeme = "while" then some .WHILE
  else none

/-- The loop `while (isalnum(peek())) lexeme += advance();`, at most `n`
iterations. -/
def Lexer.identifierLoop : Nat → String → Lexer → String × Lexer
  | 0, lexeme, l => (lexeme, l)
  | n + 1, lexeme, l =>
    if isalnum l.peek then identifierLoop n (lexeme.push l.advance.1) l.advance.2
    else (lexeme, l)

/-- The method `Lexer::handleIdentifier`. -/
def Lexer.handleIdentifier (l : Lexer) : Token × Lexer :=
  let startLine := l.currentLine
  let (lexeme, l1) := Lexer.identifierLoop l.remaining "" l
  match keywords lexeme with
  | some kw => (⟨kw, lexeme, startLine⟩, l1)
  | none => (⟨.ID, lexeme, startLine⟩, l1)

/-- The loop `while (isdigit(peek())) lexeme += advance();`, at most `n`
iterations. -/
def Lexer.numberLoop : Nat → String → Lexer → String × Lexer
  | 0, lexeme, l => (lexeme, l)
  | n + 1, lexeme, l =>
    if isdigit l.peek then numberLoop n (lexeme.push l.advance.1) l.advance.2
    else (lexeme, l)

/-- The method `Lexer::handleNumber`. -/
def Lexer.handleNumber (l : Lexer) : Token × Lexer :=
  let startLine := l.currentLine
  let (lexeme, l1) := Lexer.numberLoop l.remaining "" l
  (⟨.NUM, lexeme, startLine⟩, l1)

/-- The method `Lexer::handleOperator`. -/
def Lexer.handleOperator (l : Lexer) : Token × Lexer :=
  let startLine := l.currentLine
  let first := l.advance.1
  let l1 := l.advance.2
  let next := l1.peek
  if first = '=' ∧ next = '=' then (⟨.EQ, "==", startLine⟩, l1.advance.2)
  else if first = '!' ∧ next = '=' then (⟨.NE, "!=", startLine⟩, l1.advance.2)
  else if first = '<' ∧ next = '=' then (⟨.LE, "<=", startLine⟩, l1.advance.2)
  else if first = '>' ∧ next = '=' then (⟨.GE, ">=", startLine⟩, l1.advance.2)
  else if first = '+' then (⟨.PLUS, "+", startLine⟩, l1)
  else if first = '-' then (⟨.MINUS, "-", startLine⟩, l1)
  else if first = '*' then (⟨.TIMES, "*", startLine⟩, l1)
  else if first = '/' then (⟨.DIVIDE, "/", startLine⟩, l1)
  else if first = '=' then (⟨.ASSIGN, "=", startLine⟩, l1)
  else if first = '<' then (⟨.LT, "<", startLine⟩, l1)
  else if first = '>' then (⟨.GT, ">", startLine⟩, l1)
  else (⟨.ERROR, String.singleton first, startLine⟩, l1)

/-- The method `Lexer::handleSymbol`. -/
def Lexer.handleSymbol (l : Lexer) : Token × Lexer :=
  let startLine := l.currentLine
  let c := l.advance.1
  let l1 := l.advance.2
  if c = ';' then (⟨.SEMICOLON, ";", startLine⟩, l1)
  else if c = ',' then (⟨.COMMA, ",", startLine⟩, l1)
  else if c = '(' then (⟨.LPAREN, "(", startLine⟩, l1)
  else if c = ')' then (⟨.RPAREN, ")", startLine⟩, l1)
  else if c = '[' then (⟨.LBRACKET, "[", startLine⟩, l1)
  else if c = ']' then (⟨.RBRACKET, "]", startLine⟩, l1)
  else if c = '{' then (⟨.LBRACE, "\x7b", startLine⟩, l1)
  else if c = '}' then (⟨.RBRACE, "\x7d", startLine⟩, l1)
  else (⟨.ERROR, String.singleton c, startLine⟩, l1)

/-- The value of `source.size() - 1` in `size_t` arithmetic: a size is below
`2 ^ 64`, and the subtraction wraps around for the empty source. -/
def Lexer.sizeMinusOne (l : Lexer) : Nat :=
  if l.source.length = 0 then 2 ^ 64 - 1 else l.source.length - 1

/-- The test of `getNextToken` for a comment opening at the cursor:
`peek() == '/' && currentPos < source.size() - 1 && source[currentPos+1] == '*'`. -/
def Lexer.atComment (l : Lexer) : Bool :=
  l.peek = '/' && decide (l.currentPos < l.sizeMinusOne) &&
    l.source.getD (l.currentPos + 1) NUL = '*'

/-- The first loop of `Lexer::getNextToken` (skip whitespace, then a comment
if one opens, and again), at most `n` comments. A comment consumes at least
two characters, so `remaining` bounds their number and the last line of the
`0` case is reached without a comment ahead. -/
def Lexer.skipBlanksLoop : Nat → Lexer → Except Err Lexer
  | 0, l => .ok l.skipWhitespace
  | n + 1, l =>
    let l1 := l.skipWhitespace
    if l1.atComment then
      match l1.skipComment with
      | .ok l2 => skipBlanksLoop n l2
      | .error e => .error e
    else .ok l1

/-- The method `Lexer::getNextToken`: the token and the new scanner state, or
the error thrown. -/
def Lexer.getNextToken (l : Lexer) : Except Err (Token × Lexer) :=
  match l.skipBlanksLoop l.remaining with
  | .error e => .error e
  | .ok l1 =>
    if l1.peek = NUL then .ok (⟨.END_OF_FILE, "", l1.currentLine⟩, l1)
    else
      let c := l1.peek
      if isalpha c then .ok l1.handleIdentifier
      else if isdigit c then .ok l1.handleNumber
      else if strchr ['+', '-', '*', '/', '=', '!', '<', '>'] c then .ok l1.handleOperator
      else if strchr [';', ',', '(', ')', '[', ']', '{', '}'] c then .ok l1.handleSymbol
      else
        let l2 := l1.advance.2
        .ok (⟨.ERROR, String.singleton l1.advance.1, l2.currentLine⟩, l2)

/-- The loop of `Lexer::getAllTokens` with the final `push_back`: `token` is
the token last read, `tokens` the vector so far. Every token other than
END_OF_FILE consumes a character, so `remaining + 1` rounds are enough. -/
def Lexer.getAllTokensLoop : Nat → Lexer → Token → List Token →
    Except Err (List Token × Lexer)
  | 0, l, token, tokens =>
    if token.type ≠ .END_OF_FILE then .error .outOfFuel
    else .ok (tokens ++ [token], l)
  | n + 1, l, token, tokens =>
    if token.type ≠ .END_OF_FILE then
      match l.getNextToken with
      | .ok (t, l1) => getAllTokensLoop n l1 t (tokens ++ [token])
      | .error e => .error e
    else .ok (tokens ++ [token], l)

/-- The method `Lexer::getAllTokens`. -/
def Lexer.getAllTokens (l : Lexer) : Except Err (List Token × Lexer) :=
  match l.getNextToken with
  | .ok (t, l1) => Lexer.getAllTokensLoop (l.remaining + 1) l1 t []
  | .error e => .error e

/-! ## Syntax trees (`ast.h`) -/

/-- The sixteen node classes derived from `ASTNode`, each with the members the
class declares and the `line` of the base class. A child pointer that the
header marks as possibly null is an `Option`. -/
inductive ASTNode where
  | Program (declarations : List ASTNode) (line : Nat)
  | VarDeclaration (typeSpecifier identifier : String) (isArray : Bool)
      (arraySize : Int) (line : Nat)
  | ArrayDeclaration (typeSpecifier identifier : String) (arraySize : Int) (line : Nat)
  | FunDeclaration (returnType identifier : String) (params : List ASTNode)
      (body : ASTNode) (line : Nat)
  | Param (typeSpecifier identifier : String) (isArray : Bool) (line : Nat)
  | CompoundStmt (localDeclarations statements : List ASTNode) (line : Nat)
  | ExpressionStmt (expression : Option ASTNode) (line : Nat)
  | SelectionStmt (condition ifBranch : ASTNode) (elseBranch : Option ASTNode) (line : Nat)
  | IterationStmt (condition body : ASTNode) (line : Nat)
  | ReturnStmt (expression : Option ASTNode) (line : Nat)
  | AssignExpr (var expression : ASTNode) (line : Nat)
  | SimpleExpr (left : ASTNode) (relop : TokenType) (right : ASTNode) (line : Nat)
  | Var (identifier : String) (index : Option ASTNode) (line : Nat)
  | Call (identifier : String) (args : List ASTNode) (line : Nat)
  | Num (value : Int) (line : Nat)
  | BinOp (op : TokenType) (left right : ASTNode) (line : Nat)
  deriving Repr, Inhabited

/-- The member `ASTNode::line`. -/
def ASTNode.line : ASTNode → Nat
  | .Program _ ln => ln
  | .VarDeclaration _ _ _ _ ln => ln
  | .ArrayDeclaration _ _ _ ln => ln
  | .FunDeclaration _ _ _ _ ln => ln
  | .Param _ _ _ ln => ln
  | .CompoundStmt _ _ ln => ln
  | .ExpressionStmt _ ln => ln
  | .SelectionStmt _ _ _ ln => ln
  | .IterationStmt _ _ ln => ln
  | .ReturnStmt _ ln => ln
  | .AssignExpr _ _ ln => ln
  | .SimpleExpr _ _ _ ln => ln
  | .Var _ _ ln => ln
  | .Call _ _ ln => ln
  | .Num _ ln => ln
  | .BinOp _ _ _ ln => ln

/-- The library function `std::stoi` in base 10: leading whitespace, an
optional sign, then the longest run of digits; `std::invalid_argument` without
a digit, `std::out_of_range` outside the range of `int`. -/
def stoi (s : String) : Except Err Int :=
  let cs := s.toList.dropWhile isspace
  let signed : Bool × List Char :=
    match cs with
    | '-' :: r => (true, r)
    | '+' :: r => (false, r)
    | _ => (false, cs)
  let ds := signed.2.takeWhile isdigit
  if ds = [] then .error .invalidArgument
  else
    let v : Nat := ds.foldl (fun a c => 10 * a + (c.toNat - '0'.toNat)) 0
    if signed.1 then
      if v > 2 ^ 31 then .error .outOfRange else .ok (-(v : Int))
    else
      if v > 2 ^ 31 - 1 then .error .outOfRange else .ok (v : Int)

/-! ## Parser (`parser.cpp`) -/

/-- The members of class `Parser`; the scanner it refers to is carried along. -/
structure Parser where
  lexer : Lexer
  tokenBuffer : List Token
  currentIndex : Nat
  deriving DecidableEq, Repr

/-- A parsing routine: it runs on a parser state and ends in a value with the
new state, or in an error. -/
abbrev ParseM (α : Type) : Type := StateT Parser (Except Err) α

/-- The constructor `Parser::Parser`: two tokens are read ahead. -/
def Parser.new (lexer : Lexer) : Except Err Parser :=
  match lexer.getNextToken with
  | .error e => .error e
  | .ok (t0, l1) =>
    match l1.getNextToken with
    | .error e => .error e
    | .ok (t1, l2) => .ok { lexer := l2, tokenBuffer := [t0, t1], currentIndex := 0 }

/-- The read `tokenBuffer[i]`. -/
def bufferAt (i : Nat) : ParseM Token := fun p =>
  match p.tokenBuffer[i]? with
  | some t => .ok (t, p)
  | none => .error (.outOfBounds i p.tokenBuffer.length)

/-- The method `Parser::currentToken`. -/
def currentToken : ParseM Token := fun p => bufferAt p.currentIndex p

/-- The method `Parser::peekToken`. -/
def peekToken : ParseM Token := fun p => bufferAt (p.currentIndex + 1) p

/-- The method `Parser::matchToken`. -/
def matchToken (expected : TokenType) : ParseM Bool := do
  return (← currentToken).type = expected

/-- The text `Parser::error` throws for `message` in state `p`, when the
current token is `cur`. -/
def errorText (message : String) (cur : Token) (p : Parser) : String :=
  message ++ " at line " ++ toString cur.line
    ++ ". Current token: " ++ cur.lexeme
    ++ " (type=" ++ toString cur.type.code ++ ")"
    ++ ", Next token: "
    ++ (match p.tokenBuffer[p.currentIndex + 1]? with
        | some t => t.lexeme
        | none => "none")

/-- The method `Parser::error`: it always throws. -/
def error {α : Type} (message : String) : ParseM α := do
  let cur ← currentToken
  let p ← get
  throw (.parse (errorText message cur p))

/-- The method `Parser::eatToken`. -/
def eatToken (expected : TokenType) : ParseM Unit := do
  if (← matchToken expected) then
    modify fun p => { p with currentIndex := p.currentIndex + 1 }
    let t1 ← bufferAt 1
    let _ ← bufferAt 0
    modify fun p => { p with tokenBuffer := p.tokenBuffer.set 0 t1 }
    let p ← get
    match p.lexer.getNextToken with
    | .error e => throw e
    | .ok (t, l) => set { p with lexer := l, tokenBuffer := p.tokenBuffer.set 1 t }
  else
    let cur ← currentToken
    error ("Expected " ++ toString expected.code
      ++ " but found " ++ toString cur.type.code
      ++ " at line " ++ toString cur.line)

/-- The test `matchToken(INT) || matchToken(VOID)`. -/
def matchType : ParseM Bool := do
  if (← matchToken .INT) then return true else matchToken .VOID

/-- The method `Parser::parseVarDeclaration`. -/
def parseVarDeclaration : ParseM ASTNode := do
  let typeToken ← currentToken
  eatToken typeToken.type
  if !(← matchToken .ID) then
    error "Expected identifier after type specifier"
  let idToken ← currentToken
  eatToken .ID
  if (← matchToken .LBRACKET) then
    eatToken .LBRACKET
    if !(← matchToken .NUM) then
      error "Expected number in array declaration"
    let numToken ← currentToken
    eatToken .NUM
    eatToken .RBRACKET
    eatToken .SEMICOLON
    match stoi numToken.lexeme with
    | .error e => throw e
    | .ok size =>
      return .ArrayDeclaration typeToken.lexeme idToken.lexeme size typeToken.line
  eatToken .SEMICOLON
  return .VarDeclaration typeToken.lexeme idToken.lexeme false 0 typeToken.line

/-- The method `Parser::parseParam`. -/
def parseParam : ParseM ASTNode := do
  let typeToken ← currentToken
  eatToken typeToken.type
  if !(← matchToken .ID) then
    error "Expected identifier in parameter"
  let idToken ← currentToken
  eatToken .ID
  if (← matchToken .LBRACKET) then
    eatToken .LBRACKET
    eatToken .RBRACKET
    return .Param typeToken.lexeme idToken.lexeme true typeToken.line
  return .Param typeToken.lexeme idToken.lexeme false typeToken.line

/-- The `while (matchToken(COMMA))` loop of `Parser::parseParamList`. -/
def parseParamListLoop : Nat → List ASTNode → ParseM (List ASTNode)
  | 0, _ => throw .outOfFuel
  | fuel + 1, params => do
    if (← matchToken .COMMA) then
      eatToken .COMMA
      let param ← parseParam
      parseParamListLoop fuel (params ++ [param])
    else
      return params

/-- The method `Parser::parseParamList`, on the vector `params`. -/
def parseParamList (fuel : Nat) (params : List ASTNode) : ParseM (List ASTNode) := do
  let param ← parseParam
  parseParamListLoop fuel (params ++ [param])

/-- The loop of `Parser::parseLocalDeclarations`, on the vector
`localDeclarations`. -/
def parseLocalDeclarations : Nat → List ASTNode → ParseM (List ASTNode)
  | 0, _ => throw .outOfFuel
  | fuel + 1, decls => do
    if (← matchType) then
      let decl ← parseVarDeclaration
      parseLocalDeclarations fuel (decls ++ [decl])
    else
      return decls

/-- The test of `parseStatementList` for a token that starts a statement. -/
def startsStatement (type : TokenType) : Bool :=
  type = .SEMICOLON || type = .ID || type = .NUM || type = .LPAREN ||
  type = .LBRACE || type = .IF || type = .WHILE || type = .RETURN

/-- The test of `parseSimpleExpression` for a relational operator. -/
def isRelop (op : TokenType) : Bool :=
  op = .LT || op = .LE || op = .GT || op = .GE || op = .EQ || op = .NE

mutual

/-- The method `Parser::parseExpression`. -/
def parseExpression : Nat → ParseM ASTNode
  | 0 => throw .outOfFuel
  | fuel + 1 => do
    let isAssign ← (do
      if (← matchToken .ID) then return (← peekToken).type = .ASSIGN
      else return false : ParseM Bool)
    if isAssign then
      let var ← parseVar fuel
      eatToken .ASSIGN
      let expression ← parseExpression fuel
      return .AssignExpr var expression var.line
    parseSimpleExpression fuel

/-- The method `Parser::parseVar`. -/
def parseVar : Nat → ParseM ASTNode
  | 0 => throw .outOfFuel
  | fuel + 1 => do
    if !(← matchToken .ID) then
      error "Expected identifier for variable"
    let idToken ← currentToken
    eatToken .ID
    if (← matchToken .LBRACKET) then
      eatToken .LBRACKET
      let index ← parseExpression fuel
      eatToken .RBRACKET
      return .Var idToken.lexeme (some index) idToken.line
    return .Var idToken.lexeme none idToken.line

/-- The method `Parser::parseSimpleExpression`. -/
def parseSimpleExpression : Nat → ParseM ASTNode
  | 0 => throw .outOfFuel
  | fuel + 1 => do
    let left ← parseAdditiveExpression fuel
    let op := (← currentToken).type
    if isRelop op then
      eatToken op
      let right ← parseAdditiveExpression fuel
      return .SimpleExpr left op right left.line
    return left

/-- The method `Parser::parseAdditiveExpression`. -/
def parseAdditiveExpression : Nat → ParseM ASTNode
  | 0 => throw .outOfFuel
  | fuel + 1 => do
    let left ← parseTerm fuel
    parseAdditiveLoop fuel left

/-- The `while (matchToken(PLUS) || matchToken(MINUS))` loop of
`Parser::parseAdditiveExpression`, on the variable `left`. -/
def parseAdditiveLoop : Nat → ASTNode → ParseM ASTNode
  | 0, _ => throw .outOfFuel
  | fuel + 1, left => do
    let more ← (do
      if (← matchToken .PLUS) then return true else matchToken .MINUS : ParseM Bool)
    if more then
      let op := (← currentToken).type
      eatToken op
      let right ← parseTerm fuel
      parseAdditiveLoop fuel (.BinOp op left right left.line)
    else
      return left

/-- The method `Parser::parseTerm`. -/
def parseTerm : Nat → ParseM ASTNode
  | 0 => throw .outOfFuel
  | fuel + 1 => do
    let left ← parseFactor fuel
    parseTermLoop fuel left

/-- The `while (matchToken(TIMES) || matchToken(DIVIDE))` loop of
`Parser::parseTerm`, on the variable `left`. -/
def parseTermLoop : Nat → ASTNode → ParseM ASTNode
  | 0, _ => throw .outOfFuel
  | fuel + 1, left => do
    let more ← (do
      if (← matchToken .TIMES) then return true else matchToken .DIVIDE : ParseM Bool)
    if more then
      let op := (← currentToken).type
      eatToken op
      let right ← parseFactor fuel
      parseTermLoop fuel (.BinOp op left right left.line)
    else
      return left

/-- The method `Parser::parseFactor`. -/
def parseFactor : Nat → ParseM ASTNode
  | 0 => throw .outOfFuel
  | fuel + 1 => do
    match (← currentToken).type with
    | .LPAREN =>
      eatToken .LPAREN
      let expr ← parseExpression fuel
      eatToken .RPAREN
      return expr
    | .ID =>
      if (← peekToken).type = .LPAREN then
        parseCall fuel
      else
        parseVar fuel
    | .NUM =>
      let numToken ← currentToken
      eatToken .NUM
      match stoi numToken.lexeme with
      | .error e => throw e
      | .ok value => return .Num value numToken.line
    | _ => error "Unexpected token in factor"

/-- The method `Parser::parseCall`. -/
def parseCall : Nat → ParseM ASTNode
  | 0 => throw .outOfFuel
  | fuel + 1 => do
    let idToken ← currentToken
    eatToken .ID
    eatToken .LPAREN
    let args ← (do
      if !(← matchToken .RPAREN) then parseArgList fuel [] else return [] :
        ParseM (List ASTNode))
    eatToken .RPAREN
    return .Call idToken.lexeme args idToken.line

/-- The method `Parser::parseArgList`, on the vector `args`. -/
def parseArgList : Nat → List ASTNode → ParseM (List ASTNode)
  | 0, _ => throw .outOfFuel
  | fuel + 1, args => do
    let arg ← parseExpression fuel
    parseArgListLoop fuel (args ++ [arg])

/-- The `while (matchToken(COMMA))` loop of `Parser::parseArgList`. -/
def parseArgListLoop : Nat → List ASTNode → ParseM (List ASTNode)
  | 0, _ => throw .outOfFuel
  | fuel + 1, args => do
    if (← matchToken .COMMA) then
      eatToken .COMMA
      let arg ← parseExpression fuel
      parseArgListLoop fuel (args ++ [arg])
    else
      return args

end

/-- The method `Parser::parseExpressionStmt`. -/
def parseExpressionStmt (fuel : Nat) : ParseM ASTNode := do
  let line := (← currentToken).line
  let expression ← (do
    if !(← matchToken .SEMICOLON) then return some (← parseExpression fuel)
    else return none : ParseM (Option ASTNode))
  eatToken .SEMICOLON
  return .ExpressionStmt expression line

/-- The method `Parser::parseReturnStmt`. -/
def parseReturnStmt (fuel : Nat) : ParseM ASTNode := do
  let line := (← currentToken).line
  eatToken .RETURN
  let expression ← (do
    if !(← matchToken .SEMICOLON) then return some (← parseExpression fuel)
    else return none : ParseM (Option ASTNode))
  return .ReturnStmt expression line

mutual

/-- The method `Parser::parseCompoundStmt`. -/
def parseCompoundStmt : Nat → ParseM ASTNode
  | 0 => throw .outOfFuel
  | fuel + 1 => do
    let line := (← currentToken).line
    eatToken .LBRACE
    let localDeclarations ← parseLocalDeclarations fuel []
    let statements ← parseStatementList fuel []
    eatToken .RBRACE
    return .CompoundStmt localDeclarations statements line

/-- The loop of `Parser::parseStatementList`, on the vector `statements`. -/
def parseStatementList : Nat → List ASTNode → ParseM (List ASTNode)
  | 0, _ => throw .outOfFuel
  | fuel + 1, statements => do
    let type := (← currentToken).type
    if startsStatement type then
      let statement ← parseStatement fuel
      parseStatementList fuel (statements ++ [statement])
    else
      return statements

/-- The method `Parser::parseStatement`. -/
def parseStatement : Nat → ParseM ASTNode
  | 0 => throw .outOfFuel
  | fuel + 1 => do
    match (← currentToken).type with
    | .LBRACE => parseCompoundStmt fuel
    | .IF => parseSelectionStmt fuel
    | .WHILE => parseIterationStmt fuel
    | .RETURN => parseReturnStmt fuel
    | .SEMICOLON => parseExpressionStmt fuel
    | .ID => parseExpressionStmt fuel
    | .NUM => parseExpressionStmt fuel
    | .LPAREN => parseExpressionStmt fuel
    | _ => error "Unexpected token in statement"

/-- The method `Parser::parseSelectionStmt`. -/
def parseSelectionStmt : Nat → ParseM ASTNode
  | 0 => throw .outOfFuel
  | fuel + 1 => do
    let line := (← currentToken).line
    eatToken .IF
    eatToken .LPAREN
    let condition ← parseExpression fuel
    eatToken .RPAREN
    let ifBranch ← parseStatement fuel
    if (← matchToken .ELSE) then
      eatToken .ELSE
      let elseBranch ← parseStatement fuel
      return .SelectionStmt condition ifBranch (some elseBranch) line
    return .SelectionStmt condition ifBranch none line

/-- The method `Parser::parseIterationStmt`. -/
def parseIterationStmt : Nat → ParseM ASTNode
  | 0 => throw .outOfFuel
  | fuel + 1 => do
    let line := (← currentToken).line
    eatToken .WHILE
    eatToken .LPAREN
    let condition ← parseExpression fuel
    eatToken .RPAREN
    let body ← parseStatement fuel
    return .IterationStmt condition body line

end

/-- The method `Parser::parseFunDeclaration`. -/
def parseFunDeclaration (fuel : Nat) (typeToken idToken : Token) : ParseM ASTNode := do
  if !(← matchToken .LPAREN) then
    error "Expected '(' after function name"
  eatToken .LPAREN
  let params ← (do
    if (← matchToken .VOID) then
      eatToken .VOID
      return []
    else if !(← matchToken .RPAREN) then
      parseParamList fuel []
    else
      return [] : ParseM (List ASTNode))
  if !(← matchToken .RPAREN) then
    error "Expected ')' after parameters"
  eatToken .RPAREN
  let body ← parseCompoundStmt fuel
  return .FunDeclaration typeToken.lexeme idToken.lexeme params body typeToken.line

/-- The two `tokenBuffer.insert(tokenBuffer.begin(), ...)` calls and the reset
`currentIndex = 0` at the end of `Parser::parseDeclaration`. -/
def pushBack (typeToken idToken : Token) : ParseM Unit :=
  modify fun p =>
    { p with tokenBuffer := typeToken :: idToken :: p.tokenBuffer, currentIndex := 0 }

/-- The method `Parser::parseDeclaration`. -/
def parseDeclaration (fuel : Nat) : ParseM ASTNode := do
  if !(← matchType) then
    error "Expected INT or VOID at start of declaration"
  let typeToken ← currentToken
  eatToken typeToken.type
  if (← matchToken .LPAREN) then
    let idToken : Token := ⟨.ID, "", typeToken.line⟩
    return (← parseFunDeclaration fuel typeToken idToken)
  if !(← matchToken .ID) then
    error "Expected identifier after type specifier"
  let idToken ← currentToken
  eatToken .ID
  if (← matchToken .LPAREN) then
    return (← parseFunDeclaration fuel typeToken idToken)
  pushBack typeToken idToken
  parseVarDeclaration

/-- The `while (matchToken(INT) || matchToken(VOID))` loop of
`Parser::parseDeclarationList`, on the vector `declarations`. -/
def parseDeclarationListLoop : Nat → List ASTNode → ParseM (List ASTNode)
  | 0, _ => throw .outOfFuel
  | fuel + 1, declarations => do
    if (← matchType) then
      let declaration ← parseDeclaration fuel
      parseDeclarationListLoop fuel (declarations ++ [declaration])
    else
      return declarations

/-- The method `Parser::parseDeclarationList`, on the vector
`program.declarations`. -/
def parseDeclarationList (fuel : Nat) (declarations : List ASTNode) :
    ParseM (List ASTNode) := do
  let declaration ← parseDeclaration fuel
  parseDeclarationListLoop fuel (declarations ++ [declaration])

/-- The method `Parser::parseProgram`; a `ProgramNode` is created on line 1. -/
def parseProgram (fuel : Nat) : ParseM ASTNode := do
  let declarations ← parseDeclarationList fuel []
  return .Program declarations 1

/-- The method `Parser::parse`. -/
def parse (fuel : Nat) : ParseM ASTNode :=
  parseProgram fuel

/-- A scanner over `source`, a parser constructed over the scanner, then the
routine `m` on it: the value of `m`, or the error thrown on the way. -/
def runOn {α : Type} (source : List Char) (m : ParseM α) : Except Err α :=
  match Parser.new (Lexer.new source) with
  | .error e => .error e
  | .ok p =>
    match m p with
    | .error e => .error e
    | .ok (a, _) => .ok a

/-- The pipeline of `testParser` in `main.cpp`: a scanner over `source`, a
parser over the scanner, then `parse()`. -/
def parseSource (fuel : Nat) (source : List Char) : Except Err ASTNode :=
  runOn source (parse fuel)

/-! ## Notions used to state properties of the scanner -/

/-- The scanner state after the characters `w` have been consumed from the
cursor on: the cursor moves past them and the line counter grows by the
newlines among them. -/
def Lexer.consume (l : Lexer) (w : List Char) : Lexer :=
  { source := l.source,
    currentPos := l.currentPos + w.length,
    currentLine := l.currentLine + w.count '\n' }

/-- The result of the last of `n + 1` successive calls of `getNextToken`, the
first of them in state `l`; an error ends the sequence. -/
def Lexer.getNextTokenAgain : Nat → Lexer → Except Err (Token × Lexer)
  | 0, l => l.getNextToken
  | n + 1, l =>
    match l.getNextToken with
    | .ok (_, l1) => getNextTokenAgain n l1
    | .error e => .error e

/-- The token `t` with `k` added to its line number. -/
def Token.shift (k : Nat) (t : Token) : Token :=
  { t with line := t.line + k }

/-- Two scanner states with the same unread characters, the line counter of
the second being `k` ahead of that of the first. -/
def Lexer.Shifted (k : Nat) (l l' : Lexer) : Prop :=
  l'.rest = l.rest ∧ l'.currentLine = l.currentLine + k

/-- Two results that agree up to a shift of `k` lines: two values related by
`R`, or two "Unterminated comment" errors whose lines differ by `k`. -/
def ShiftedResult {α : Type} (k : Nat) (R : α → α → Prop) :
    Except Err α → Except Err α → Prop
  | .ok a, .ok a' => R a a'
  | .error e, .error e' =>
    ∃ n : Nat, e = .scan ("Unterminated comment at line " ++ toString n) ∧
      e' = .scan ("Unterminated comment at line " ++ toString (n + k))
  | _, _ => False

/-- The tokens that successive calls of `getNextToken` return from state `l`
on, up to and including the first END_OF_FILE token. -/
def Lexer.Scans : Lexer → List Token → Prop
  | _, [] => False
  | l, t :: ts =>
    ∃ l1, l.getNextToken = .ok (t, l1) ∧
      ((t.type = .END_OF_FILE ∧ ts = []) ∨ (t.type ≠ .END_OF_FILE ∧ Scans l1 ts))

/-- The cursor is inside the source or at its end, and the line counter is 1
plus the number of newlines before the cursor. -/
def Lexer.LineOK (l : Lexer) : Prop :=
  l.currentPos ≤ l.source.length ∧
    l.currentLine = 1 + (l.source.take l.currentPos).count '\n'


/-- The base-10 value of a string of decimal digits, most significant digit
first. -/
def decimalValue (d : List Char) : Nat :=
  Nat.ofDigits 10 (d.reverse.map (fun c => c.toNat - '0'.toNat))


/-- The token of kind `ty` with the characters `w` is scanned again: wherever
the unread text is `w` followed by the end of the text or by a space,
`getNextToken` returns the token of kind `ty` with lexeme `w` and consumes
`w` and nothing else. -/
def Lexer.Rescans (ty : TokenType) (w : List Char) : Prop :=
  ∀ (l : Lexer) (tail : List Char), l.rest = w ++ tail →
    (tail = [] ∨ ∃ tl, tail = ' ' :: tl) →
    l.getNextToken = .ok (⟨ty, String.mk w, l.currentLine⟩, l.consume w)


/-- The lexemes of the tokens other than END_OF_FILE, in order, joined with
single spaces. -/
def joinLexemes (toks : List Token) : List Char :=
  [' '].intercalate
    ((toks.filter (fun t => decide (t.type ≠ .END_OF_FILE))).map (fun t => t.lexeme.data))


/-- The parser object as a call of `Parser::eatToken` leaves it, also when
the call throws: the members `currentIndex` and `tokenBuffer`, the number of
calls of `lexer.getNextToken()` made by then, and the way the call ended. -/
structure EatTrace where
  currentIndex : Nat
  tokenBuffer : List Token
  pulls : Nat
  outcome : Except Err Unit

/-- The method `Parser::eatToken`, statement by statement, with the members
of the parser object at the moment it returns or throws. -/
def eatTokenTrace (expected : TokenType) (p : Parser) : EatTrace :=
  -- `matchToken(expected)` reads `tokenBuffer[currentIndex]`
  match p.tokenBuffer[p.currentIndex]? with
  | none =>
    { currentIndex := p.currentIndex, tokenBuffer := p.tokenBuffer, pulls := 0,
      outcome := .error (.outOfBounds p.currentIndex p.tokenBuffer.length) }
  | some cur =>
    if cur.type = expected then
      -- `currentIndex++;` then `tokenBuffer[0] = tokenBuffer[1];`
      match p.tokenBuffer[1]? with
      | none =>
        { currentIndex := p.currentIndex + 1, tokenBuffer := p.tokenBuffer, pulls := 0,
          outcome := .error (.outOfBounds 1 p.tokenBuffer.length) }
      | some t1 =>
        match p.tokenBuffer[0]? with
        | none =>
          { currentIndex := p.currentIndex + 1, tokenBuffer := p.tokenBuffer, pulls := 0,
            outcome := .error (.outOfBounds 0 p.tokenBuffer.length) }
        | some _ =>
          -- `tokenBuffer[1] = lexer.getNextToken();`
          match p.lexer.getNextToken with
          | .error e =>
            { currentIndex := p.currentIndex + 1, tokenBuffer := p.tokenBuffer.set 0 t1,
              pulls := 1, outcome := .error e }
          | .ok (t, _) =>
            { currentIndex := p.currentIndex + 1,
              tokenBuffer := (p.tokenBuffer.set 0 t1).set 1 t,
              pulls := 1, outcome := .ok () }
    else
      -- the `else` branch only reads the current token and calls `error`
      { currentIndex := p.currentIndex, tokenBuffer := p.tokenBuffer, pulls := 0,
        outcome := .error (.parse (errorText ("Expected " ++ toString expected.code
          ++ " but found " ++ toString cur.type.code
          ++ " at line " ++ toString cur.line) cur p)) }

/-! ## Scanner lemmas: the cursor and the unread suffix -/

theorem Lexer.rest_cons_lt {l : Lexer} {c : Char} {cs : List Char}
    (h : l.rest = c :: cs) : l.currentPos < l.source.length := by
  by_contra hge
  have hnil : l.rest = [] := List.drop_eq_nil_of_le (not_lt.mp hge)
  rw [hnil] at h
  exact List.noConfusion h

theorem Lexer.rest_cons_getD {l : Lexer} {c : Char} {cs : List Char}
    (h : l.rest = c :: cs) :
    l.source.getD l.currentPos NUL = c ∧ l.source.drop (l.currentPos + 1) = cs := by
  have hlt := Lexer.rest_cons_lt h
  unfold Lexer.rest at h
  rw [List.drop_eq_getElem_cons hlt] at h
  injection h with h1 h2
  refine ⟨?_, h2⟩
  rw [List.getD_eq_getElem _ _ hlt]
  exact h1

theorem Lexer.peek_of_rest_cons {l : Lexer} {c : Char} {cs : List Char}
    (h : l.rest = c :: cs) : l.peek = c := by
  unfold Lexer.peek
  rw [if_pos (Lexer.rest_cons_lt h)]
  exact (Lexer.rest_cons_getD h).1

theorem Lexer.peek_of_rest_nil {l : Lexer} (h : l.rest = []) : l.peek = NUL := by
  unfold Lexer.peek
  have hge : ¬ l.currentPos < l.source.length := by
    intro hlt
    unfold Lexer.rest at h
    have := List.drop_eq_nil_iff.mp h
    omega
  rw [if_neg hge]

theorem Lexer.advance_of_rest_cons {l : Lexer} {c : Char} {cs : List Char}
    (h : l.rest = c :: cs) :
    l.advance = (c, { source := l.source, currentPos := l.currentPos + 1,
                      currentLine := if c = '\n' then l.currentLine + 1
                                     else l.currentLine }) := by
  unfold Lexer.advance
  have hlt := Lexer.rest_cons_lt h
  rw [if_neg (by omega)]
  simp only [(Lexer.rest_cons_getD h).1]

theorem Lexer.rest_advance {l : Lexer} {c : Char} {cs : List Char}
    (h : l.rest = c :: cs) : l.advance.2.rest = cs := by
  rw [Lexer.advance_of_rest_cons h]
  exact (Lexer.rest_cons_getD h).2

theorem Lexer.line_advance {l : Lexer} {c : Char} {cs : List Char}
    (h : l.rest = c :: cs) :
    l.advance.2.currentLine = l.currentLine + [c].count '\n' := by
  rw [Lexer.advance_of_rest_cons h]
  by_cases hc : c = '\n'
  · simp [hc]
  · simp [hc, List.count_cons]

/-- A comment body without NUL and without the closing pair runs to the end
of input: the loop of `skipComment` throws, on the line reached there. -/
theorem Lexer.skipCommentLoop_unterminated (n : Nat) :
    ∀ (l : Lexer) (cs : List Char), l.rest = cs → cs.length ≤ n →
      NUL ∉ cs → ¬ (['*', '/'] <:+: cs) →
      l.skipCommentLoop n =
        .error (.scan ("Unterminated comment at line "
          ++ toString (l.currentLine + cs.count '\n'))) := by
  induction n with
  | zero =>
    intro l cs _ hlen _ _
    have : cs = [] := List.length_eq_zero.mp (Nat.le_zero.mp hlen)
    subst this
    simp [Lexer.skipCommentLoop]
  | succ n ih =>
    intro l cs hrest hlen hnul hclose
    cases cs with
    | nil =>
      simp [Lexer.skipCommentLoop, Lexer.peek_of_rest_nil hrest]
    | cons c cs =>
      have hpeek := Lexer.peek_of_rest_cons hrest
      have hrest1 := Lexer.rest_advance hrest
      have hline1 := Lexer.line_advance hrest
      have hc0 : c ≠ NUL := fun h0 => hnul (by simp [h0])
      have hnul1 : NUL ∉ cs := fun hm => hnul (List.mem_cons_of_mem _ hm)
      have hclose1 : ¬ (['*', '/'] <:+: cs) := fun hi =>
        hclose (hi.trans (List.suffix_cons c cs).isInfix)
      have hlen1 : cs.length ≤ n := by simpa using hlen
      have hrec := ih l.advance.2 cs hrest1 hlen1 hnul1 hclose1
      have hcount : l.advance.2.currentLine + cs.count '\n'
          = l.currentLine + (c :: cs).count '\n' := by
        rw [hline1, List.count_cons, List.count_cons]
        simp only [List.count_nil]
        omega
      rw [hcount] at hrec
      unfold Lexer.skipCommentLoop
      rw [hpeek, if_pos hc0]
      by_cases hstar : c = '*'
      · rw [if_pos hstar]
        have hnext : l.advance.2.peek ≠ '/' := by
          intro hs
          cases cs with
          | nil =>
            rw [Lexer.peek_of_rest_nil hrest1] at hs
            exact absurd hs (by decide)
          | cons d ds =>
            rw [Lexer.peek_of_rest_cons hrest1] at hs
            apply hclose
            rw [hstar, hs]
            exact (List.prefix_append ['*', '/'] ds).isInfix
        simp only [hnext, if_false]
        exact hrec
      · rw [if_neg hstar]
        exact hrec

theorem Lexer.remaining_eq_length_rest (l : Lexer) : l.remaining = l.rest.length := by
  simp [Lexer.remaining, Lexer.rest, List.length_drop]

/-! ## The iteration bounds of the scanner loops are enough

Each loop of the scanner is embedded with a bound on its iterations, set to
the number of unread characters. The lemmas of this section show that the
result does not depend on the bound once it is that large: a larger bound
gives the same result, so no loop is ever cut short.
-/

theorem Lexer.rest_nil_of_remaining_zero {l : Lexer} (h : l.remaining ≤ 0) :
    l.rest = [] := by
  rw [Lexer.remaining_eq_length_rest] at h
  exact List.length_eq_zero.mp (Nat.le_zero.mp h)

theorem Lexer.remaining_advance {l : Lexer} {c : Char} {cs : List Char}
    (h : l.rest = c :: cs) : l.advance.2.remaining + 1 = l.remaining := by
  rw [Lexer.remaining_eq_length_rest, Lexer.remaining_eq_length_rest,
    Lexer.rest_advance h, h]
  rfl

theorem Lexer.advance_of_rest_nil {l : Lexer} (h : l.rest = []) : l.advance = (NUL, l) := by
  unfold Lexer.advance
  have hge : l.currentPos ≥ l.source.length := List.drop_eq_nil_iff.mp h
  rw [if_pos hge]

theorem Lexer.skipWhitespaceLoop_fuel (n : Nat) :
    ∀ (m : Nat) (l : Lexer), l.remaining ≤ n → l.remaining ≤ m →
      l.skipWhitespaceLoop n = l.skipWhitespaceLoop m := by
  induction n with
  | zero =>
    intro m l hn _
    have hp := Lexer.peek_of_rest_nil (Lexer.rest_nil_of_remaining_zero hn)
    cases m with
    | zero => rfl
    | succ m =>
      unfold Lexer.skipWhitespaceLoop
      rw [hp]
      rfl
  | succ n ih =>
    intro m l hn hm
    cases hrest : l.rest with
    | nil =>
      have hp := Lexer.peek_of_rest_nil hrest
      cases m with
      | zero =>
        unfold Lexer.skipWhitespaceLoop
        rw [hp]
        rfl
      | succ m =>
        rw [Lexer.skipWhitespaceLoop, Lexer.skipWhitespaceLoop, hp]
        rfl
    | cons c cs =>
      have hrem := Lexer.remaining_advance hrest
      cases m with
      | zero => omega
      | succ m =>
        rw [Lexer.skipWhitespaceLoop, Lexer.skipWhitespaceLoop]
        by_cases hs : isspace l.peek = true
        · rw [if_pos hs, if_pos hs]
          exact ih m l.advance.2 (by omega) (by omega)
        · rw [if_neg hs, if_neg hs]

theorem Lexer.skipCommentLoop_fuel (n : Nat) :
    ∀ (m : Nat) (l : Lexer), l.remaining ≤ n → l.remaining ≤ m →
      l.skipCommentLoop n = l.skipCommentLoop m := by
  induction n with
  | zero =>
    intro m l hn _
    have hp := Lexer.peek_of_rest_nil (Lexer.rest_nil_of_remaining_zero hn)
    cases m with
    | zero => rfl
    | succ m =>
      rw [Lexer.skipCommentLoop, Lexer.skipCommentLoop, hp]
      simp
  | succ n ih =>
    intro m l hn hm
    cases hrest : l.rest with
    | nil =>
      have hp := Lexer.peek_of_rest_nil hrest
      cases m with
      | zero =>
        rw [Lexer.skipCommentLoop, Lexer.skipCommentLoop, hp]
        simp
      | succ m =>
        rw [Lexer.skipCommentLoop, Lexer.skipCommentLoop, hp]
        simp
    | cons c cs =>
      have hrem := Lexer.remaining_advance hrest
      cases m with
      | zero => omega
      | succ m =>
        have hrec := ih m l.advance.2 (by omega) (by omega)
        rw [Lexer.skipCommentLoop, Lexer.skipCommentLoop]
        simp only [hrec]

theorem Lexer.identifierLoop_fuel (n : Nat) :
    ∀ (m : Nat) (lexeme : String) (l : Lexer), l.remaining ≤ n → l.remaining ≤ m →
      Lexer.identifierLoop n lexeme l = Lexer.identifierLoop m lexeme l := by
  induction n with
  | zero =>
    intro m lexeme l hn _
    have hp := Lexer.peek_of_rest_nil (Lexer.rest_nil_of_remaining_zero hn)
    cases m with
    | zero => rfl
    | succ m =>
      rw [Lexer.identifierLoop, Lexer.identifierLoop, hp]
      rfl
  | succ n ih =>
    intro m lexeme l hn hm
    cases hrest : l.rest with
    | nil =>
      have hp := Lexer.peek_of_rest_nil hrest
      cases m with
      | zero =>
        rw [Lexer.identifierLoop, Lexer.identifierLoop, hp]
        rfl
      | succ m =>
        rw [Lexer.identifierLoop, Lexer.identifierLoop, hp]
        rfl
    | cons c cs =>
      have hrem := Lexer.remaining_advance hrest
      cases m with
      | zero => omega
      | succ m =>
        have hrec := ih m (lexeme.push l.advance.1) l.advance.2 (by omega) (by omega)
        rw [Lexer.identifierLoop, Lexer.identifierLoop, hrec]

theorem Lexer.numberLoop_fuel (n : Nat) :
    ∀ (m : Nat) (lexeme : String) (l : Lexer), l.remaining ≤ n → l.remaining ≤ m →
      Lexer.numberLoop n lexeme l = Lexer.numberLoop m lexeme l := by
  induction n with
  | zero =>
    intro m lexeme l hn _
    have hp := Lexer.peek_of_rest_nil (Lexer.rest_nil_of_remaining_zero hn)
    cases m with
    | zero => rfl
    | succ m =>
      rw [Lexer.numberLoop, Lexer.numberLoop, hp]
      rfl
  | succ n ih =>
    intro m lexeme l hn hm
    cases hrest : l.rest with
    | nil =>
      have hp := Lexer.peek_of_rest_nil hrest
      cases m with
      | zero =>
        rw [Lexer.numberLoop, Lexer.numberLoop, hp]
        rfl
      | succ m =>
        rw [Lexer.numberLoop, Lexer.numberLoop, hp]
        rfl
    | cons c cs =>
      have hrem := Lexer.remaining_advance hrest
      cases m with
      | zero => omega
      | succ m =>
        have hrec := ih m (lexeme.push l.advance.1) l.advance.2 (by omega) (by omega)
        rw [Lexer.numberLoop, Lexer.numberLoop, hrec]

theorem Lexer.remaining_advance_le (l : Lexer) : l.advance.2.remaining ≤ l.remaining := by
  cases hrest : l.rest with
  | nil => rw [Lexer.advance_of_rest_nil hrest]
  | cons c cs =>
    have := Lexer.remaining_advance hrest
    omega

theorem Lexer.skipWhitespaceLoop_remaining (n : Nat) :
    ∀ (l : Lexer), (l.skipWhitespaceLoop n).remaining ≤ l.remaining := by
  induction n with
  | zero => intro l; exact le_rfl
  | succ n ih =>
    intro l
    rw [Lexer.skipWhitespaceLoop]
    by_cases hs : isspace l.peek = true
    · rw [if_pos hs]
      exact le_trans (ih l.advance.2) (Lexer.remaining_advance_le l)
    · rw [if_neg hs]

theorem Lexer.skipCommentLoop_remaining (n : Nat) :
    ∀ (l l' : Lexer), l.skipCommentLoop n = .ok l' → l'.remaining ≤ l.remaining := by
  induction n with
  | zero =>
    intro l l' h
    rw [Lexer.skipCommentLoop] at h
    exact Except.noConfusion h
  | succ n ih =>
    intro l l' h
    rw [Lexer.skipCommentLoop] at h
    have h1 := Lexer.remaining_advance_le l
    have h2 := Lexer.remaining_advance_le l.advance.2
    split at h
    · split at h
      · simp only at h
        split at h
        · injection h with h
          rw [← h]
          omega
        · exact le_trans (ih _ _ h) h1
      · exact le_trans (ih _ _ h) h1
    · exact Except.noConfusion h

/-- Where `getNextToken` sees a comment open, the two characters `/*` are
unread at the cursor. -/
theorem Lexer.rest_of_atComment {l : Lexer} (h : l.atComment = true) :
    ∃ cs, l.rest = '/' :: '*' :: cs := by
  unfold Lexer.atComment at h
  simp only [Bool.and_eq_true, decide_eq_true_eq] at h
  obtain ⟨⟨hpeek, _⟩, hnext⟩ := h
  cases hrest : l.rest with
  | nil =>
    rw [Lexer.peek_of_rest_nil hrest] at hpeek
    exact absurd hpeek (by decide)
  | cons c cs =>
    rw [Lexer.peek_of_rest_cons hrest] at hpeek
    subst hpeek
    have hdrop := (Lexer.rest_cons_getD hrest).2
    cases cs with
    | nil =>
      have hge : l.source.length ≤ l.currentPos + 1 := List.drop_eq_nil_iff.mp hdrop
      rw [List.getD_eq_default _ _ hge] at hnext
      exact absurd hnext (by decide)
    | cons d ds =>
      have hlt : l.currentPos + 1 < l.source.length := by
        by_contra hge
        rw [List.drop_eq_nil_of_le (not_lt.mp hge)] at hdrop
        exact List.noConfusion hdrop
      rw [List.drop_eq_getElem_cons hlt] at hdrop
      injection hdrop with hd _
      rw [List.getD_eq_getElem _ _ hlt, hd] at hnext
      exact ⟨ds, by rw [hnext]⟩

theorem Lexer.skipComment_remaining {l l' : Lexer} (hat : l.atComment = true)
    (h : l.skipComment = .ok l') : l'.remaining + 2 ≤ l.remaining := by
  obtain ⟨cs, hrest⟩ := Lexer.rest_of_atComment hat
  have h1 := Lexer.remaining_advance hrest
  have h2 := Lexer.remaining_advance (Lexer.rest_advance hrest)
  unfold Lexer.skipComment at h
  have h3 := Lexer.skipCommentLoop_remaining _ _ _ h
  omega

theorem Lexer.skipBlanksLoop_fuel (n : Nat) :
    ∀ (m : Nat) (l : Lexer), l.remaining ≤ n → l.remaining ≤ m →
      l.skipBlanksLoop n = l.skipBlanksLoop m := by
  have hzero : ∀ (k : Nat) (l : Lexer), l.remaining ≤ 0 →
      l.skipBlanksLoop k = .ok l.skipWhitespace := by
    intro k l h0
    cases k with
    | zero => rfl
    | succ k =>
      rw [Lexer.skipBlanksLoop]
      have hw : l.skipWhitespace.remaining ≤ l.remaining :=
        Lexer.skipWhitespaceLoop_remaining _ l
      have hat : ¬ l.skipWhitespace.atComment = true := by
        intro hat
        obtain ⟨cs, hrest⟩ := Lexer.rest_of_atComment hat
        have := Lexer.remaining_advance hrest
        omega
      rw [if_neg hat]
  induction n with
  | zero =>
    intro m l hn _
    rw [hzero 0 l hn, hzero m l hn]
  | succ n ih =>
    intro m l hn hm
    cases m with
    | zero => rw [hzero 0 l hm, hzero (n + 1) l hm]
    | succ m =>
      rw [Lexer.skipBlanksLoop, Lexer.skipBlanksLoop]
      have hw : l.skipWhitespace.remaining ≤ l.remaining :=
        Lexer.skipWhitespaceLoop_remaining _ l
      by_cases hat : l.skipWhitespace.atComment = true
      · rw [if_pos hat, if_pos hat]
        cases hc : l.skipWhitespace.skipComment with
        | error e => rfl
        | ok l2 =>
          have h2 := Lexer.skipComment_remaining hat hc
          exact ih m l2 (by omega) (by omega)
      · rw [if_neg hat, if_neg hat]

/-! ## The token window and the parser on the specification's examples

`Parser::eatToken` both increments `currentIndex` and shifts the two-token
buffer. From the state the constructor leaves (`currentIndex = 0`, two
tokens), the first successful call therefore makes the token pulled from the
scanner the current one, stepping over the token that was the lookahead, and
the second successful call moves `currentIndex` to 2, past the end of the
buffer. The theorems below run the routines on the examples of the
specification.
-/

/-- C1 (fails in the code): the source `int a; int b;` conforms to the
grammar, with two top-level declarations, but `parse()` on it does not return
a Program: after `int` is consumed the current token is `;`, not `a`, and the
parser throws "Expected identifier after type specifier". -/
theorem C1_conforming_source_rejected (fuel : Nat) :
    parseSource fuel "int a; int b;".toList =
      .error (.parse ("Expected identifier after type specifier at line 1. "
        ++ "Current token: ; (type=17), Next token: none")) := by
  rfl

/-- C2 (fails in the code): in the state the constructor leaves on `int a;`
the lookahead `peekToken()` is the identifier `a`; after the successful
`eatToken(INT)` the current token is `;`, the token freshly pulled from the
scanner, so `a` is skipped, and `peekToken()` reads `tokenBuffer[2]` of a
buffer of two tokens. -/
theorem C2_eatToken_skips_lookahead :
    runOn "int a;".toList peekToken = .ok ⟨.ID, "a", 1⟩ ∧
    runOn "int a;".toList (do eatToken .INT; currentToken) = .ok ⟨.SEMICOLON, ";", 1⟩ ∧
    runOn "int a;".toList (do eatToken .INT; peekToken) = .error (.outOfBounds 2 2) := by
  refine ⟨?_, ?_, ?_⟩ <;> rfl

/-- C3 (fails in the code): on `int a;` the routine `parseDeclaration` throws
before it reaches the pushback; the pushback itself lengthens the buffer by
two tokens in every state; and after a pushback of `int` and `a` onto a window
standing at `;`, `parseVarDeclaration` sees `int` and then the end-of-file
token pulled from the scanner instead of `a`, and throws. -/
theorem C3_pushback_breaks_window (fuel : Nat) :
    runOn "int a;".toList (parseDeclaration fuel) =
      .error (.parse ("Expected identifier after type specifier at line 1. "
        ++ "Current token: ; (type=17), Next token: none")) ∧
    (∀ (typeToken idToken : Token) (p : Parser),
      (pushBack typeToken idToken p).map (fun r => r.2.tokenBuffer.length) =
        .ok (p.tokenBuffer.length + 2)) ∧
    runOn ";".toList (do pushBack ⟨.INT, "int", 1⟩ ⟨.ID, "a", 1⟩; parseVarDeclaration) =
      .error (.parse ("Expected identifier after type specifier at line 1. "
        ++ "Current token:  (type=27), Next token: ;")) := by
  refine ⟨rfl, ?_, rfl⟩
  intro typeToken idToken p
  rfl

/-- C4 (fails in the code): on `1 - 2 - 3` the routine
`parseAdditiveExpression` returns the single node `Num 1` and stops with `2` as
the current token; it does not return the left-nested tree of the chain. The
routine `parseTerm` does the same on `1 * 2 * 3`. -/
theorem C4_chain_cut_after_first_operand (fuel : Nat) :
    runOn "1 - 2 - 3".toList
        (do let e ← parseAdditiveExpression (fuel + 3); return (e, ← currentToken)) =
      .ok (.Num 1 1, ⟨.NUM, "2", 1⟩) ∧
    runOn "1 * 2 * 3".toList
        (do let e ← parseTerm (fuel + 2); return (e, ← currentToken)) =
      .ok (.Num 1 1, ⟨.NUM, "2", 1⟩) := by
  refine ⟨?_, ?_⟩ <;> rfl

/-- C5 (fails in the code): neither `int a;` nor `int a[10];` parses to a
Program; both end in the parse error "Expected identifier after type
specifier", raised at the token after the identifier. -/
theorem C5_variable_declarations_rejected (fuel : Nat) :
    parseSource fuel "int a;".toList =
      .error (.parse ("Expected identifier after type specifier at line 1. "
        ++ "Current token: ; (type=17), Next token: none")) ∧
    parseSource fuel "int a[10];".toList =
      .error (.parse ("Expected identifier after type specifier at line 1. "
        ++ "Current token: [ (type=21), Next token: none")) := by
  refine ⟨?_, ?_⟩ <;> rfl

/-- C6 (fails in the code): on `int f(void){ return 0; }`, with or without a
following `int x;`, `parse()` returns no Program: the run takes `(` for the
token after the type, eats it, and then reads `tokenBuffer[2]` of a buffer of
two tokens. -/
theorem C6_function_declaration_reads_past_buffer (fuel : Nat) :
    parseSource fuel "int f(void)\x7b return 0; \x7d".toList = .error (.outOfBounds 2 2) ∧
    parseSource fuel "int f(void)\x7b return 0; \x7d int x;".toList =
      .error (.outOfBounds 2 2) := by
  refine ⟨?_, ?_⟩ <;> rfl

/-- C7 (fails in the code): on `1 < 2 < 3` the routine `parseSimpleExpression`
returns `Num 1`, not a SimpleExpr, and leaves `2` as the current token; the
expression statement `1 < 2 < 3;` fails with a parse error whose offending
token is `2`, not the second `<`. -/
theorem C7_relational_operand_skipped (fuel : Nat) :
    runOn "1 < 2 < 3".toList
        (do let e ← parseSimpleExpression (fuel + 4); return (e, ← currentToken)) =
      .ok (.Num 1 1, ⟨.NUM, "2", 1⟩) ∧
    runOn "1 < 2 < 3;".toList (parseExpressionStmt (fuel + 5)) =
      .error (.parse ("Expected 17 but found 26 at line 1 at line 1. "
        ++ "Current token: 2 (type=26), Next token: none")) := by
  refine ⟨?_, ?_⟩ <;> rfl

/-- C8 (fails in the code): on `if (a) if (b) s1; else s2;` the routine
`parseSelectionStmt` returns no node: after `if` is consumed the current token
is `a`, not `(`, and `eatToken(LPAREN)` throws. -/
theorem C8_nested_if_rejected (fuel : Nat) :
    runOn "if (a) if (b) s1; else s2;".toList (parseSelectionStmt (fuel + 1)) =
      .error (.parse ("Expected 19 but found 25 at line 1 at line 1. "
        ++ "Current token: a (type=25), Next token: none")) := by
  rfl

/-- C9 (fails in the code): on `int f(void){ x = @; }` the scanner does not
fail and emits an ERROR token with lexeme `@`, but `parse()` never reaches it:
the run ends reading `tokenBuffer[2]` of a buffer of two tokens, not in a
parse error citing `@`. -/
theorem C9_error_token_not_reached (fuel : Nat) :
    (Lexer.new "int f(void)\x7b x = @; \x7d".toList).getAllTokens.map
        (fun r => r.1.map (fun t => (t.type, t.lexeme))) =
      .ok [(.INT, "int"), (.ID, "f"), (.LPAREN, "("), (.VOID, "void"), (.RPAREN, ")"),
           (.LBRACE, "\x7b"), (.ID, "x"), (.ASSIGN, "="), (.ERROR, "@"),
           (.SEMICOLON, ";"), (.RBRACE, "\x7d"), (.END_OF_FILE, "")] ∧
    parseSource fuel "int f(void)\x7b x = @; \x7d".toList = .error (.outOfBounds 2 2) := by
  refine ⟨?_, ?_⟩ <;> rfl

/-! ## Unterminated comments -/

/-- C10 (counterexample): the text NUL, newline contains no `*/`; on the source
`/*` followed by it `getNextToken` throws "Unterminated comment at line 1",
while the source has one newline, so the claim asks for line 2. -/
theorem C10_counterexample_nul_in_comment :
    ¬ (['*', '/'] <:+: [NUL, '\n']) ∧
    (Lexer.new ['/', '*', NUL, '\n']).getNextToken =
      .error (.scan "Unterminated comment at line 1") ∧
    (Lexer.new ['/', '*', NUL, '\n']).getNextToken ≠
      .error (.scan ("Unterminated comment at line "
        ++ toString (1 + ['/', '*', NUL, '\n'].count '\n'))) := by
  refine ⟨by decide, rfl, ?_⟩
  intro h
  have h1 : (Lexer.new ['/', '*', NUL, '\n']).getNextToken =
      .error (.scan "Unterminated comment at line 1") := rfl
  rw [h1] at h
  injection h with h
  injection h with h
  exact absurd h (by decide)

/-- C10 (amended): for every text `t` with no occurrence of `*/` and no NUL
character, `getNextToken` on the source `/*` followed by `t` does not return
a token but throws the scan error "Unterminated comment", and the line it
reports is that of the end of input: 1 plus the number of newline characters
in the source. -/
theorem C10_unterminated_comment (t : List Char)
    (hclose : ¬ (['*', '/'] <:+: t)) (hnul : NUL ∉ t) :
    (Lexer.new ('/' :: '*' :: t)).getNextToken =
      .error (.scan ("Unterminated comment at line "
        ++ toString (1 + ('/' :: '*' :: t).count '\n'))) := by
  have hrest0 : (Lexer.new ('/' :: '*' :: t)).rest = '/' :: '*' :: t := rfl
  have hpeek0 := Lexer.peek_of_rest_cons hrest0
  have hrem0 : (Lexer.new ('/' :: '*' :: t)).remaining = t.length + 1 + 1 := by
    rw [Lexer.remaining_eq_length_rest, hrest0]
    rfl
  have hws : (Lexer.new ('/' :: '*' :: t)).skipWhitespace = Lexer.new ('/' :: '*' :: t) := by
    unfold Lexer.skipWhitespace
    rw [hrem0]
    unfold Lexer.skipWhitespaceLoop
    rw [hpeek0]
    rfl
  have hat : (Lexer.new ('/' :: '*' :: t)).atComment = true := by
    unfold Lexer.atComment
    rw [hpeek0]
    simp [Lexer.sizeMinusOne, Lexer.new]
  have hrest1 := Lexer.rest_advance hrest0
  have hrest2 := Lexer.rest_advance hrest1
  have hline1 := Lexer.line_advance hrest0
  have hline2 := Lexer.line_advance hrest1
  have hrem2 : (Lexer.new ('/' :: '*' :: t)).advance.2.advance.2.remaining = t.length := by
    rw [Lexer.remaining_eq_length_rest, hrest2]
  have hloop := Lexer.skipCommentLoop_unterminated t.length _ t hrest2 le_rfl hnul hclose
  have hline : (Lexer.new ('/' :: '*' :: t)).advance.2.advance.2.currentLine
      + t.count '\n' = 1 + ('/' :: '*' :: t).count '\n' := by
    rw [hline2, hline1]
    simp [List.count_cons, Lexer.new]
  rw [hline] at hloop
  have hcomment : (Lexer.new ('/' :: '*' :: t)).skipComment =
      .error (.scan ("Unterminated comment at line "
        ++ toString (1 + ('/' :: '*' :: t).count '\n'))) := by
    unfold Lexer.skipComment
    simp only [hrem2]
    exact hloop
  have hskip : (Lexer.new ('/' :: '*' :: t)).skipBlanksLoop
      (Lexer.new ('/' :: '*' :: t)).remaining =
      .error (.scan ("Unterminated comment at line "
        ++ toString (1 + ('/' :: '*' :: t).count '\n'))) := by
    rw [hrem0]
    unfold Lexer.skipBlanksLoop
    simp only [hws, hat, if_true, hcomment]
  unfold Lexer.getNextToken
  rw [hskip]

/-- C10 (witness): `/* never closes` reports line 1, and so does `/*/`. -/
theorem C10_unterminated_comment_witness :
    (¬ (['*', '/'] <:+: " never closes".toList) ∧ NUL ∉ " never closes".toList ∧
      (Lexer.new "/* never closes".toList).getNextToken =
        .error (.scan "Unterminated comment at line 1")) ∧
    (Lexer.new "/*/".toList).getNextToken =
      .error (.scan "Unterminated comment at line 1") :=
  ⟨⟨by decide, by decide,
      C10_unterminated_comment " never closes".toList (by decide) (by decide)⟩,
    C10_unterminated_comment ['/'] (by decide) (by decide)⟩

/-! ## Expressions, statements and blocks on the specification's examples -/

/-- C17 (fails in the code): on `x[i] = e` the routine `parseExpression`
returns the node `Var x` without index, not an AssignExpr, and stops with `i`
as the current token; on `x = e` it throws in `eatToken(ASSIGN)`; and the
statement `a[0] = 1;` is rejected with a parse error at the token `0`. -/
theorem C17_array_element_assignment_rejected (fuel : Nat) :
    runOn "x[i] = e".toList
        (do let e ← parseExpression (fuel + 6); return (e, ← currentToken)) =
      .ok (.Var "x" none 1, ⟨.ID, "i", 1⟩) ∧
    runOn "x = e".toList (parseExpression (fuel + 2)) =
      .error (.parse ("Expected 10 but found 25 at line 1 at line 1. "
        ++ "Current token: e (type=25), Next token: none")) ∧
    runOn "a[0] = 1;".toList (parseExpressionStmt (fuel + 6)) =
      .error (.parse ("Expected 17 but found 26 at line 1 at line 1. "
        ++ "Current token: 0 (type=26), Next token: none")) := by
  refine ⟨?_, ?_, ?_⟩ <;> rfl

/-- C18 (fails in the code): on `return 0;` the routine `parseReturnStmt`
succeeds with a ReturnStmt that carries no expression, and on return the
current token is the `;` itself, which it has not consumed; the block
`{ return 0; }` yields no CompoundStmt at all, the run reads `tokenBuffer[2]`
of a buffer of two tokens. -/
theorem C18_return_leaves_terminator (fuel : Nat) :
    runOn "return 0;".toList
        (do let s ← parseReturnStmt fuel; return (s, ← currentToken)) =
      .ok (.ReturnStmt none 1, ⟨.SEMICOLON, ";", 1⟩) ∧
    runOn "\x7b return 0; \x7d".toList (parseCompoundStmt (fuel + 8)) =
      .error (.outOfBounds 2 2) := by
  refine ⟨?_, ?_⟩ <;> rfl

/-- C19 (fails in the code): the block `{ x; int y; }`, in which a declaration
follows a statement, is not rejected with a parse error at the type token:
the run reads `tokenBuffer[2]` of a buffer of two tokens after the first
statement. On `{ x }` the routine succeeds, with both lists empty. -/
theorem C19_declaration_after_statement_not_reported (fuel : Nat) :
    runOn "\x7b x; int y; \x7d".toList (parseCompoundStmt (fuel + 3)) =
      .error (.outOfBounds 2 2) ∧
    runOn "\x7b x \x7d".toList (parseCompoundStmt (fuel + 2)) =
      .ok (.CompoundStmt [] [] 1) := by
  refine ⟨?_, ?_⟩ <;> rfl


/-! ## The first token of a program -/

theorem matchToken_apply (expected : TokenType) (p : Parser) (t : Token)
    (h : p.tokenBuffer[p.currentIndex]? = some t) :
    matchToken expected p = .ok (decide (t.type = expected), p) := by
  simp [matchToken, currentToken, bufferAt, h, bind, StateT.bind, Except.bind, pure,
    StateT.pure, Except.pure]

theorem error_apply {α : Type} (message : String) (p : Parser) (t : Token)
    (h : p.tokenBuffer[p.currentIndex]? = some t) :
    (error message : ParseM α) p = .error (.parse (errorText message t p)) := by
  simp [error, currentToken, bufferAt, h, bind, StateT.bind, Except.bind, get, getThe,
    MonadStateOf.get, StateT.get, pure, Except.pure, throw, throwThe, MonadExceptOf.throw,
    StateT.lift, liftM, monadLift, MonadLift.monadLift]

/-- Where the current token is neither `int` nor `void`, `parseDeclaration`
throws at once. -/
theorem parseDeclaration_not_type (fuel : Nat) (p : Parser) (t : Token)
    (h : p.tokenBuffer[p.currentIndex]? = some t)
    (hint : t.type ≠ .INT) (hvoid : t.type ≠ .VOID) :
    parseDeclaration fuel p =
      .error (.parse (errorText "Expected INT or VOID at start of declaration" t p)) := by
  have hm : matchType p = .ok (false, p) := by
    simp [matchType, matchToken_apply _ p t h, hint, hvoid, bind, StateT.bind, Except.bind]
  unfold parseDeclaration
  simp [hm, error_apply _ p t h, bind, StateT.bind, Except.bind]

theorem parseDeclarationListLoop_extends (n : Nat) :
    ∀ (decls : List ASTNode) (p : Parser) (r : List ASTNode) (p' : Parser),
      parseDeclarationListLoop n decls p = .ok (r, p') → ∃ more, r = decls ++ more := by
  induction n with
  | zero =>
    intro decls p r p' h
    simp [parseDeclarationListLoop, throw, throwThe, MonadExceptOf.throw,
      StateT.lift, liftM, monadLift, MonadLift.monadLift, bind, StateT.bind,
      Except.bind] at h
  | succ n ih =>
    intro decls p r p' h
    rw [parseDeclarationListLoop] at h
    simp only [bind, StateT.bind, Except.bind] at h
    cases hm : matchType p with
    | error e => rw [hm] at h; exact Except.noConfusion h
    | ok bp =>
      obtain ⟨b, p1⟩ := bp
      rw [hm] at h
      cases b with
      | false =>
        simp [pure, StateT.pure, Except.pure] at h
        exact ⟨[], by simp [h.1]⟩
      | true =>
        simp only [if_true, bind, StateT.bind, Except.bind] at h
        cases hd : parseDeclaration n p1 with
        | error e => rw [hd] at h; exact Except.noConfusion h
        | ok dp =>
          obtain ⟨d, p2⟩ := dp
          rw [hd] at h
          obtain ⟨more, hmore⟩ := ih _ _ _ _ h
          exact ⟨d :: more, by simp [hmore]⟩

/-- A Program that `parse()` returns has at least one declaration. -/
theorem parse_declarations_nonempty (fuel : Nat) (p p' : Parser) (program : ASTNode)
    (h : parse fuel p = .ok (program, p')) :
    ∃ d ds, program = .Program (d :: ds) 1 := by
  unfold parse parseProgram parseDeclarationList at h
  simp only [bind, StateT.bind, Except.bind] at h
  cases hd : parseDeclaration fuel p with
  | error e => rw [hd] at h; exact Except.noConfusion h
  | ok dp =>
    obtain ⟨d, p1⟩ := dp
    rw [hd] at h
    simp only at h
    cases hl : parseDeclarationListLoop fuel ([] ++ [d]) p1 with
    | error e => rw [hl] at h; exact Except.noConfusion h
    | ok rp =>
      obtain ⟨r, p2⟩ := rp
      rw [hl] at h
      obtain ⟨more, hmore⟩ := parseDeclarationListLoop_extends _ _ _ _ _ hl
      simp [pure, StateT.pure, Except.pure] at h
      exact ⟨d, more, by rw [← h.1, hmore]; rfl⟩

/-- C20: for every source over which a parser is constructed (the scanner
delivers the two tokens read ahead) and whose first token is neither `int` nor
`void`, `parse()` throws the parse error "Expected INT or VOID at start of
declaration", reported at that first token; and in no state does `parse()`
return a Program with an empty list of declarations. -/
theorem C20_first_token_must_be_type (source : List Char) (t0 t1 : Token)
    (l1 l2 : Lexer) (fuel : Nat)
    (hfirst : (Lexer.new source).getNextToken = .ok (t0, l1))
    (hsecond : l1.getNextToken = .ok (t1, l2))
    (hint : t0.type ≠ .INT) (hvoid : t0.type ≠ .VOID) :
    parseSource fuel source =
      .error (.parse (errorText "Expected INT or VOID at start of declaration" t0
        { lexer := l2, tokenBuffer := [t0, t1], currentIndex := 0 })) ∧
    ∀ (p p' : Parser) (program : ASTNode), parse fuel p = .ok (program, p') →
      ∃ d ds, program = .Program (d :: ds) 1 := by
  refine ⟨?_, fun p p' program h => parse_declarations_nonempty fuel p p' program h⟩
  have hnew : Parser.new (Lexer.new source) =
      .ok { lexer := l2, tokenBuffer := [t0, t1], currentIndex := 0 } := by
    simp [Parser.new, hfirst, hsecond]
  have hdecl := parseDeclaration_not_type fuel
    { lexer := l2, tokenBuffer := [t0, t1], currentIndex := 0 } t0 rfl hint hvoid
  unfold parseSource runOn
  rw [hnew]
  simp only
  unfold parse parseProgram parseDeclarationList
  simp only [bind, StateT.bind, Except.bind, hdecl]

/-- C20 (witness): the empty source, a source of whitespace and a comment, and
the source `x` all end in the parse error at their first token. -/
theorem C20_first_token_must_be_type_witness :
    parseSource 0 [] =
      .error (.parse ("Expected INT or VOID at start of declaration at line 1. "
        ++ "Current token:  (type=27), Next token: ")) ∧
    parseSource 0 "  \n /* c */ ".toList =
      .error (.parse ("Expected INT or VOID at start of declaration at line 2. "
        ++ "Current token:  (type=27), Next token: ")) ∧
    parseSource 0 "x".toList =
      .error (.parse ("Expected INT or VOID at start of declaration at line 1. "
        ++ "Current token: x (type=25), Next token: ")) :=
  ⟨(C20_first_token_must_be_type [] ⟨.END_OF_FILE, "", 1⟩ ⟨.END_OF_FILE, "", 1⟩
      (Lexer.new []) (Lexer.new []) 0 rfl rfl (by decide) (by decide)).1,
   (C20_first_token_must_be_type "  \n /* c */ ".toList ⟨.END_OF_FILE, "", 2⟩
      ⟨.END_OF_FILE, "", 2⟩ ⟨"  \n /* c */ ".toList, 12, 2⟩ ⟨"  \n /* c */ ".toList, 12, 2⟩
      0 rfl rfl (by decide) (by decide)).1,
   (C20_first_token_must_be_type "x".toList ⟨.ID, "x", 1⟩ ⟨.END_OF_FILE, "", 1⟩
      ⟨"x".toList, 1, 1⟩ ⟨"x".toList, 1, 1⟩ 0 rfl rfl (by decide) (by decide)).1⟩


/-! ## The scanner in terms of the characters it consumes -/

theorem Lexer.consume_nil (l : Lexer) : l.consume [] = l := rfl

theorem Lexer.consume_consume (l : Lexer) (u v : List Char) :
    (l.consume u).consume v = l.consume (u ++ v) := by
  simp [Lexer.consume, List.count_append, Nat.add_assoc]

theorem Lexer.rest_consume {l : Lexer} {w r : List Char} (h : l.rest = w ++ r) :
    (l.consume w).rest = r := by
  unfold Lexer.rest at h
  show l.source.drop (l.currentPos + w.length) = r
  rw [← List.drop_drop, h, List.drop_left]

theorem Lexer.peek_eq_headD (l : Lexer) : l.peek = l.rest.headD NUL := by
  cases hrest : l.rest with
  | nil => rw [Lexer.peek_of_rest_nil hrest]; rfl
  | cons c cs => rw [Lexer.peek_of_rest_cons hrest]; rfl

theorem Lexer.advance_eq_consume {l : Lexer} {c : Char} {cs : List Char}
    (h : l.rest = c :: cs) : l.advance = (c, l.consume [c]) := by
  rw [Lexer.advance_of_rest_cons h]
  by_cases hc : c = '\n'
  · simp [Lexer.consume, hc]
  · simp [Lexer.consume, hc, List.count_cons]

theorem Lexer.skipWhitespaceLoop_eq (n : Nat) :
    ∀ (l : Lexer), l.rest.length ≤ n →
      l.skipWhitespaceLoop n = l.consume (l.rest.takeWhile (fun c => isspace c)) := by
  induction n with
  | zero =>
    intro l hn
    have hnil : l.rest = [] := List.length_eq_zero.mp (Nat.le_zero.mp hn)
    rw [hnil]
    rfl
  | succ n ih =>
    intro l hn
    rw [Lexer.skipWhitespaceLoop]
    cases hrest : l.rest with
    | nil =>
      rw [Lexer.peek_of_rest_nil hrest]
      rfl
    | cons c cs =>
      rw [Lexer.peek_of_rest_cons hrest, Lexer.advance_eq_consume hrest]
      have hrest1 : (l.consume [c]).rest = cs := Lexer.rest_consume (by rw [hrest]; rfl)
      by_cases hs : isspace c = true
      · rw [if_pos hs, ih (l.consume [c]) (by rw [hrest1]; rw [hrest] at hn; simpa using hn),
          hrest1, Lexer.consume_consume, List.takeWhile_cons, if_pos hs]
        rfl
      · rw [if_neg hs, List.takeWhile_cons, if_neg hs]
        rfl

theorem Lexer.skipWhitespace_eq (l : Lexer) :
    l.skipWhitespace = l.consume (l.rest.takeWhile (fun c => isspace c)) := by
  unfold Lexer.skipWhitespace
  exact Lexer.skipWhitespaceLoop_eq _ l (by rw [Lexer.remaining_eq_length_rest])

theorem String.mk_append_cons (acc : String) (c : Char) (w : List Char) :
    acc.push c ++ String.mk w = acc ++ String.mk (c :: w) := by
  apply String.ext
  simp [String.data_push, String.data_append]

theorem Lexer.identifierLoop_eq (n : Nat) :
    ∀ (acc : String) (l : Lexer), l.rest.length ≤ n →
      Lexer.identifierLoop n acc l =
        (acc ++ String.mk (l.rest.takeWhile (fun c => isalnum c)),
          l.consume (l.rest.takeWhile (fun c => isalnum c))) := by
  induction n with
  | zero =>
    intro acc l hn
    have hnil : l.rest = [] := List.length_eq_zero.mp (Nat.le_zero.mp hn)
    rw [hnil, Lexer.identifierLoop]
    simp [Lexer.consume_nil]
  | succ n ih =>
    intro acc l hn
    rw [Lexer.identifierLoop]
    cases hrest : l.rest with
    | nil =>
      rw [Lexer.peek_of_rest_nil hrest, if_neg (by decide)]
      simp [Lexer.consume_nil]
    | cons c cs =>
      rw [Lexer.peek_of_rest_cons hrest, Lexer.advance_eq_consume hrest]
      have hrest1 : (l.consume [c]).rest = cs := Lexer.rest_consume (by rw [hrest]; rfl)
      by_cases hs : isalnum c = true
      · rw [if_pos hs, ih _ (l.consume [c]) (by rw [hrest1]; rw [hrest] at hn; simpa using hn),
          hrest1, Lexer.consume_consume, List.takeWhile_cons, if_pos hs,
          String.mk_append_cons]
        rfl
      · rw [if_neg hs, List.takeWhile_cons, if_neg hs]
        simp [Lexer.consume_nil]

theorem Lexer.numberLoop_eq (n : Nat) :
    ∀ (acc : String) (l : Lexer), l.rest.length ≤ n →
      Lexer.numberLoop n acc l =
        (acc ++ String.mk (l.rest.takeWhile (fun c => isdigit c)),
          l.consume (l.rest.takeWhile (fun c => isdigit c))) := by
  induction n with
  | zero =>
    intro acc l hn
    have hnil : l.rest = [] := List.length_eq_zero.mp (Nat.le_zero.mp hn)
    rw [hnil, Lexer.numberLoop]
    simp [Lexer.consume_nil]
  | succ n ih =>
    intro acc l hn
    rw [Lexer.numberLoop]
    cases hrest : l.rest with
    | nil =>
      rw [Lexer.peek_of_rest_nil hrest, if_neg (by decide)]
      simp [Lexer.consume_nil]
    | cons c cs =>
      rw [Lexer.peek_of_rest_cons hrest, Lexer.advance_eq_consume hrest]
      have hrest1 : (l.consume [c]).rest = cs := Lexer.rest_consume (by rw [hrest]; rfl)
      by_cases hs : isdigit c = true
      · rw [if_pos hs, ih _ (l.consume [c]) (by rw [hrest1]; rw [hrest] at hn; simpa using hn),
          hrest1, Lexer.consume_consume, List.takeWhile_cons, if_pos hs,
          String.mk_append_cons]
        rfl
      · rw [if_neg hs, List.takeWhile_cons, if_neg hs]
        simp [Lexer.consume_nil]


theorem Lexer.skipCommentLoop_consume (n : Nat) :
    ∀ (l l' : Lexer), l.skipCommentLoop n = .ok l' →
      ∃ w r, l.rest = w ++ r ∧ l' = l.consume w := by
  induction n with
  | zero =>
    intro l l' h
    rw [Lexer.skipCommentLoop] at h
    exact Except.noConfusion h
  | succ n ih =>
    intro l l' h
    rw [Lexer.skipCommentLoop] at h
    cases hrest : l.rest with
    | nil =>
      rw [Lexer.peek_of_rest_nil hrest] at h
      simp at h
    | cons c cs =>
      have hadv := Lexer.advance_eq_consume hrest
      have hrest1 : (l.consume [c]).rest = cs := Lexer.rest_consume (by rw [hrest]; rfl)
      rw [Lexer.peek_of_rest_cons hrest, hadv] at h
      split at h
      · split at h
        · simp only at h
          split at h
          · rename_i hslash
            injection h with h
            cases hcs : cs with
            | nil =>
              rw [hcs] at hrest1
              rw [Lexer.peek_of_rest_nil hrest1] at hslash
              exact absurd hslash (by decide)
            | cons d ds =>
              rw [hcs] at hrest1
              rw [Lexer.peek_of_rest_cons hrest1] at hslash
              rw [Lexer.advance_eq_consume hrest1, Lexer.consume_consume] at h
              exact ⟨[c] ++ [d], ds, by simp, h.symm⟩
          · obtain ⟨w, r, hw, hl⟩ := ih _ _ h
            rw [hrest1] at hw
            rw [Lexer.consume_consume] at hl
            exact ⟨[c] ++ w, r, by simp [hw], hl⟩
        · obtain ⟨w, r, hw, hl⟩ := ih _ _ h
          rw [hrest1] at hw
          rw [Lexer.consume_consume] at hl
          exact ⟨[c] ++ w, r, by simp [hw], hl⟩
      · exact Except.noConfusion h

theorem Lexer.skipComment_consume {l l' : Lexer} (hat : l.atComment = true)
    (h : l.skipComment = .ok l') :
    ∃ w r, l.rest = w ++ r ∧ l' = l.consume w := by
  obtain ⟨cs, hrest⟩ := Lexer.rest_of_atComment hat
  have hrest1 : (l.consume ['/']).rest = '*' :: cs := Lexer.rest_consume (by rw [hrest]; rfl)
  have hrest2 : ((l.consume ['/']).consume ['*']).rest = cs :=
    Lexer.rest_consume (by rw [hrest1]; rfl)
  unfold Lexer.skipComment at h
  simp only [Lexer.advance_eq_consume hrest, Lexer.advance_eq_consume hrest1] at h
  obtain ⟨w, r, hw, hl⟩ := Lexer.skipCommentLoop_consume _ _ _ h
  rw [hrest2] at hw
  rw [Lexer.consume_consume, Lexer.consume_consume] at hl
  exact ⟨['/'] ++ ['*'] ++ w, r, by simp [hrest, hw], hl⟩

theorem Lexer.skipWhitespace_consume (l : Lexer) :
    ∃ w r, l.rest = w ++ r ∧ l.skipWhitespace = l.consume w :=
  ⟨l.rest.takeWhile (fun c => isspace c), l.rest.dropWhile (fun c => isspace c),
    (List.takeWhile_append_dropWhile _ _).symm, Lexer.skipWhitespace_eq l⟩

theorem Lexer.skipBlanksLoop_consume (n : Nat) :
    ∀ (l ls : Lexer), l.skipBlanksLoop n = .ok ls →
      ∃ b r, l.rest = b ++ r ∧ ls = l.consume b := by
  induction n with
  | zero =>
    intro l ls h
    rw [Lexer.skipBlanksLoop] at h
    injection h with h
    obtain ⟨w, r, hw, hl⟩ := Lexer.skipWhitespace_consume l
    exact ⟨w, r, hw, by rw [← h, hl]⟩
  | succ n ih =>
    intro l ls h
    rw [Lexer.skipBlanksLoop] at h
    obtain ⟨w, r, hw, hl⟩ := Lexer.skipWhitespace_consume l
    split at h
    · rename_i hat
      cases hc : l.skipWhitespace.skipComment with
      | error e => rw [hc] at h; exact Except.noConfusion h
      | ok l2 =>
        rw [hc] at h
        simp only at h
        obtain ⟨w2, r2, hw2, hl2⟩ := Lexer.skipComment_consume hat hc
        obtain ⟨w3, r3, hw3, hl3⟩ := ih _ _ h
        have hr1 : l.skipWhitespace.rest = r := by rw [hl]; exact Lexer.rest_consume hw
        have hr2 : l2.rest = r2 := by rw [hl2]; exact Lexer.rest_consume hw2
        rw [hr1] at hw2
        rw [hr2] at hw3
        refine ⟨w ++ w2 ++ w3, r3, ?_, ?_⟩
        · rw [hw, hw2, hw3]; simp
        · rw [hl3, hl2, hl, Lexer.consume_consume, Lexer.consume_consume, List.append_assoc]
    · injection h with h
      exact ⟨w, r, hw, by rw [← h, hl]⟩

theorem isspace_NUL : isspace NUL = false := by decide

theorem Lexer.peek_skipWhitespace_not_space (l : Lexer) :
    isspace l.skipWhitespace.peek = false := by
  have hrest : l.skipWhitespace.rest = l.rest.dropWhile (fun c => isspace c) := by
    rw [Lexer.skipWhitespace_eq]
    exact Lexer.rest_consume (List.takeWhile_append_dropWhile _ _).symm
  rw [Lexer.peek_eq_headD, hrest]
  cases hd : l.rest.dropWhile (fun c => isspace c) with
  | nil => exact isspace_NUL
  | cons c cs =>
    have hne : l.rest.dropWhile (fun c => isspace c) ≠ [] := by rw [hd]; exact List.cons_ne_nil _ _
    have := List.head_dropWhile_not (fun c => isspace c) l.rest hne
    simp only [hd, List.head_cons] at this
    simpa using this

/-- The state in which the first loop of `getNextToken` ends stands at a
character that is not white space. -/
theorem Lexer.skipBlanksLoop_not_space (n : Nat) :
    ∀ (l ls : Lexer), l.skipBlanksLoop n = .ok ls → isspace ls.peek = false := by
  induction n with
  | zero =>
    intro l ls h
    rw [Lexer.skipBlanksLoop] at h
    injection h with h
    rw [← h]
    exact Lexer.peek_skipWhitespace_not_space l
  | succ n ih =>
    intro l ls h
    rw [Lexer.skipBlanksLoop] at h
    split at h
    · cases hc : l.skipWhitespace.skipComment with
      | error e => rw [hc] at h; exact Except.noConfusion h
      | ok l2 =>
        rw [hc] at h
        exact ih _ _ h
    · injection h with h
      rw [← h]
      exact Lexer.peek_skipWhitespace_not_space l


/-! ## One call of `getNextToken`, branch by branch -/

theorem Lexer.getNextToken_of_skip {l ls : Lexer}
    (hskip : l.skipBlanksLoop l.remaining = .ok ls) :
    l.getNextToken =
      if ls.peek = NUL then .ok (⟨.END_OF_FILE, "", ls.currentLine⟩, ls)
      else if isalpha ls.peek then .ok ls.handleIdentifier
      else if isdigit ls.peek then .ok ls.handleNumber
      else if strchr ['+', '-', '*', '/', '=', '!', '<', '>'] ls.peek then
        .ok ls.handleOperator
      else if strchr [';', ',', '(', ')', '[', ']', '{', '}'] ls.peek then
        .ok ls.handleSymbol
      else .ok (⟨.ERROR, String.singleton ls.advance.1, ls.advance.2.currentLine⟩,
        ls.advance.2) := by
  unfold Lexer.getNextToken
  rw [hskip]

theorem Lexer.handleIdentifier_eq (ls : Lexer) :
    ls.handleIdentifier =
      (⟨(keywords (String.mk (ls.rest.takeWhile (fun c => isalnum c)))).getD .ID,
          String.mk (ls.rest.takeWhile (fun c => isalnum c)), ls.currentLine⟩,
        ls.consume (ls.rest.takeWhile (fun c => isalnum c))) := by
  unfold Lexer.handleIdentifier
  rw [Lexer.identifierLoop_eq _ _ _ (by rw [Lexer.remaining_eq_length_rest])]
  have hempty : ∀ w : List Char, "" ++ String.mk w = String.mk w := by
    intro w
    apply String.ext
    simp [String.data_append]
  simp only [hempty]
  cases keywords (String.mk (ls.rest.takeWhile (fun c => isalnum c))) <;> rfl

theorem Lexer.handleNumber_eq (ls : Lexer) :
    ls.handleNumber =
      (⟨.NUM, String.mk (ls.rest.takeWhile (fun c => isdigit c)), ls.currentLine⟩,
        ls.consume (ls.rest.takeWhile (fun c => isdigit c))) := by
  unfold Lexer.handleNumber
  rw [Lexer.numberLoop_eq _ _ _ (by rw [Lexer.remaining_eq_length_rest])]
  have hempty : ∀ w : List Char, "" ++ String.mk w = String.mk w := by
    intro w
    apply String.ext
    simp [String.data_append]
  simp only [hempty]

theorem Lexer.handleOperator_eq {ls : Lexer} {c : Char} {cs : List Char}
    (hrest : ls.rest = c :: cs) :
    ls.handleOperator =
      if c = '=' ∧ cs.headD NUL = '=' then (⟨.EQ, "==", ls.currentLine⟩, ls.consume [c, '='])
      else if c = '!' ∧ cs.headD NUL = '=' then
        (⟨.NE, "!=", ls.currentLine⟩, ls.consume [c, '='])
      else if c = '<' ∧ cs.headD NUL = '=' then
        (⟨.LE, "<=", ls.currentLine⟩, ls.consume [c, '='])
      else if c = '>' ∧ cs.headD NUL = '=' then
        (⟨.GE, ">=", ls.currentLine⟩, ls.consume [c, '='])
      else if c = '+' then (⟨.PLUS, "+", ls.currentLine⟩, ls.consume [c])
      else if c = '-' then (⟨.MINUS, "-", ls.currentLine⟩, ls.consume [c])
      else if c = '*' then (⟨.TIMES, "*", ls.currentLine⟩, ls.consume [c])
      else if c = '/' then (⟨.DIVIDE, "/", ls.currentLine⟩, ls.consume [c])
      else if c = '=' then (⟨.ASSIGN, "=", ls.currentLine⟩, ls.consume [c])
      else if c = '<' then (⟨.LT, "<", ls.currentLine⟩, ls.consume [c])
      else if c = '>' then (⟨.GT, ">", ls.currentLine⟩, ls.consume [c])
      else (⟨.ERROR, String.singleton c, ls.currentLine⟩, ls.consume [c]) := by
  have hrest1 : (ls.consume [c]).rest = cs := Lexer.rest_consume (by rw [hrest]; rfl)
  have hpeek1 : (ls.consume [c]).peek = cs.headD NUL := by
    rw [Lexer.peek_eq_headD, hrest1]
  unfold Lexer.handleOperator
  simp only [Lexer.advance_eq_consume hrest, hpeek1]
  by_cases hq : cs.headD NUL = '='
  · cases cs with
    | nil => exact absurd hq (by decide)
    | cons d ds =>
      simp only [List.headD_cons] at hq
      subst hq
      simp only [Lexer.advance_eq_consume hrest1, Lexer.consume_consume, List.headD_cons]
      rfl
  · simp only [hq, and_false, if_false]

theorem Lexer.handleSymbol_eq {ls : Lexer} {c : Char} {cs : List Char}
    (hrest : ls.rest = c :: cs) :
    ls.handleSymbol =
      if c = ';' then (⟨.SEMICOLON, ";", ls.currentLine⟩, ls.consume [c])
      else if c = ',' then (⟨.COMMA, ",", ls.currentLine⟩, ls.consume [c])
      else if c = '(' then (⟨.LPAREN, "(", ls.currentLine⟩, ls.consume [c])
      else if c = ')' then (⟨.RPAREN, ")", ls.currentLine⟩, ls.consume [c])
      else if c = '[' then (⟨.LBRACKET, "[", ls.currentLine⟩, ls.consume [c])
      else if c = ']' then (⟨.RBRACKET, "]", ls.currentLine⟩, ls.consume [c])
      else if c = '{' then (⟨.LBRACE, "\x7b", ls.currentLine⟩, ls.consume [c])
      else if c = '}' then (⟨.RBRACE, "\x7d", ls.currentLine⟩, ls.consume [c])
      else (⟨.ERROR, String.singleton c, ls.currentLine⟩, ls.consume [c]) := by
  unfold Lexer.handleSymbol
  simp only [Lexer.advance_eq_consume hrest]


theorem keywords_getD_ne_eof (s : String) :
    (keywords s).getD .ID ≠ .END_OF_FILE := by
  unfold keywords
  split_ifs <;> simp

theorem count_newline_takeWhile (p : Char → Bool) (hp : p '\n' = false) (xs : List Char) :
    (xs.takeWhile p).count '\n' = 0 := by
  apply List.count_eq_zero.mpr
  intro hmem
  have := List.mem_takeWhile_imp hmem
  rw [hp] at this
  exact Bool.noConfusion this

theorem count_newline_singleton {c : Char} (hc : c ≠ '\n') : [c].count '\n' = 0 := by
  simp [List.count_cons, hc]

theorem count_newline_pair {c : Char} (hc : c ≠ '\n') : [c, '='].count '\n' = 0 := by
  simp [List.count_cons, hc]

theorem strchr_mem {set : List Char} {c : Char} (h : strchr set c = true) (hc : c ≠ NUL) :
    c ∈ set := by
  unfold strchr at h
  simpa [hc] using h

theorem headD_eq_cons {cs : List Char} {d : Char} (h : cs.headD NUL = d) (hd : d ≠ NUL) :
    cs = d :: cs.tail := by
  cases cs with
  | nil => exact absurd h.symm hd
  | cons x xs => simp only [List.headD_cons] at h; simp [h]

/-- The token of `handleOperator` is made of the one or two characters it
consumes, and these depend on the unread characters only. -/
theorem Lexer.handleOperator_uniform (c : Char) (cs : List Char) :
    ∃ ty w r, c :: cs = w ++ r ∧ (w = [c] ∨ w = [c, '=']) ∧ ty ≠ .END_OF_FILE ∧
      ∀ ls : Lexer, ls.rest = c :: cs →
        ls.handleOperator = (⟨ty, String.mk w, ls.currentLine⟩, ls.consume w) := by
  by_cases h0 : c = '=' ∧ cs.headD NUL = '='
  · refine ⟨.EQ, [c, '='], cs.tail, ?_, Or.inr rfl, by decide, fun ls hrest => ?_⟩
    · rw [headD_eq_cons h0.2 (by decide)]; rfl
    · have e := Lexer.handleOperator_eq hrest
      rw [if_pos h0] at e
      rw [e, h0.1]
  by_cases h1 : c = '!' ∧ cs.headD NUL = '='
  · refine ⟨.NE, [c, '='], cs.tail, ?_, Or.inr rfl, by decide, fun ls hrest => ?_⟩
    · rw [headD_eq_cons h1.2 (by decide)]; rfl
    · have e := Lexer.handleOperator_eq hrest
      rw [if_neg h0, if_pos h1] at e
      rw [e, h1.1]
  by_cases h2 : c = '<' ∧ cs.headD NUL = '='
  · refine ⟨.LE, [c, '='], cs.tail, ?_, Or.inr rfl, by decide, fun ls hrest => ?_⟩
    · rw [headD_eq_cons h2.2 (by decide)]; rfl
    · have e := Lexer.handleOperator_eq hrest
      rw [if_neg h0, if_neg h1, if_pos h2] at e
      rw [e, h2.1]
  by_cases h3 : c = '>' ∧ cs.headD NUL = '='
  · refine ⟨.GE, [c, '='], cs.tail, ?_, Or.inr rfl, by decide, fun ls hrest => ?_⟩
    · rw [headD_eq_cons h3.2 (by decide)]; rfl
    · have e := Lexer.handleOperator_eq hrest
      rw [if_neg h0, if_neg h1, if_neg h2, if_pos h3] at e
      rw [e, h3.1]
  by_cases k0 : c = '+'
  · refine ⟨.PLUS, [c], cs, rfl, Or.inl rfl, by decide, fun ls hrest => ?_⟩
    have e := Lexer.handleOperator_eq hrest
    rw [if_neg h0, if_neg h1, if_neg h2, if_neg h3, if_pos k0] at e
    rw [e, k0]
  by_cases k1 : c = '-'
  · refine ⟨.MINUS, [c], cs, rfl, Or.inl rfl, by decide, fun ls hrest => ?_⟩
    have e := Lexer.handleOperator_eq hrest
    rw [if_neg h0, if_neg h1, if_neg h2, if_neg h3, if_neg k0, if_pos k1] at e
    rw [e, k1]
  by_cases k2 : c = '*'
  · refine ⟨.TIMES, [c], cs, rfl, Or.inl rfl, by decide, fun ls hrest => ?_⟩
    have e := Lexer.handleOperator_eq hrest
    rw [if_neg h0, if_neg h1, if_neg h2, if_neg h3, if_neg k0, if_neg k1, if_pos k2] at e
    rw [e, k2]
  by_cases k3 : c = '/'
  · refine ⟨.DIVIDE, [c], cs, rfl, Or.inl rfl, by decide, fun ls hrest => ?_⟩
    have e := Lexer.handleOperator_eq hrest
    rw [if_neg h0, if_neg h1, if_neg h2, if_neg h3, if_neg k0, if_neg k1, if_neg k2, if_pos k3] at e
    rw [e, k3]
  by_cases k4 : c = '='
  · refine ⟨.ASSIGN, [c], cs, rfl, Or.inl rfl, by decide, fun ls hrest => ?_⟩
    have e := Lexer.handleOperator_eq hrest
    rw [if_neg h0, if_neg h1, if_neg h2, if_neg h3, if_neg k0, if_neg k1, if_neg k2, if_neg k3, if_pos k4] at e
    rw [e, k4]
  by_cases k5 : c = '<'
  · refine ⟨.LT, [c], cs, rfl, Or.inl rfl, by decide, fun ls hrest => ?_⟩
    have e := Lexer.handleOperator_eq hrest
    rw [if_neg h0, if_neg h1, if_neg h2, if_neg h3, if_neg k0, if_neg k1, if_neg k2, if_neg k3, if_neg k4, if_pos k5] at e
    rw [e, k5]
  by_cases k6 : c = '>'
  · refine ⟨.GT, [c], cs, rfl, Or.inl rfl, by decide, fun ls hrest => ?_⟩
    have e := Lexer.handleOperator_eq hrest
    rw [if_neg h0, if_neg h1, if_neg h2, if_neg h3, if_neg k0, if_neg k1, if_neg k2, if_neg k3, if_neg k4, if_neg k5, if_pos k6] at e
    rw [e, k6]
  refine ⟨.ERROR, [c], cs, rfl, Or.inl rfl, by decide, fun ls hrest => ?_⟩
  have e := Lexer.handleOperator_eq hrest
  rw [if_neg h0, if_neg h1, if_neg h2, if_neg h3, if_neg k0, if_neg k1, if_neg k2, if_neg k3, if_neg k4, if_neg k5, if_neg k6] at e
  rw [e]
  rfl

theorem Lexer.handleOperator_spec {ls : Lexer} {c : Char} {cs : List Char}
    (hrest : ls.rest = c :: cs) :
    ∃ ty w r, c :: cs = w ++ r ∧ (w = [c] ∨ w = [c, '=']) ∧ ty ≠ .END_OF_FILE ∧
      ls.handleOperator = (⟨ty, String.mk w, ls.currentLine⟩, ls.consume w) := by
  obtain ⟨ty, w, r, hw, hwc, hty, hall⟩ := Lexer.handleOperator_uniform c cs
  exact ⟨ty, w, r, hw, hwc, hty, hall ls hrest⟩

/-- The token of `handleSymbol` is made of the one character it consumes, and
its kind depends on that character only. -/
theorem Lexer.handleSymbol_uniform (c : Char) :
    ∃ ty, ty ≠ .END_OF_FILE ∧
      ∀ (ls : Lexer) (cs : List Char), ls.rest = c :: cs →
        ls.handleSymbol = (⟨ty, String.mk [c], ls.currentLine⟩, ls.consume [c]) := by
  by_cases k0 : c = ';'
  · refine ⟨.SEMICOLON, by decide, fun ls cs hrest => ?_⟩
    have e := Lexer.handleSymbol_eq hrest
    rw [if_pos k0] at e
    rw [e, k0]
  by_cases k1 : c = ','
  · refine ⟨.COMMA, by decide, fun ls cs hrest => ?_⟩
    have e := Lexer.handleSymbol_eq hrest
    rw [if_neg k0, if_pos k1] at e
    rw [e, k1]
  by_cases k2 : c = '('
  · refine ⟨.LPAREN, by decide, fun ls cs hrest => ?_⟩
    have e := Lexer.handleSymbol_eq hrest
    rw [if_neg k0, if_neg k1, if_pos k2] at e
    rw [e, k2]
  by_cases k3 : c = ')'
  · refine ⟨.RPAREN, by decide, fun ls cs hrest => ?_⟩
    have e := Lexer.handleSymbol_eq hrest
    rw [if_neg k0, if_neg k1, if_neg k2, if_pos k3] at e
    rw [e, k3]
  by_cases k4 : c = '['
  · refine ⟨.LBRACKET, by decide, fun ls cs hrest => ?_⟩
    have e := Lexer.handleSymbol_eq hrest
    rw [if_neg k0, if_neg k1, if_neg k2, if_neg k3, if_pos k4] at e
    rw [e, k4]
  by_cases k5 : c = ']'
  · refine ⟨.RBRACKET, by decide, fun ls cs hrest => ?_⟩
    have e := Lexer.handleSymbol_eq hrest
    rw [if_neg k0, if_neg k1, if_neg k2, if_neg k3, if_neg k4, if_pos k5] at e
    rw [e, k5]
  by_cases k6 : c = '{'
  · refine ⟨.LBRACE, by decide, fun ls cs hrest => ?_⟩
    have e := Lexer.handleSymbol_eq hrest
    rw [if_neg k0, if_neg k1, if_neg k2, if_neg k3, if_neg k4, if_neg k5, if_pos k6] at e
    rw [e, k6]
  by_cases k7 : c = '}'
  · refine ⟨.RBRACE, by decide, fun ls cs hrest => ?_⟩
    have e := Lexer.handleSymbol_eq hrest
    rw [if_neg k0, if_neg k1, if_neg k2, if_neg k3, if_neg k4, if_neg k5, if_neg k6, if_pos k7] at e
    rw [e, k7]
  refine ⟨.ERROR, by decide, fun ls cs hrest => ?_⟩
  have e := Lexer.handleSymbol_eq hrest
  rw [if_neg k0, if_neg k1, if_neg k2, if_neg k3, if_neg k4, if_neg k5, if_neg k6, if_neg k7] at e
  rw [e]
  rfl

theorem Lexer.handleSymbol_spec {ls : Lexer} {c : Char} {cs : List Char}
    (hrest : ls.rest = c :: cs) :
    ∃ ty, ty ≠ .END_OF_FILE ∧
      ls.handleSymbol = (⟨ty, String.mk [c], ls.currentLine⟩, ls.consume [c]) := by
  obtain ⟨ty, hty, hall⟩ := Lexer.handleSymbol_uniform c
  exact ⟨ty, hty, hall ls cs hrest⟩

/-- One successful call of `getNextToken`, with the state in which its first
loop ends: the loop consumes blanks `b` (white space and comments), then the
characters `w` of the token are consumed. -/
theorem Lexer.getNextToken_spec_skip {l l1 : Lexer} {tok : Token}
    (h : l.getNextToken = .ok (tok, l1)) :
    ∃ b w r, l.skipBlanksLoop l.remaining = .ok (l.consume b) ∧
      l.rest = b ++ (w ++ r) ∧ l1 = l.consume (b ++ w) ∧
      tok.lexeme = String.mk w ∧ tok.line = l.currentLine + b.count '\n' ∧
      w.count '\n' = 0 ∧
      ((tok.type = .END_OF_FILE ∧ w = [] ∧ (l.consume b).peek = NUL) ∨
        (tok.type ≠ .END_OF_FILE ∧ w ≠ [])) := by
  cases hs : l.skipBlanksLoop l.remaining with
  | error e =>
    unfold Lexer.getNextToken at h
    rw [hs] at h
    exact Except.noConfusion h
  | ok ls =>
    rw [Lexer.getNextToken_of_skip hs] at h
    obtain ⟨b, rs, hb, hls⟩ := Lexer.skipBlanksLoop_consume _ _ _ hs
    have hrs : ls.rest = rs := by rw [hls]; exact Lexer.rest_consume hb
    have hnsp := Lexer.skipBlanksLoop_not_space _ _ _ hs
    have hline : ls.currentLine = l.currentLine + b.count '\n' := by rw [hls]; rfl
    -- every branch but the first ends with this
    have key : ∀ (ty : TokenType) (w r : List Char), rs = w ++ r → w ≠ [] →
        ty ≠ .END_OF_FILE → w.count '\n' = 0 →
        (⟨ty, String.mk w, ls.currentLine⟩, ls.consume w) = (tok, l1) →
        ∃ b w r, (Except.ok ls : Except Err Lexer) = .ok (l.consume b) ∧
          l.rest = b ++ (w ++ r) ∧ l1 = l.consume (b ++ w) ∧
          tok.lexeme = String.mk w ∧ tok.line = l.currentLine + b.count '\n' ∧
          w.count '\n' = 0 ∧
          ((tok.type = .END_OF_FILE ∧ w = [] ∧ (l.consume b).peek = NUL) ∨
            (tok.type ≠ .END_OF_FILE ∧ w ≠ [])) := by
      intro ty w r hw hne hty hcount heq
      injection heq with htok hl1
      refine ⟨b, w, r, by rw [hls], by rw [hb, hw], ?_, ?_, ?_, hcount, Or.inr ⟨?_, hne⟩⟩
      · rw [← hl1, hls, Lexer.consume_consume]
      · rw [← htok]
      · rw [← htok]; exact hline
      · rw [← htok]; exact hty
    split at h
    · rename_i hnul
      injection h with h
      injection h with htok hl1
      refine ⟨b, [], rs, by rw [hls], by simpa using hb, ?_, ?_, ?_, rfl,
        Or.inl ⟨?_, rfl, ?_⟩⟩
      · rw [← hl1, hls]; simp
      · rw [← htok]
      · rw [← htok]; exact hline
      · rw [← htok]
      · rw [← hls]; exact hnul
    · rename_i hnul
      cases hrest : ls.rest with
      | nil => exact absurd (Lexer.peek_of_rest_nil hrest) hnul
      | cons c cs =>
        have hpeek := Lexer.peek_of_rest_cons hrest
        have hrsc : rs = c :: cs := by rw [← hrs, hrest]
        rw [hpeek] at h hnsp hnul
        have hcnl : c ≠ '\n' := by
          intro hc
          rw [hc] at hnsp
          exact absurd hnsp (by decide)
        split at h
        · rename_i halpha
          injection h with h
          rw [Lexer.handleIdentifier_eq, hrest] at h
          have halnum : isalnum c = true := by simp [isalnum, halpha]
          refine key _ _ ((c :: cs).dropWhile (fun c => isalnum c))
            (by rw [hrsc]; exact (List.takeWhile_append_dropWhile _ _).symm) ?_
            (keywords_getD_ne_eof _) (count_newline_takeWhile _ (by decide) _) h
          rw [List.takeWhile_cons, if_pos halnum]
          exact List.cons_ne_nil _ _
        · split at h
          · rename_i hdigit
            injection h with h
            rw [Lexer.handleNumber_eq, hrest] at h
            refine key _ _ ((c :: cs).dropWhile (fun c => isdigit c))
              (by rw [hrsc]; exact (List.takeWhile_append_dropWhile _ _).symm) ?_
              (by decide) (count_newline_takeWhile _ (by decide) _) h
            rw [List.takeWhile_cons, if_pos hdigit]
            exact List.cons_ne_nil _ _
          · split at h
            · injection h with h
              obtain ⟨ty, w, r, hw, hwc, hty, heq⟩ := Lexer.handleOperator_spec hrest
              rw [heq] at h
              refine key ty w r (by rw [hrsc, hw]) ?_ hty ?_ h
              · rcases hwc with rfl | rfl <;> exact List.cons_ne_nil _ _
              · rcases hwc with rfl | rfl
                · exact count_newline_singleton hcnl
                · exact count_newline_pair hcnl
            · split at h
              · injection h with h
                obtain ⟨ty, hty, heq⟩ := Lexer.handleSymbol_spec hrest
                rw [heq] at h
                exact key ty [c] cs (by rw [hrsc]; rfl) (List.cons_ne_nil _ _) hty
                  (count_newline_singleton hcnl) h
              · injection h with h
                rw [Lexer.advance_eq_consume hrest] at h
                refine key .ERROR [c] cs (by rw [hrsc]; rfl) (List.cons_ne_nil _ _)
                  (by decide) (count_newline_singleton hcnl) ?_
                rw [← h]
                have : (ls.consume [c]).currentLine = ls.currentLine := by
                  show ls.currentLine + [c].count '\n' = ls.currentLine
                  rw [count_newline_singleton hcnl]; rfl
                simp only [this]
                rfl

/-- What one successful call of `getNextToken` does: it consumes blanks `b`
(white space and comments) and then the characters `w` of the token. The
lexeme is `w`, the line that of the first character of `w`, no newline is in
`w`, and `w` is empty exactly for END_OF_FILE, which is returned where the
cursor stands at NUL or at the end of the source. -/
theorem Lexer.getNextToken_spec {l l1 : Lexer} {tok : Token}
    (h : l.getNextToken = .ok (tok, l1)) :
    ∃ b w r, l.rest = b ++ (w ++ r) ∧ l1 = l.consume (b ++ w) ∧
      tok.lexeme = String.mk w ∧ tok.line = l.currentLine + b.count '\n' ∧
      w.count '\n' = 0 ∧
      ((tok.type = .END_OF_FILE ∧ w = [] ∧ (l.consume b).peek = NUL) ∨
        (tok.type ≠ .END_OF_FILE ∧ w ≠ [])) := by
  obtain ⟨b, w, r, _, hrest⟩ := Lexer.getNextToken_spec_skip h
  exact ⟨b, w, r, hrest⟩


theorem Lexer.skipWhitespaceLoop_noop {l : Lexer} (h : isspace l.peek = false) (n : Nat) :
    l.skipWhitespaceLoop n = l := by
  cases n with
  | zero => rfl
  | succ n => rw [Lexer.skipWhitespaceLoop, h]; rfl

/-- Where the cursor stands neither at white space nor at the opening of a
comment, the first loop of `getNextToken` leaves the state as it is. -/
theorem Lexer.skipBlanksLoop_noop {l : Lexer} (hs : isspace l.peek = false)
    (hc : l.atComment = false) (n : Nat) : l.skipBlanksLoop n = .ok l := by
  have hw : l.skipWhitespace = l := Lexer.skipWhitespaceLoop_noop hs _
  cases n with
  | zero => rw [Lexer.skipBlanksLoop, hw]
  | succ n =>
    rw [Lexer.skipBlanksLoop]
    simp only [hw, hc]
    rfl

theorem Lexer.atComment_of_peek_ne {l : Lexer} (h : l.peek ≠ '/') : l.atComment = false := by
  unfold Lexer.atComment
  simp [h]

/-- The token returned where the cursor stands at NUL or at the end. -/
theorem Lexer.getNextToken_of_peek_nul {l : Lexer} (h : l.peek = NUL) :
    l.getNextToken = .ok (⟨.END_OF_FILE, "", l.currentLine⟩, l) := by
  have hskip := Lexer.skipBlanksLoop_noop (l := l) (by rw [h]; rfl)
    (Lexer.atComment_of_peek_ne (by rw [h]; decide)) l.remaining
  rw [Lexer.getNextToken_of_skip hskip, if_pos h]

/-! ## End of file, unknown characters, operators, identifiers -/

/-- C15: once `getNextToken` has returned an END_OF_FILE token, each later call
on the same scanner returns END_OF_FILE again, with empty lexeme and the same
line number, throws nothing and leaves the scanner state (cursor position and
line counter) as it was. -/
theorem C15_end_of_file_repeats (l l1 : Lexer) (tok : Token)
    (h : l.getNextToken = .ok (tok, l1)) (heof : tok.type = .END_OF_FILE) (n : Nat) :
    l1.getNextTokenAgain n = .ok (⟨.END_OF_FILE, "", tok.line⟩, l1) := by
  obtain ⟨b, w, r, _, hl1, _, hline, _, hcase⟩ := Lexer.getNextToken_spec h
  rcases hcase with ⟨_, hw, hpeek⟩ | ⟨hne, _⟩
  · subst hw
    rw [List.append_nil] at hl1
    rw [← hl1] at hpeek
    have hline1 : l1.currentLine = tok.line := by rw [hline, hl1]; rfl
    have hnext := Lexer.getNextToken_of_peek_nul hpeek
    rw [hline1] at hnext
    induction n with
    | zero => exact hnext
    | succ n ih =>
      rw [Lexer.getNextTokenAgain, hnext]
      exact ih
  · exact absurd heof hne

/-- C15 (witness): on a source of one blank the first call returns
END_OF_FILE on line 1, and so does the fourth call after it. -/
theorem C15_end_of_file_repeats_witness :
    (Lexer.new [' ']).getNextToken = .ok (⟨.END_OF_FILE, "", 1⟩, ⟨[' '], 1, 1⟩) ∧
    Lexer.getNextTokenAgain 3 ⟨[' '], 1, 1⟩ = .ok (⟨.END_OF_FILE, "", 1⟩, ⟨[' '], 1, 1⟩) :=
  ⟨rfl, C15_end_of_file_repeats (Lexer.new [' ']) ⟨[' '], 1, 1⟩ ⟨.END_OF_FILE, "", 1⟩
    rfl rfl 3⟩


/-- The branch of `getNextToken` for a character of no class: an ERROR token
made of that character. -/
theorem Lexer.getNextToken_unknown {l : Lexer} {c : Char} {cs : List Char}
    (hrest : l.rest = c :: cs) (hnul : c ≠ NUL) (hspace : isspace c = false)
    (halnum : isalnum c = false)
    (hop : c ∉ ['+', '-', '*', '/', '=', '!', '<', '>'])
    (hsym : c ∉ [';', ',', '(', ')', '[', ']', '{', '}']) :
    l.getNextToken = .ok (⟨.ERROR, String.singleton c, l.currentLine⟩, l.consume [c]) := by
  have hpeek := Lexer.peek_of_rest_cons hrest
  have hslash : c ≠ '/' := fun h => hop (by rw [h]; decide)
  have hskip := Lexer.skipBlanksLoop_noop (l := l) (by rw [hpeek]; exact hspace)
    (Lexer.atComment_of_peek_ne (by rw [hpeek]; exact hslash)) l.remaining
  have halpha : isalpha c = false := by
    unfold isalnum at halnum
    exact (Bool.or_eq_false_iff.mp halnum).1
  have hdigit : isdigit c = false := by
    unfold isalnum at halnum
    exact (Bool.or_eq_false_iff.mp halnum).2
  have hcnl : c ≠ '\n' := by
    intro hc
    rw [hc] at hspace
    exact absurd hspace (by decide)
  have hstr1 : strchr ['+', '-', '*', '/', '=', '!', '<', '>'] c = false := by
    unfold strchr
    simp only [Bool.or_eq_false_iff, decide_eq_false_iff_not]
    exact ⟨hnul, by simpa using hop⟩
  have hstr2 : strchr [';', ',', '(', ')', '[', ']', '{', '}'] c = false := by
    unfold strchr
    simp only [Bool.or_eq_false_iff, decide_eq_false_iff_not]
    exact ⟨hnul, by simpa using hsym⟩
  rw [Lexer.getNextToken_of_skip hskip, hpeek, if_neg hnul, halpha, hdigit, hstr1, hstr2,
    Lexer.advance_eq_consume hrest]
  have hline : (l.consume [c]).currentLine = l.currentLine := by
    show l.currentLine + [c].count '\n' = l.currentLine
    rw [count_newline_singleton hcnl]
    rfl
  simp [hline]

/-- C14: for every character `c` that is not NUL, not white space, not a letter
or digit and not one of the operator or punctuation characters, `getNextToken`
with the cursor at `c` returns an ERROR token whose lexeme is the one character
`c`, moves the cursor past that character only and throws nothing; and
`getAllTokens` on `a`, `c`, `b` yields ID `a`, ERROR `c`, ID `b`,
END_OF_FILE. -/
theorem C14_unknown_character_is_a_token (c : Char) (hnul : c ≠ NUL)
    (hspace : isspace c = false) (halnum : isalnum c = false)
    (hop : c ∉ ['+', '-', '*', '/', '=', '!', '<', '>'])
    (hsym : c ∉ [';', ',', '(', ')', '[', ']', '{', '}']) :
    (∀ (l : Lexer) (cs : List Char), l.rest = c :: cs →
      l.getNextToken =
        .ok (⟨.ERROR, String.singleton c, l.currentLine⟩,
          { l with currentPos := l.currentPos + 1 })) ∧
    (Lexer.new ['a', c, 'b']).getAllTokens.map Prod.fst =
      .ok [⟨.ID, "a", 1⟩, ⟨.ERROR, String.singleton c, 1⟩, ⟨.ID, "b", 1⟩,
        ⟨.END_OF_FILE, "", 1⟩] := by
  have hcnl : c ≠ '\n' := by
    intro hc
    rw [hc] at hspace
    exact absurd hspace (by decide)
  have hcons : ∀ l : Lexer, l.consume [c] = { l with currentPos := l.currentPos + 1 } := by
    intro l
    show Lexer.mk _ _ (l.currentLine + [c].count '\n') = _
    rw [count_newline_singleton hcnl]
    rfl
  have hfirst : ∀ (l : Lexer) (cs : List Char), l.rest = c :: cs →
      l.getNextToken =
        .ok (⟨.ERROR, String.singleton c, l.currentLine⟩,
          { l with currentPos := l.currentPos + 1 }) := by
    intro l cs hrest
    rw [Lexer.getNextToken_unknown hrest hnul hspace halnum hop hsym, hcons]
  refine ⟨hfirst, ?_⟩
  -- the four calls of `getNextToken` on `a c b`
  have h0 : (Lexer.new ['a', c, 'b']).getNextToken =
      .ok (⟨.ID, "a", 1⟩, ⟨['a', c, 'b'], 1, 1⟩) := by
    have hskip := Lexer.skipBlanksLoop_noop (l := Lexer.new ['a', c, 'b']) rfl rfl
      (Lexer.new ['a', c, 'b']).remaining
    rw [Lexer.getNextToken_of_skip hskip]
    have hp : (Lexer.new ['a', c, 'b']).peek = 'a' := rfl
    rw [hp, if_neg (by decide), if_pos (by decide), Lexer.handleIdentifier_eq]
    have hr : (Lexer.new ['a', c, 'b']).rest = ['a', c, 'b'] := rfl
    have htw : ['a', c, 'b'].takeWhile (fun c => isalnum c) = ['a'] := by
      rw [List.takeWhile_cons, if_pos (by decide), List.takeWhile_cons,
        if_neg (by rw [halnum]; decide)]
    rw [hr, htw]
    rfl
  have h1 : (⟨['a', c, 'b'], 1, 1⟩ : Lexer).getNextToken =
      .ok (⟨.ERROR, String.singleton c, 1⟩, ⟨['a', c, 'b'], 2, 1⟩) :=
    hfirst ⟨['a', c, 'b'], 1, 1⟩ ['b'] rfl
  have h2 : (⟨['a', c, 'b'], 2, 1⟩ : Lexer).getNextToken =
      .ok (⟨.ID, "b", 1⟩, ⟨['a', c, 'b'], 3, 1⟩) := by
    have hskip := Lexer.skipBlanksLoop_noop (l := ⟨['a', c, 'b'], 2, 1⟩) rfl rfl
      (⟨['a', c, 'b'], 2, 1⟩ : Lexer).remaining
    rw [Lexer.getNextToken_of_skip hskip]
    have hp : (⟨['a', c, 'b'], 2, 1⟩ : Lexer).peek = 'b' := rfl
    rw [hp, if_neg (by decide), if_pos (by decide), Lexer.handleIdentifier_eq]
    rfl
  have h3 : (⟨['a', c, 'b'], 3, 1⟩ : Lexer).getNextToken =
      .ok (⟨.END_OF_FILE, "", 1⟩, ⟨['a', c, 'b'], 3, 1⟩) :=
    Lexer.getNextToken_of_peek_nul rfl
  unfold Lexer.getAllTokens
  rw [h0]
  have hrem : (Lexer.new ['a', c, 'b']).remaining + 1 = 3 + 1 := rfl
  simp only [hrem]
  rw [Lexer.getAllTokensLoop, if_pos (by simp), h1]
  simp only
  rw [Lexer.getAllTokensLoop, if_pos (by simp), h2]
  simp only
  rw [Lexer.getAllTokensLoop, if_pos (by simp), h3]
  simp only
  rw [Lexer.getAllTokensLoop, if_neg (by simp)]
  rfl

/-- C14 (witness): the character `@`. -/
theorem C14_unknown_character_is_a_token_witness :
    (Lexer.new "@x".toList).getNextToken =
      .ok (⟨.ERROR, "@", 1⟩, ⟨"@x".toList, 1, 1⟩) ∧
    (Lexer.new "a@b".toList).getAllTokens.map Prod.fst =
      .ok [⟨.ID, "a", 1⟩, ⟨.ERROR, "@", 1⟩, ⟨.ID, "b", 1⟩, ⟨.END_OF_FILE, "", 1⟩] :=
  ⟨(C14_unknown_character_is_a_token '@' (by decide) (by decide) (by decide) (by decide)
      (by decide)).1 (Lexer.new "@x".toList) ['x'] rfl,
   (C14_unknown_character_is_a_token '@' (by decide) (by decide) (by decide) (by decide)
      (by decide)).2⟩


theorem Lexer.getNextToken_operator {l ls : Lexer} {c : Char} {cs : List Char}
    (hskip : l.skipBlanksLoop l.remaining = .ok ls) (hrest : ls.rest = c :: cs)
    (hc : c ∈ ['+', '-', '*', '/', '=', '!', '<', '>']) :
    l.getNextToken = .ok ls.handleOperator := by
  rw [Lexer.getNextToken_of_skip hskip, Lexer.peek_of_rest_cons hrest]
  simp only [List.mem_cons, List.mem_singleton, List.not_mem_nil, or_false] at hc
  rcases hc with h | h | h | h | h | h | h | h <;> subst h <;> rfl

theorem headD_ne_of_head? {cs : List Char} {d : Char} (h : cs.head? ≠ some d)
    (hd : d ≠ NUL) : cs.headD NUL ≠ d := by
  cases cs with
  | nil => exact fun e => hd e.symm
  | cons x xs =>
    intro e
    apply h
    simp only [List.headD_cons] at e
    simp [e]

/-- C13: with the first significant character one of `=`, `!`, `<`, `>` and
`=` as the very next character, `getNextToken` returns the two-character
token EQ, NE, LE or GE and moves the cursor past both characters; otherwise
`=`, `<`, `>` yield ASSIGN, LT, GT and `!` yields an ERROR token with lexeme
`!`, the cursor moving past one character. -/
theorem C13_longest_match_operators (l ls : Lexer) (cs : List Char)
    (hskip : l.skipBlanksLoop l.remaining = .ok ls) :
    (ls.rest = '=' :: '=' :: cs → l.getNextToken =
      .ok (⟨.EQ, "==", ls.currentLine⟩, { ls with currentPos := ls.currentPos + 2 })) ∧
    (ls.rest = '!' :: '=' :: cs → l.getNextToken =
      .ok (⟨.NE, "!=", ls.currentLine⟩, { ls with currentPos := ls.currentPos + 2 })) ∧
    (ls.rest = '<' :: '=' :: cs → l.getNextToken =
      .ok (⟨.LE, "<=", ls.currentLine⟩, { ls with currentPos := ls.currentPos + 2 })) ∧
    (ls.rest = '>' :: '=' :: cs → l.getNextToken =
      .ok (⟨.GE, ">=", ls.currentLine⟩, { ls with currentPos := ls.currentPos + 2 })) ∧
    (ls.rest = '=' :: cs → cs.head? ≠ some '=' → l.getNextToken =
      .ok (⟨.ASSIGN, "=", ls.currentLine⟩, { ls with currentPos := ls.currentPos + 1 })) ∧
    (ls.rest = '<' :: cs → cs.head? ≠ some '=' → l.getNextToken =
      .ok (⟨.LT, "<", ls.currentLine⟩, { ls with currentPos := ls.currentPos + 1 })) ∧
    (ls.rest = '>' :: cs → cs.head? ≠ some '=' → l.getNextToken =
      .ok (⟨.GT, ">", ls.currentLine⟩, { ls with currentPos := ls.currentPos + 1 })) ∧
    (ls.rest = '!' :: cs → cs.head? ≠ some '=' → l.getNextToken =
      .ok (⟨.ERROR, "!", ls.currentLine⟩, { ls with currentPos := ls.currentPos + 1 })) := by
  refine ⟨?_, ?_, ?_, ?_, ?_, ?_, ?_, ?_⟩
  · intro hrest
    rw [Lexer.getNextToken_operator hskip hrest (by decide), Lexer.handleOperator_eq hrest]
    simp only [List.headD_cons]
    rw [if_pos (by decide)]
    rfl
  · intro hrest
    rw [Lexer.getNextToken_operator hskip hrest (by decide), Lexer.handleOperator_eq hrest]
    simp only [List.headD_cons]
    rw [if_neg (by decide), if_pos (by decide)]
    rfl
  · intro hrest
    rw [Lexer.getNextToken_operator hskip hrest (by decide), Lexer.handleOperator_eq hrest]
    simp only [List.headD_cons]
    rw [if_neg (by decide), if_neg (by decide), if_pos (by decide)]
    rfl
  · intro hrest
    rw [Lexer.getNextToken_operator hskip hrest (by decide), Lexer.handleOperator_eq hrest]
    simp only [List.headD_cons]
    rw [if_neg (by decide), if_neg (by decide), if_neg (by decide), if_pos (by decide)]
    rfl
  · intro hrest hne
    have hq := headD_ne_of_head? hne (by decide)
    rw [Lexer.getNextToken_operator hskip hrest (by decide), Lexer.handleOperator_eq hrest]
    rw [if_neg (fun h => hq h.2), if_neg (fun h => hq h.2), if_neg (fun h => hq h.2),
      if_neg (fun h => hq h.2), if_neg (by decide), if_neg (by decide), if_neg (by decide),
      if_neg (by decide), if_pos (by decide)]
    rfl
  · intro hrest hne
    have hq := headD_ne_of_head? hne (by decide)
    rw [Lexer.getNextToken_operator hskip hrest (by decide), Lexer.handleOperator_eq hrest]
    rw [if_neg (fun h => hq h.2), if_neg (fun h => hq h.2), if_neg (fun h => hq h.2),
      if_neg (fun h => hq h.2), if_neg (by decide), if_neg (by decide), if_neg (by decide),
      if_neg (by decide), if_neg (by decide), if_pos (by decide)]
    rfl
  · intro hrest hne
    have hq := headD_ne_of_head? hne (by decide)
    rw [Lexer.getNextToken_operator hskip hrest (by decide), Lexer.handleOperator_eq hrest]
    rw [if_neg (fun h => hq h.2), if_neg (fun h => hq h.2), if_neg (fun h => hq h.2),
      if_neg (fun h => hq h.2), if_neg (by decide), if_neg (by decide), if_neg (by decide),
      if_neg (by decide), if_neg (by decide), if_neg (by decide), if_pos (by decide)]
    rfl
  · intro hrest hne
    have hq := headD_ne_of_head? hne (by decide)
    rw [Lexer.getNextToken_operator hskip hrest (by decide), Lexer.handleOperator_eq hrest]
    rw [if_neg (fun h => hq h.2), if_neg (fun h => hq h.2), if_neg (fun h => hq h.2),
      if_neg (fun h => hq h.2), if_neg (by decide), if_neg (by decide), if_neg (by decide),
      if_neg (by decide), if_neg (by decide), if_neg (by decide), if_neg (by decide)]
    rfl

/-- C13 (witness): `===` scans as EQ then ASSIGN, `= =` as ASSIGN, ASSIGN, and a
`!` before a blank is an ERROR token. -/
theorem C13_longest_match_operators_witness :
    ((Lexer.new "===".toList).getNextToken = .ok (⟨.EQ, "==", 1⟩, ⟨"===".toList, 2, 1⟩) ∧
      (⟨"===".toList, 2, 1⟩ : Lexer).getNextToken =
        .ok (⟨.ASSIGN, "=", 1⟩, ⟨"===".toList, 3, 1⟩) ∧
      (Lexer.new "= =".toList).getNextToken = .ok (⟨.ASSIGN, "=", 1⟩, ⟨"= =".toList, 1, 1⟩) ∧
      (Lexer.new " ! x".toList).getNextToken =
        .ok (⟨.ERROR, "!", 1⟩, ⟨" ! x".toList, 2, 1⟩)) ∧
    (Lexer.new "===".toList).getAllTokens.map (fun r => r.1.map (fun t => t.type)) =
      .ok [.EQ, .ASSIGN, .END_OF_FILE] ∧
    (Lexer.new "= =".toList).getAllTokens.map (fun r => r.1.map (fun t => t.type)) =
      .ok [.ASSIGN, .ASSIGN, .END_OF_FILE] :=
  ⟨⟨(C13_longest_match_operators (Lexer.new "===".toList) (Lexer.new "===".toList) ['=']
        rfl).1 rfl,
     (C13_longest_match_operators ⟨"===".toList, 2, 1⟩ ⟨"===".toList, 2, 1⟩ []
        rfl).2.2.2.2.1 rfl (by decide),
     (C13_longest_match_operators (Lexer.new "= =".toList) (Lexer.new "= =".toList) [' ', '=']
        rfl).2.2.2.2.1 rfl (by decide),
     (C13_longest_match_operators (Lexer.new " ! x".toList) ⟨" ! x".toList, 1, 1⟩ [' ', 'x']
        rfl).2.2.2.2.2.2.2 rfl (by decide)⟩,
   rfl, rfl⟩


/-- The kind that `handleIdentifier` gives to a lexeme. -/
theorem keywords_kind (s : String) :
    ((keywords s).getD .ID = .IF ↔ s = "if") ∧
    ((keywords s).getD .ID = .ELSE ↔ s = "else") ∧
    ((keywords s).getD .ID = .INT ↔ s = "int") ∧
    ((keywords s).getD .ID = .RETURN ↔ s = "return") ∧
    ((keywords s).getD .ID = .VOID ↔ s = "void") ∧
    ((keywords s).getD .ID = .WHILE ↔ s = "while") ∧
    ((keywords s).getD .ID = .ID ↔ s ∉ ["if", "else", "int", "return", "void", "while"]) := by
  unfold keywords
  by_cases h1 : s = "if"
  · subst h1; decide
  by_cases h2 : s = "else"
  · subst h2; decide
  by_cases h3 : s = "int"
  · subst h3; decide
  by_cases h4 : s = "return"
  · subst h4; decide
  by_cases h5 : s = "void"
  · subst h5; decide
  by_cases h6 : s = "while"
  · subst h6; decide
  simp [h1, h2, h3, h4, h5, h6]

/-- C12: whenever the first significant character is a letter, `getNextToken`
returns a token whose lexeme is the maximal run of letters and digits that
starts there (the cursor stops at the first character that is neither), and
whose kind is IF, ELSE, INT, RETURN, VOID or WHILE exactly when the lexeme is
`if`, `else`, `int`, `return`, `void` or `while`, and ID in every other
case. -/
theorem C12_identifier_or_keyword (l ls : Lexer) (c : Char) (cs : List Char)
    (hskip : l.skipBlanksLoop l.remaining = .ok ls) (hrest : ls.rest = c :: cs)
    (halpha : isalpha c = true) :
    ∃ tok l1, l.getNextToken = .ok (tok, l1) ∧
      tok.lexeme = String.mk ((c :: cs).takeWhile (fun x => isalnum x)) ∧
      l1.rest = (c :: cs).dropWhile (fun x => isalnum x) ∧
      tok.line = ls.currentLine ∧
      (tok.type = .IF ↔ tok.lexeme = "if") ∧
      (tok.type = .ELSE ↔ tok.lexeme = "else") ∧
      (tok.type = .INT ↔ tok.lexeme = "int") ∧
      (tok.type = .RETURN ↔ tok.lexeme = "return") ∧
      (tok.type = .VOID ↔ tok.lexeme = "void") ∧
      (tok.type = .WHILE ↔ tok.lexeme = "while") ∧
      (tok.type = .ID ↔
        tok.lexeme ∉ ["if", "else", "int", "return", "void", "while"]) := by
  have hnul : c ≠ NUL := by
    intro h
    rw [h] at halpha
    exact absurd halpha (by decide)
  have hget : l.getNextToken = .ok ls.handleIdentifier := by
    rw [Lexer.getNextToken_of_skip hskip, Lexer.peek_of_rest_cons hrest, if_neg hnul,
      if_pos halpha]
  rw [hget, Lexer.handleIdentifier_eq, hrest]
  refine ⟨_, _, rfl, rfl, ?_, rfl, keywords_kind _⟩
  exact Lexer.rest_consume (by rw [hrest]; exact (List.takeWhile_append_dropWhile _ _).symm)

/-- C12 (witness): `If`, `int1` and `whilex` are identifiers, `while` is a
keyword. -/
theorem C12_identifier_or_keyword_witness :
    (∃ tok l1, (Lexer.new "  int1 x".toList).getNextToken = .ok (tok, l1) ∧
      tok.lexeme = "int1" ∧ l1.rest = " x".toList ∧ tok.line = 1 ∧
      (tok.type = .ID ↔
        tok.lexeme ∉ ["if", "else", "int", "return", "void", "while"])) ∧
    (Lexer.new "If int1 whilex while".toList).getAllTokens.map
        (fun r => r.1.map (fun t => (t.type, t.lexeme))) =
      .ok [(.ID, "If"), (.ID, "int1"), (.ID, "whilex"), (.WHILE, "while"),
        (.END_OF_FILE, "")] := by
  refine ⟨?_, rfl⟩
  obtain ⟨tok, l1, h1, h2, h3, h4, _, _, _, _, _, _, h5⟩ :=
    C12_identifier_or_keyword (Lexer.new "  int1 x".toList) ⟨"  int1 x".toList, 2, 1⟩
      'i' "nt1 x".toList rfl rfl (by decide)
  exact ⟨tok, l1, h1, h2, h3, h4, h5⟩


/-! ## The scanner depends on the unread characters and the line counter only -/

theorem Lexer.Shifted.peek {k : Nat} {l l' : Lexer} (h : Lexer.Shifted k l l') :
    l'.peek = l.peek := by
  rw [Lexer.peek_eq_headD, Lexer.peek_eq_headD, h.1]

theorem Lexer.Shifted.remaining {k : Nat} {l l' : Lexer} (h : Lexer.Shifted k l l') :
    l'.remaining = l.remaining := by
  rw [Lexer.remaining_eq_length_rest, Lexer.remaining_eq_length_rest, h.1]

theorem Lexer.Shifted.consume {k : Nat} {l l' : Lexer} (h : Lexer.Shifted k l l')
    {w r : List Char} (hw : l.rest = w ++ r) :
    Lexer.Shifted k (l.consume w) (l'.consume w) := by
  refine ⟨?_, ?_⟩
  · rw [Lexer.rest_consume hw, Lexer.rest_consume (h.1.trans hw)]
  · show l'.currentLine + w.count '\n' = l.currentLine + w.count '\n' + k
    rw [h.2]
    omega

theorem Lexer.Shifted.advance {k : Nat} {l l' : Lexer} (h : Lexer.Shifted k l l') :
    l'.advance.1 = l.advance.1 ∧ Lexer.Shifted k l.advance.2 l'.advance.2 := by
  cases hrest : l.rest with
  | nil =>
    rw [Lexer.advance_of_rest_nil hrest, Lexer.advance_of_rest_nil (h.1.trans hrest)]
    exact ⟨rfl, h⟩
  | cons c cs =>
    rw [Lexer.advance_eq_consume hrest, Lexer.advance_eq_consume (h.1.trans hrest)]
    exact ⟨rfl, h.consume (by rw [hrest]; rfl)⟩

theorem Lexer.atComment_of_rest {l : Lexer} {cs : List Char}
    (hrest : l.rest = '/' :: '*' :: cs) : l.atComment = true := by
  have hrest1 : (l.consume ['/']).rest = '*' :: cs := Lexer.rest_consume (by rw [hrest]; rfl)
  have hget : l.source.getD (l.currentPos + 1) NUL = '*' :=
    (Lexer.rest_cons_getD hrest1).1
  have hlt : l.currentPos + 1 < l.source.length := Lexer.rest_cons_lt hrest1
  unfold Lexer.atComment
  rw [Lexer.peek_of_rest_cons hrest, hget]
  have hsz : l.currentPos < l.sizeMinusOne := by
    unfold Lexer.sizeMinusOne
    rw [if_neg (by omega)]
    omega
  simp [hsz]

theorem Lexer.Shifted.atComment {k : Nat} {l l' : Lexer} (h : Lexer.Shifted k l l') :
    l'.atComment = l.atComment := by
  cases ha : l.atComment with
  | true =>
    obtain ⟨cs, hrest⟩ := Lexer.rest_of_atComment ha
    exact Lexer.atComment_of_rest (h.1.trans hrest)
  | false =>
    cases ha' : l'.atComment with
    | false => rfl
    | true =>
      obtain ⟨cs, hrest⟩ := Lexer.rest_of_atComment ha'
      rw [Lexer.atComment_of_rest (h.1.symm.trans hrest)] at ha
      exact Bool.noConfusion ha

theorem Lexer.Shifted.skipWhitespace {k : Nat} {l l' : Lexer} (h : Lexer.Shifted k l l') :
    Lexer.Shifted k l.skipWhitespace l'.skipWhitespace := by
  rw [Lexer.skipWhitespace_eq, Lexer.skipWhitespace_eq, h.1]
  exact h.consume (List.takeWhile_append_dropWhile _ _).symm

theorem Lexer.Shifted.skipCommentLoop {k : Nat} (n : Nat) :
    ∀ {l l' : Lexer}, Lexer.Shifted k l l' →
      ShiftedResult k (Lexer.Shifted k) (l.skipCommentLoop n) (l'.skipCommentLoop n) := by
  induction n with
  | zero =>
    intro l l' h
    rw [Lexer.skipCommentLoop, Lexer.skipCommentLoop, h.2]
    exact ⟨l.currentLine, rfl, rfl⟩
  | succ n ih =>
    intro l l' h
    rw [Lexer.skipCommentLoop, Lexer.skipCommentLoop, h.peek]
    by_cases h0 : l.peek ≠ NUL
    · rw [if_pos h0, if_pos h0]
      by_cases hs : l.peek = '*'
      · rw [if_pos hs, if_pos hs]
        dsimp only
        rw [h.advance.2.peek]
        by_cases hq : l.advance.2.peek = '/'
        · rw [if_pos hq, if_pos hq]
          exact h.advance.2.advance.2
        · rw [if_neg hq, if_neg hq]
          exact ih h.advance.2
      · rw [if_neg hs, if_neg hs]
        exact ih h.advance.2
    · rw [if_neg h0, if_neg h0, h.2]
      exact ⟨l.currentLine, rfl, rfl⟩

theorem Lexer.Shifted.skipComment {k : Nat} {l l' : Lexer} (h : Lexer.Shifted k l l') :
    ShiftedResult k (Lexer.Shifted k) l.skipComment l'.skipComment := by
  unfold Lexer.skipComment
  simp only [h.advance.2.advance.2.remaining]
  exact Lexer.Shifted.skipCommentLoop _ h.advance.2.advance.2

theorem Lexer.Shifted.skipBlanksLoop {k : Nat} (n : Nat) :
    ∀ {l l' : Lexer}, Lexer.Shifted k l l' →
      ShiftedResult k (Lexer.Shifted k) (l.skipBlanksLoop n) (l'.skipBlanksLoop n) := by
  induction n with
  | zero =>
    intro l l' h
    rw [Lexer.skipBlanksLoop, Lexer.skipBlanksLoop]
    exact h.skipWhitespace
  | succ n ih =>
    intro l l' h
    rw [Lexer.skipBlanksLoop, Lexer.skipBlanksLoop]
    simp only [h.skipWhitespace.atComment]
    by_cases hat : l.skipWhitespace.atComment = true
    · rw [if_pos hat, if_pos hat]
      have hc := h.skipWhitespace.skipComment
      cases h1 : l.skipWhitespace.skipComment with
      | error e =>
        cases h2 : l'.skipWhitespace.skipComment with
        | error e' => rw [h1, h2] at hc; exact hc
        | ok a' => rw [h1, h2] at hc; exact False.elim hc
      | ok a =>
        cases h2 : l'.skipWhitespace.skipComment with
        | error e' => rw [h1, h2] at hc; exact False.elim hc
        | ok a' =>
          rw [h1, h2] at hc
          exact ih hc
    · rw [if_neg hat, if_neg hat]
      exact h.skipWhitespace


theorem Lexer.Shifted.getNextToken {k : Nat} {l l' : Lexer} (h : Lexer.Shifted k l l') :
    ShiftedResult k (fun x y => y.1 = x.1.shift k ∧ Lexer.Shifted k x.2 y.2)
      l.getNextToken l'.getNextToken := by
  have hs := Lexer.Shifted.skipBlanksLoop (k := k) l.remaining h
  cases h1 : l.skipBlanksLoop l.remaining with
  | error e =>
    cases h2 : l'.skipBlanksLoop l.remaining with
    | ok a' => rw [h1, h2] at hs; exact False.elim hs
    | error e' =>
      rw [h1, h2] at hs
      have g1 : l.getNextToken = .error e := by unfold Lexer.getNextToken; rw [h1]
      have g2 : l'.getNextToken = .error e' := by
        unfold Lexer.getNextToken; rw [h.remaining, h2]
      rw [g1, g2]
      exact hs
  | ok ls =>
    cases h2 : l'.skipBlanksLoop l.remaining with
    | error e' => rw [h1, h2] at hs; exact False.elim hs
    | ok ls' =>
      rw [h1, h2] at hs
      have hs : Lexer.Shifted k ls ls' := hs
      rw [← h.remaining] at h2
      rw [Lexer.getNextToken_of_skip h1, Lexer.getNextToken_of_skip h2, hs.peek]
      by_cases hnul : ls.peek = NUL
      · rw [if_pos hnul, if_pos hnul]
        refine ⟨?_, hs⟩
        show (⟨.END_OF_FILE, "", ls'.currentLine⟩ : Token) = ⟨.END_OF_FILE, "", ls.currentLine + k⟩
        rw [hs.2]
      rw [if_neg hnul, if_neg hnul]
      cases hrest : ls.rest with
      | nil => exact absurd (Lexer.peek_of_rest_nil hrest) hnul
      | cons c cs =>
        have hrest' : ls'.rest = c :: cs := hs.1.trans hrest
        by_cases halpha : isalpha ls.peek = true
        · rw [if_pos halpha, if_pos halpha, Lexer.handleIdentifier_eq,
            Lexer.handleIdentifier_eq, hs.1]
          refine ⟨?_, hs.consume (List.takeWhile_append_dropWhile _ _).symm⟩
          show (Token.mk _ _ ls'.currentLine) = Token.mk _ _ (ls.currentLine + k)
          rw [hs.2]
        rw [if_neg halpha, if_neg halpha]
        by_cases hdigit : isdigit ls.peek = true
        · rw [if_pos hdigit, if_pos hdigit, Lexer.handleNumber_eq,
            Lexer.handleNumber_eq, hs.1]
          refine ⟨?_, hs.consume (List.takeWhile_append_dropWhile _ _).symm⟩
          show (Token.mk _ _ ls'.currentLine) = Token.mk _ _ (ls.currentLine + k)
          rw [hs.2]
        rw [if_neg hdigit, if_neg hdigit]
        by_cases hop : strchr ['+', '-', '*', '/', '=', '!', '<', '>'] ls.peek = true
        · rw [if_pos hop, if_pos hop]
          obtain ⟨ty, w, r, hw, _, _, hall⟩ := Lexer.handleOperator_uniform c cs
          rw [hall ls hrest, hall ls' hrest']
          refine ⟨?_, hs.consume (hrest.trans hw)⟩
          show (Token.mk _ _ ls'.currentLine) = Token.mk _ _ (ls.currentLine + k)
          rw [hs.2]
        rw [if_neg hop, if_neg hop]
        by_cases hsym : strchr [';', ',', '(', ')', '[', ']', '{', '}'] ls.peek = true
        · rw [if_pos hsym, if_pos hsym]
          obtain ⟨ty, _, hall⟩ := Lexer.handleSymbol_uniform c
          rw [hall ls cs hrest, hall ls' cs hrest']
          refine ⟨?_, hs.consume (by rw [hrest]; rfl)⟩
          show (Token.mk _ _ ls'.currentLine) = Token.mk _ _ (ls.currentLine + k)
          rw [hs.2]
        rw [if_neg hsym, if_neg hsym]
        have ha := hs.advance
        refine ⟨?_, ha.2⟩
        show (Token.mk _ _ ls'.advance.2.currentLine) =
          Token.mk _ _ (ls.advance.2.currentLine + k)
        rw [ha.1, ha.2.2]

/-- A successful call of `getNextToken` does not move the cursor back, and it
moves it forward unless the token is END_OF_FILE. -/
theorem Lexer.getNextToken_remaining {l l1 : Lexer} {tok : Token}
    (h : l.getNextToken = .ok (tok, l1)) :
    l1.remaining ≤ l.remaining ∧ (tok.type ≠ .END_OF_FILE → l1.remaining < l.remaining) := by
  obtain ⟨b, w, r, hrest, hl1, _, _, _, hcase⟩ := Lexer.getNextToken_spec h
  have hr1 : l1.rest = r := by
    rw [hl1]
    exact Lexer.rest_consume (by rw [hrest, List.append_assoc])
  rw [Lexer.remaining_eq_length_rest, Lexer.remaining_eq_length_rest, hr1, hrest]
  simp only [List.length_append]
  refine ⟨by omega, fun hne => ?_⟩
  rcases hcase with ⟨heof, _, _⟩ | ⟨_, hw⟩
  · exact absurd heof hne
  · have : 0 < w.length := List.length_pos.mpr hw
    omega

/-- An error of `getNextToken` is the "Unterminated comment" error. -/
theorem Lexer.getNextToken_error {l : Lexer} {e : Err} (h : l.getNextToken = .error e) :
    ∃ n : Nat, e = .scan ("Unterminated comment at line " ++ toString n) := by
  have hs := Lexer.Shifted.getNextToken (⟨rfl, rfl⟩ : Lexer.Shifted 0 l l)
  rw [h] at hs
  obtain ⟨n, hn, _⟩ := hs
  exact ⟨n, hn⟩

/-- The bound on the rounds of the loop of `getAllTokens` is enough: with more
rounds than unread characters the result does not depend on the bound. -/
theorem Lexer.getAllTokensLoop_fuel (n : Nat) :
    ∀ (m : Nat) (l : Lexer) (tok : Token) (acc : List Token),
      (tok.type ≠ .END_OF_FILE → l.remaining < n ∧ l.remaining < m) →
      Lexer.getAllTokensLoop n l tok acc = Lexer.getAllTokensLoop m l tok acc := by
  have heof : ∀ (j : Nat) (l : Lexer) (tok : Token) (acc : List Token),
      tok.type = .END_OF_FILE → Lexer.getAllTokensLoop j l tok acc = .ok (acc ++ [tok], l) := by
    intro j l tok acc h
    cases j with
    | zero => rw [Lexer.getAllTokensLoop, if_neg (by simp [h])]
    | succ j => rw [Lexer.getAllTokensLoop, if_neg (by simp [h])]
  induction n with
  | zero =>
    intro m l tok acc hfuel
    by_cases h : tok.type = .END_OF_FILE
    · rw [heof 0 l tok acc h, heof m l tok acc h]
    · exact absurd (hfuel h).1 (by omega)
  | succ n ih =>
    intro m l tok acc hfuel
    by_cases h : tok.type = .END_OF_FILE
    · rw [heof _ l tok acc h, heof m l tok acc h]
    · cases m with
      | zero => exact absurd (hfuel h).2 (by omega)
      | succ m =>
        rw [Lexer.getAllTokensLoop, Lexer.getAllTokensLoop, if_pos h, if_pos h]
        cases hg : l.getNextToken with
        | error e => rfl
        | ok r =>
          obtain ⟨t, l1⟩ := r
          have hrem := Lexer.getNextToken_remaining hg
          have := hfuel h
          exact ih m l1 t _ (fun hne => ⟨by have := hrem.2 hne; omega,
            by have := hrem.2 hne; omega⟩)

theorem Lexer.Shifted.getAllTokensLoop {k : Nat} (n : Nat) :
    ∀ {l l' : Lexer} (tok : Token) (acc : List Token), Lexer.Shifted k l l' →
      (tok.type ≠ .END_OF_FILE → l.remaining < n) →
      ShiftedResult k (fun x y => y.1 = x.1.map (Token.shift k) ∧ Lexer.Shifted k x.2 y.2)
        (Lexer.getAllTokensLoop n l tok acc)
        (Lexer.getAllTokensLoop n l' (tok.shift k) (acc.map (Token.shift k))) := by
  induction n with
  | zero =>
    intro l l' tok acc h hfuel
    by_cases heof : tok.type = .END_OF_FILE
    · have heof' : (tok.shift k).type = .END_OF_FILE := heof
      rw [Lexer.getAllTokensLoop, Lexer.getAllTokensLoop, if_neg (by simp [heof]),
        if_neg (by simp [heof'])]
      exact ⟨by simp, h⟩
    · exact absurd (hfuel heof) (by omega)
  | succ n ih =>
    intro l l' tok acc h hfuel
    by_cases heof : tok.type = .END_OF_FILE
    · have heof' : (tok.shift k).type = .END_OF_FILE := heof
      rw [Lexer.getAllTokensLoop, Lexer.getAllTokensLoop, if_neg (by simp [heof]),
        if_neg (by simp [heof'])]
      exact ⟨by simp, h⟩
    · have heof' : (tok.shift k).type ≠ .END_OF_FILE := heof
      rw [Lexer.getAllTokensLoop, Lexer.getAllTokensLoop, if_pos heof, if_pos heof']
      have hg := h.getNextToken
      cases h1 : l.getNextToken with
      | error e =>
        cases h2 : l'.getNextToken with
        | ok a' => rw [h1, h2] at hg; exact False.elim hg
        | error e' => rw [h1, h2] at hg; exact hg
      | ok r =>
        cases h2 : l'.getNextToken with
        | error e' => rw [h1, h2] at hg; exact False.elim hg
        | ok r' =>
          rw [h1, h2] at hg
          obtain ⟨t, l1⟩ := r
          obtain ⟨t', l1'⟩ := r'
          obtain ⟨ht, hl⟩ := hg
          simp only at ht hl
          subst ht
          have hrem := Lexer.getNextToken_remaining h1
          have hlt := hfuel heof
          have := ih t (acc ++ [tok]) hl (fun hne => by have := hrem.2 hne; omega)
          simpa using this


theorem Lexer.Shifted.getAllTokens {k : Nat} {l l' : Lexer} (h : Lexer.Shifted k l l') :
    ShiftedResult k (fun x y => y.1 = x.1.map (Token.shift k) ∧ Lexer.Shifted k x.2 y.2)
      l.getAllTokens l'.getAllTokens := by
  unfold Lexer.getAllTokens
  rw [h.remaining]
  have hg := h.getNextToken
  cases h1 : l.getNextToken with
  | error e =>
    cases h2 : l'.getNextToken with
    | ok a' => rw [h1, h2] at hg; exact False.elim hg
    | error e' => rw [h1, h2] at hg; exact hg
  | ok x =>
    cases h2 : l'.getNextToken with
    | error e' => rw [h1, h2] at hg; exact False.elim hg
    | ok y =>
      rw [h1, h2] at hg
      obtain ⟨t, l1⟩ := x
      obtain ⟨t', l1'⟩ := y
      obtain ⟨ht, hl⟩ := hg
      simp only at ht hl
      subst ht
      have hrem := Lexer.getNextToken_remaining h1
      exact Lexer.Shifted.getAllTokensLoop (l.remaining + 1) t [] hl (fun _ => by omega)

/-- A comment body without NUL and without the closing pair, followed by the
closing pair: the loop of `skipComment` consumes the body and the pair. -/
theorem Lexer.skipCommentLoop_closes (t : List Char) :
    ∀ (l : Lexer) (r : List Char) (n : Nat), NUL ∉ t → ¬ (['*', '/'] <:+: t) →
      l.rest = t ++ '*' :: '/' :: r → l.rest.length ≤ n →
      l.skipCommentLoop n = .ok (l.consume (t ++ ['*', '/'])) := by
  induction t with
  | nil =>
    intro l r n _ _ hrest hlen
    rw [List.nil_append] at hrest
    cases n with
    | zero => rw [hrest] at hlen; exact absurd hlen (by simp)
    | succ n =>
      have hrest1 : (l.consume ['*']).rest = '/' :: r :=
        Lexer.rest_consume (by rw [hrest]; rfl)
      rw [Lexer.skipCommentLoop, Lexer.peek_of_rest_cons hrest, if_pos (by decide),
        if_pos rfl]
      simp only [Lexer.advance_eq_consume hrest, Lexer.peek_of_rest_cons hrest1,
        Lexer.advance_eq_consume hrest1, Lexer.consume_consume]
      rfl
  | cons c t ih =>
    intro l r n hnul hclose hrest hlen
    rw [List.cons_append] at hrest
    have hc0 : c ≠ NUL := fun h0 => hnul (by simp [h0])
    have hnul1 : NUL ∉ t := fun hm => hnul (List.mem_cons_of_mem _ hm)
    have hclose1 : ¬ (['*', '/'] <:+: t) := fun hi =>
      hclose (hi.trans (List.suffix_cons c t).isInfix)
    have hrest1 : (l.consume [c]).rest = t ++ '*' :: '/' :: r :=
      Lexer.rest_consume (by rw [hrest]; rfl)
    cases n with
    | zero => rw [hrest] at hlen; exact absurd hlen (by simp)
    | succ n =>
      have hlen1 : (l.consume [c]).rest.length ≤ n := by
        rw [hrest1]
        rw [hrest] at hlen
        simpa using hlen
      have hrec := ih (l.consume [c]) r n hnul1 hclose1 hrest1 hlen1
      rw [Lexer.consume_consume] at hrec
      rw [Lexer.skipCommentLoop, Lexer.peek_of_rest_cons hrest, if_pos hc0]
      simp only [Lexer.advance_eq_consume hrest]
      by_cases hstar : c = '*'
      · rw [if_pos hstar]
        have hnext : (l.consume [c]).peek ≠ '/' := by
          rw [Lexer.peek_eq_headD, hrest1]
          cases t with
          | nil => show ('*' : Char) ≠ '/'; decide
          | cons d ds =>
            intro hd
            apply hclose
            simp only [List.cons_append, List.headD_cons] at hd
            rw [hstar, hd]
            exact (List.prefix_append ['*', '/'] ds).isInfix
        rw [if_neg hnext]
        exact hrec
      · rw [if_neg hstar]
        exact hrec

/-- C11: for every text `t` without `*/` and without NUL and every text `r`,
`getAllTokens` on `/*`, `t`, `*/`, `r` yields the tokens that `getAllTokens`
yields on `r` (same kinds and lexemes, in order), each line number increased
by the number of newlines in `t`; and it fails exactly when scanning `r`
fails, with the same error reported that many lines further down. A `/*`
inside `t` opens no nested comment: `t` is any text without `*/`. -/
theorem C11_comment_is_not_a_token (t r : List Char)
    (hclose : ¬ (['*', '/'] <:+: t)) (hnul : NUL ∉ t) :
    (∀ (toks : List Token) (l1 : Lexer), (Lexer.new r).getAllTokens = .ok (toks, l1) →
      ∃ l1', (Lexer.new ('/' :: '*' :: (t ++ '*' :: '/' :: r))).getAllTokens =
        .ok (toks.map (Token.shift (t.count '\n')), l1')) ∧
    (∀ e : Err, (Lexer.new r).getAllTokens = .error e →
      ∃ n : Nat, e = .scan ("Unterminated comment at line " ++ toString n) ∧
        (Lexer.new ('/' :: '*' :: (t ++ '*' :: '/' :: r))).getAllTokens =
          .error (.scan ("Unterminated comment at line "
            ++ toString (n + t.count '\n')))) := by
  have hrest0 : (Lexer.new ('/' :: '*' :: (t ++ '*' :: '/' :: r))).rest =
      '/' :: '*' :: (t ++ '*' :: '/' :: r) := rfl
  have hrest2 : ((Lexer.new ('/' :: '*' :: (t ++ '*' :: '/' :: r))).consume ['/', '*']).rest =
      t ++ '*' :: '/' :: r := Lexer.rest_consume (by rw [hrest0]; rfl)
  -- the state behind the comment
  have hcomment : (Lexer.new ('/' :: '*' :: (t ++ '*' :: '/' :: r))).skipComment =
      .ok ((Lexer.new ('/' :: '*' :: (t ++ '*' :: '/' :: r))).consume
        (['/', '*'] ++ (t ++ ['*', '/']))) := by
    have hrest1 : ((Lexer.new ('/' :: '*' :: (t ++ '*' :: '/' :: r))).consume ['/']).rest =
        '*' :: (t ++ '*' :: '/' :: r) := Lexer.rest_consume (by rw [hrest0]; rfl)
    have hadv : (Lexer.new ('/' :: '*' :: (t ++ '*' :: '/' :: r))).advance.2.advance.2 =
        (Lexer.new ('/' :: '*' :: (t ++ '*' :: '/' :: r))).consume ['/', '*'] := by
      rw [Lexer.advance_eq_consume hrest0, Lexer.advance_eq_consume hrest1,
        Lexer.consume_consume]
      rfl
    unfold Lexer.skipComment
    simp only [hadv]
    exact (Lexer.skipCommentLoop_closes t _ r _ hnul hclose hrest2
      (by rw [Lexer.remaining_eq_length_rest])).trans (by rw [Lexer.consume_consume])
  generalize hlc : (Lexer.new ('/' :: '*' :: (t ++ '*' :: '/' :: r))).consume
    (['/', '*'] ++ (t ++ ['*', '/'])) = lc at hcomment
  have hrestc : lc.rest = r := by
    rw [← hlc]
    exact Lexer.rest_consume (by rw [hrest0]; simp)
  have hsim : Lexer.Shifted (t.count '\n') (Lexer.new r) lc := by
    refine ⟨hrestc, ?_⟩
    rw [← hlc]
    show 1 + (['/', '*'] ++ (t ++ ['*', '/'])).count '\n' = 1 + t.count '\n'
    simp [List.count_cons, List.count_append]
  have hremc : lc.remaining + 1 ≤
      (Lexer.new ('/' :: '*' :: (t ++ '*' :: '/' :: r))).remaining := by
    rw [Lexer.remaining_eq_length_rest, Lexer.remaining_eq_length_rest, hrestc, hrest0]
    simp
    omega
  -- the first call skips the comment and goes on as from the state behind it
  have hskip : (Lexer.new ('/' :: '*' :: (t ++ '*' :: '/' :: r))).skipBlanksLoop
      (Lexer.new ('/' :: '*' :: (t ++ '*' :: '/' :: r))).remaining =
      lc.skipBlanksLoop lc.remaining := by
    have hws : (Lexer.new ('/' :: '*' :: (t ++ '*' :: '/' :: r))).skipWhitespace =
        Lexer.new ('/' :: '*' :: (t ++ '*' :: '/' :: r)) :=
      Lexer.skipWhitespaceLoop_noop (by rw [Lexer.peek_of_rest_cons hrest0]; rfl) _
    obtain ⟨m, hm⟩ : ∃ m, (Lexer.new ('/' :: '*' :: (t ++ '*' :: '/' :: r))).remaining =
        m + 1 := ⟨_, (Nat.succ_pred_eq_of_pos (by omega)).symm⟩
    rw [hm, Lexer.skipBlanksLoop]
    simp only [hws, Lexer.atComment_of_rest hrest0, if_true, hcomment]
    exact Lexer.skipBlanksLoop_fuel m lc.remaining lc (by omega) le_rfl
  have hget : (Lexer.new ('/' :: '*' :: (t ++ '*' :: '/' :: r))).getNextToken =
      lc.getNextToken := by
    unfold Lexer.getNextToken
    rw [hskip]
  have hall : (Lexer.new ('/' :: '*' :: (t ++ '*' :: '/' :: r))).getAllTokens =
      lc.getAllTokens := by
    unfold Lexer.getAllTokens
    rw [hget]
    cases hg : lc.getNextToken with
    | error e => rfl
    | ok x =>
      obtain ⟨tok, l1⟩ := x
      have hrem := Lexer.getNextToken_remaining hg
      exact Lexer.getAllTokensLoop_fuel _ _ l1 tok [] (fun _ => ⟨by omega, by omega⟩)
  have hres := hsim.getAllTokens
  rw [hall]
  refine ⟨?_, ?_⟩
  · intro toks l1 hok
    rw [hok] at hres
    cases hc : lc.getAllTokens with
    | error e => rw [hc] at hres; exact False.elim hres
    | ok y =>
      rw [hc] at hres
      obtain ⟨toks', l1'⟩ := y
      obtain ⟨h1, _⟩ := hres
      simp only at h1
      exact ⟨l1', by rw [h1]⟩
  · intro e herr
    rw [herr] at hres
    cases hc : lc.getAllTokens with
    | ok y => rw [hc] at hres; exact False.elim hres
    | error e' =>
      rw [hc] at hres
      obtain ⟨n, hn, hn'⟩ := hres
      exact ⟨n, hn, by rw [hn']⟩

/-- C11 (witness): a comment of two lines with a `/*` inside, before `x = 1`,
and an unterminated comment behind a closed one. -/
theorem C11_comment_is_not_a_token_witness :
    (∃ l1', (Lexer.new "/* a /* b\n c */x = 1".toList).getAllTokens =
      .ok ([⟨.ID, "x", 2⟩, ⟨.ASSIGN, "=", 2⟩, ⟨.NUM, "1", 2⟩, ⟨.END_OF_FILE, "", 2⟩], l1')) ∧
    (∃ n : Nat, (.scan "Unterminated comment at line 1" : Err) =
        .scan ("Unterminated comment at line " ++ toString n) ∧
      (Lexer.new "/*\n*/ /* x".toList).getAllTokens =
        .error (.scan ("Unterminated comment at line " ++ toString (n + 1)))) :=
  ⟨(C11_comment_is_not_a_token " a /* b\n c ".toList "x = 1".toList (by decide)
      (by decide)).1 [⟨.ID, "x", 1⟩, ⟨.ASSIGN, "=", 1⟩, ⟨.NUM, "1", 1⟩, ⟨.END_OF_FILE, "", 1⟩]
      ⟨"x = 1".toList, 5, 1⟩ rfl,
   (C11_comment_is_not_a_token "\n".toList " /* x".toList (by decide) (by decide)).2
      (.scan "Unterminated comment at line 1") rfl⟩


/-! ## The token sequence of `getAllTokens` and its line numbers -/

theorem Lexer.getAllTokensLoop_scans (n : Nat) :
    ∀ (l l' : Lexer) (tok : Token) (acc res : List Token),
      Lexer.getAllTokensLoop n l tok acc = .ok (res, l') →
      ∃ more, res = acc ++ tok :: more ∧
        ((tok.type = .END_OF_FILE ∧ more = []) ∨
          (tok.type ≠ .END_OF_FILE ∧ Lexer.Scans l more)) := by
  induction n with
  | zero =>
    intro l l' tok acc res h
    rw [Lexer.getAllTokensLoop] at h
    by_cases heof : tok.type = .END_OF_FILE
    · rw [if_neg (by simp [heof])] at h
      injection h with h
      injection h with h1 _
      exact ⟨[], h1.symm, Or.inl ⟨heof, rfl⟩⟩
    · rw [if_pos heof] at h
      exact Except.noConfusion h
  | succ n ih =>
    intro l l' tok acc res h
    rw [Lexer.getAllTokensLoop] at h
    by_cases heof : tok.type = .END_OF_FILE
    · rw [if_neg (by simp [heof])] at h
      injection h with h
      injection h with h1 _
      exact ⟨[], h1.symm, Or.inl ⟨heof, rfl⟩⟩
    · rw [if_pos heof] at h
      cases hg : l.getNextToken with
      | error e => rw [hg] at h; exact Except.noConfusion h
      | ok x =>
        obtain ⟨t, l1⟩ := x
        rw [hg] at h
        obtain ⟨more, hres, hcase⟩ := ih _ _ _ _ _ h
        refine ⟨t :: more, by rw [hres]; simp, Or.inr ⟨heof, ?_⟩⟩
        exact ⟨l1, hg, hcase⟩

/-- The vector that `getAllTokens` returns holds the tokens of the successive
calls of `getNextToken`, the END_OF_FILE token last. -/
theorem Lexer.getAllTokens_scans {l l' : Lexer} {toks : List Token}
    (h : l.getAllTokens = .ok (toks, l')) : Lexer.Scans l toks := by
  unfold Lexer.getAllTokens at h
  cases hg : l.getNextToken with
  | error e => rw [hg] at h; exact Except.noConfusion h
  | ok x =>
    obtain ⟨t, l1⟩ := x
    rw [hg] at h
    obtain ⟨more, hres, hcase⟩ := Lexer.getAllTokensLoop_scans _ _ _ _ _ _ h
    rw [hres]
    exact ⟨l1, hg, hcase⟩

theorem Lexer.source_consume (l : Lexer) (w : List Char) : (l.consume w).source = l.source :=
  rfl

theorem Lexer.take_consume {l : Lexer} {w r : List Char} (h : l.rest = w ++ r) :
    l.source.take (l.currentPos + w.length) = l.source.take l.currentPos ++ w := by
  unfold Lexer.rest at h
  rw [List.take_add, h, List.take_left]

theorem Lexer.LineOK.after_consume {l : Lexer} (hl : l.LineOK) {w r : List Char}
    (h : l.rest = w ++ r) : (l.consume w).LineOK := by
  have hlen : l.rest.length = l.source.length - l.currentPos := by
    unfold Lexer.rest
    rw [List.length_drop]
  refine ⟨?_, ?_⟩
  · show l.currentPos + w.length ≤ l.source.length
    have h1 := hl.1
    rw [h, List.length_append] at hlen
    omega
  · show l.currentLine + w.count '\n' =
      1 + (l.source.take (l.currentPos + w.length)).count '\n'
    rw [Lexer.take_consume h, List.count_append, hl.2]
    omega

/-- The line numbers of the tokens that successive calls return do not
decrease, and none is below the line counter at the first call. -/
theorem Lexer.Scans.lines (toks : List Token) :
    ∀ (l : Lexer), Lexer.Scans l toks →
      (∀ t ∈ toks, l.currentLine ≤ t.line) ∧
        (toks.map (fun t => t.line)).Pairwise (fun a b => a ≤ b) := by
  induction toks with
  | nil => intro l h; exact False.elim h
  | cons t ts ih =>
    intro l h
    obtain ⟨l1, hg, hcase⟩ := h
    obtain ⟨b, w, r, _, hl1, _, hline, hcount, _⟩ := Lexer.getNextToken_spec hg
    have hline1 : l1.currentLine = t.line := by
      rw [hl1, hline]
      show l.currentLine + (b ++ w).count '\n' = _
      rw [List.count_append, hcount]
      rfl
    rcases hcase with ⟨_, hts⟩ | ⟨_, hscan⟩
    · subst hts
      refine ⟨?_, by simp⟩
      intro t' ht'
      simp only [List.mem_singleton] at ht'
      rw [ht', hline]
      omega
    · obtain ⟨hlow, hsorted⟩ := ih l1 hscan
      rw [hline1] at hlow
      refine ⟨?_, ?_⟩
      · intro t' ht'
        rcases List.mem_cons.mp ht' with h1 | h1
        · rw [h1, hline]; omega
        · have := hlow t' h1
          rw [hline] at this
          omega
      · rw [List.map_cons, List.pairwise_cons]
        refine ⟨?_, hsorted⟩
        intro a ha
        obtain ⟨t', ht', rfl⟩ := List.mem_map.mp ha
        exact hlow t' ht'

/-- Where the successive calls find their tokens in a source without NUL. -/
theorem Lexer.Scans.positions (source : List Char) (hnul : NUL ∉ source)
    (toks : List Token) :
    ∀ (l : Lexer), l.source = source → l.LineOK → Lexer.Scans l toks →
      ∃ starts : List Nat,
        List.Forall₂ (fun (s : Nat) (tok : Token) =>
          tok.lexeme.data <+: source.drop s ∧
          tok.line = 1 + (source.take s).count '\n' ∧
          (tok.type = .END_OF_FILE → s = source.length)) starts toks ∧
        (∀ s ∈ starts, l.currentPos ≤ s) ∧
        starts.Pairwise (fun a b => a < b) := by
  induction toks with
  | nil => intro l _ _ h; exact False.elim h
  | cons t ts ih =>
    intro l hsrc hok h
    obtain ⟨l1, hg, hcase⟩ := h
    obtain ⟨b, w, r, hrest, hl1, hlex, hline, hcount, hspec⟩ := Lexer.getNextToken_spec hg
    have hokb : (l.consume b).LineOK := hok.after_consume hrest
    have hrestb : (l.consume b).rest = w ++ r := Lexer.rest_consume hrest
    have hok1 : l1.LineOK := by
      rw [hl1, ← Lexer.consume_consume]
      exact hokb.after_consume hrestb
    -- the token stands at the cursor of `l.consume b`
    have hP1 : t.lexeme.data <+: source.drop (l.currentPos + b.length) := by
      have : source.drop (l.currentPos + b.length) = w ++ r := by
        rw [← hsrc]
        exact hrestb
      rw [this, hlex]
      exact List.prefix_append w r
    have hP2 : t.line = 1 + (source.take (l.currentPos + b.length)).count '\n' := by
      rw [hline, ← hsrc]
      exact hokb.2
    have hpos1 : l1.currentPos = l.currentPos + b.length + w.length := by
      rw [hl1]
      show l.currentPos + (b ++ w).length = _
      rw [List.length_append]
      omega
    rcases hcase with ⟨heof, hts⟩ | ⟨hne, hscan⟩
    · subst hts
      rcases hspec with ⟨_, hw, hpeek⟩ | ⟨hne, _⟩
      · refine ⟨[l.currentPos + b.length], ?_, ?_, by simp⟩
        · refine List.Forall₂.cons ⟨hP1, hP2, fun _ => ?_⟩ List.Forall₂.nil
          -- at the end of the source, as no NUL stands in it
          have hnil : (l.consume b).rest = [] := by
            cases hr : (l.consume b).rest with
            | nil => rfl
            | cons c cs =>
              rw [Lexer.peek_of_rest_cons hr] at hpeek
              have hmem : c ∈ source := by
                rw [← hsrc]
                have : c ∈ (l.consume b).rest := by rw [hr]; exact List.mem_cons_self _ _
                exact List.mem_of_mem_drop this
              rw [hpeek] at hmem
              exact absurd hmem hnul
          have hge : source.length ≤ l.currentPos + b.length := by
            rw [← hsrc]
            exact List.drop_eq_nil_iff.mp hnil
          have hle : l.currentPos + b.length ≤ l.source.length := hokb.1
          rw [hsrc] at hle
          exact Nat.le_antisymm hle hge
        · intro s hs
          simp only [List.mem_singleton] at hs
          omega
      · exact absurd heof hne
    · rcases hspec with ⟨heof, _, _⟩ | ⟨_, hw⟩
      · exact absurd heof hne
      · have hsrc1 : l1.source = source := by rw [hl1]; exact hsrc
        obtain ⟨starts, hall, hlow, hsorted⟩ := ih l1 hsrc1 hok1 hscan
        have hwpos : 0 < w.length := List.length_pos.mpr hw
        refine ⟨(l.currentPos + b.length) :: starts, ?_, ?_, ?_⟩
        · exact List.Forall₂.cons ⟨hP1, hP2, fun h => absurd h hne⟩ hall
        · intro s hs
          rcases List.mem_cons.mp hs with h1 | h1
          · omega
          · have := hlow s h1
            omega
        · rw [List.pairwise_cons]
          refine ⟨?_, hsorted⟩
          intro s hs
          have := hlow s hs
          omega

/-- C16: for every source without NUL on which scanning succeeds, the tokens
of `getAllTokens` stand at increasing positions `starts` of the source, each
token's lexeme being the text at its position, and each token carries the line
1 plus the number of newline characters before the position of its first
character (for END_OF_FILE that position is the end of the source, so all
newlines count); newlines inside comments and white space are counted like any
other. Consequently the line numbers of the token sequence do not decrease. -/
theorem C16_line_numbers (source : List Char) (hnul : NUL ∉ source)
    (toks : List Token) (l1 : Lexer)
    (h : (Lexer.new source).getAllTokens = .ok (toks, l1)) :
    (∃ starts : List Nat,
      List.Forall₂ (fun (s : Nat) (tok : Token) =>
        tok.lexeme.data <+: source.drop s ∧
        tok.line = 1 + (source.take s).count '\n' ∧
        (tok.type = .END_OF_FILE → s = source.length)) starts toks ∧
      starts.Pairwise (fun a b => a < b)) ∧
    (toks.map (fun t => t.line)).Pairwise (fun a b => a ≤ b) := by
  have hscan := Lexer.getAllTokens_scans h
  have hok : (Lexer.new source).LineOK := ⟨Nat.zero_le _, rfl⟩
  obtain ⟨starts, hall, _, hsorted⟩ :=
    Lexer.Scans.positions source hnul toks (Lexer.new source) rfl hok hscan
  exact ⟨⟨starts, hall, hsorted⟩, (Lexer.Scans.lines toks (Lexer.new source) hscan).2⟩

/-- C16 (witness): newlines in white space and inside a comment. -/
theorem C16_line_numbers_witness :
    (∃ starts : List Nat,
      List.Forall₂ (fun (s : Nat) (tok : Token) =>
        tok.lexeme.data <+: "a\n/* \n */ b\n".toList.drop s ∧
        tok.line = 1 + ("a\n/* \n */ b\n".toList.take s).count '\n' ∧
        (tok.type = .END_OF_FILE → s = "a\n/* \n */ b\n".toList.length)) starts
        [⟨.ID, "a", 1⟩, ⟨.ID, "b", 3⟩, ⟨.END_OF_FILE, "", 4⟩] ∧
      starts.Pairwise (fun a b => a < b)) ∧
    ([⟨.ID, "a", 1⟩, ⟨.ID, "b", 3⟩, ⟨.END_OF_FILE, "", 4⟩].map
      (fun t : Token => t.line)).Pairwise (fun a b => a ≤ b) :=
  C16_line_numbers "a\n/* \n */ b\n".toList (by decide)
    [⟨.ID, "a", 1⟩, ⟨.ID, "b", 3⟩, ⟨.END_OF_FILE, "", 4⟩] ⟨"a\n/* \n */ b\n".toList, 12, 4⟩ rfl


/-! ## Declarations, parameters and the end of the input on examples -/

/-- C21 (fails in the code): the source `int f(void){} }`, a valid declaration
followed by a stray `}`, is not rejected with a parse error: the run reads
`tokenBuffer[2]` of a buffer of two tokens. The loop of `parseDeclarationList`
itself, standing at `}` or at `@`, ends without an error and without a test for
END_OF_FILE. -/
theorem C21_trailing_input_not_reported (fuel : Nat) :
    parseSource fuel "int f(void)\x7b\x7d \x7d".toList = .error (.outOfBounds 2 2) ∧
    runOn "\x7d".toList (parseDeclarationListLoop (fuel + 1) []) = .ok [] ∧
    runOn "@ int".toList (parseDeclarationListLoop (fuel + 1) []) = .ok [] := by
  refine ⟨?_, ?_, ?_⟩ <;> rfl

/-- C23 (fails in the code): the source `int (void){}` is not accepted as a
function declaration with an empty name: after `int` is consumed the current
token is `void`, not `(`, and the parser throws "Expected identifier after type
specifier". -/
theorem C23_missing_name_rejected (fuel : Nat) :
    parseSource fuel "int (void)\x7b\x7d".toList =
      .error (.parse ("Expected identifier after type specifier at line 1. "
        ++ "Current token: void (type=4), Next token: none")) := by
  rfl

/-- C24 (fails in the code): with the identifier `a` as current token, on
`a b c`, the routine `parseParam` raises no parse error: it eats `a` as if it
were a type, takes `c` for the name and then reads `tokenBuffer[2]` of a buffer
of two tokens. The parameter lists `(a b)` and `(1 x)` end in the same read. -/
theorem C24_parameter_type_not_checked (fuel : Nat) :
    runOn "a b c".toList parseParam = .error (.outOfBounds 2 2) ∧
    runOn "(a b)".toList (parseFunDeclaration fuel ⟨.INT, "int", 1⟩ ⟨.ID, "f", 1⟩) =
      .error (.outOfBounds 2 2) ∧
    runOn "(1 x)".toList (parseFunDeclaration fuel ⟨.INT, "int", 1⟩ ⟨.ID, "f", 1⟩) =
      .error (.outOfBounds 2 2) := by
  refine ⟨?_, ?_, ?_⟩ <;> rfl

/-- C27 (fails in the code): on `void main(void){}` the run of `parse()` reads
the token buffer out of bounds, at index 2 of a buffer of two tokens; and
after one `eatToken` on `x y z` the routine `parseExpression` reads it out of
bounds through `peekToken()`. -/
theorem C27_buffer_read_out_of_bounds (fuel : Nat) :
    parseSource fuel "void main(void)\x7b\x7d".toList = .error (.outOfBounds 2 2) ∧
    runOn "x y z".toList (do eatToken .ID; currentToken) = .ok ⟨.ID, "z", 1⟩ ∧
    runOn "x y z".toList (do eatToken .ID; peekToken) = .error (.outOfBounds 2 2) ∧
    runOn "x y z".toList (do eatToken .ID; parseExpression (fuel + 1)) =
      .error (.outOfBounds 2 2) := by
  refine ⟨?_, ?_, ?_, ?_⟩ <;> rfl

/-- C30 (fails in the code): on `(void x){}` the routine `parseFunDeclaration`
does not raise "Expected ')' after parameters": after `(` is consumed the
current token is `x`, the `void` is stepped over, and the run reads
`tokenBuffer[2]` of a buffer of two tokens; `int f(void x){}` ends in the same
read, and neither `(void){}` nor `(){}` yields a declaration. -/
theorem C30_void_parameter_list (fuel : Nat) :
    runOn "(void x)\x7b\x7d".toList (parseFunDeclaration fuel ⟨.INT, "int", 1⟩ ⟨.ID, "f", 1⟩) =
      .error (.outOfBounds 2 2) ∧
    parseSource fuel "int f(void x)\x7b\x7d".toList = .error (.outOfBounds 2 2) ∧
    runOn "(void)\x7b\x7d".toList
        (parseFunDeclaration (fuel + 1) ⟨.INT, "int", 1⟩ ⟨.ID, "f", 1⟩) =
      .error (.outOfBounds 2 2) ∧
    runOn "()\x7b\x7d".toList
        (parseFunDeclaration (fuel + 1) ⟨.INT, "int", 1⟩ ⟨.ID, "f", 1⟩) =
      .error (.outOfBounds 2 2) := by
  refine ⟨?_, ?_, ?_, ?_⟩ <;> rfl


/-! ## The token window: `eatToken` in every state -/

theorem currentToken_apply (p : Parser) (t : Token)
    (h : p.tokenBuffer[p.currentIndex]? = some t) : currentToken p = .ok (t, p) := by
  simp [currentToken, bufferAt, h]

theorem currentToken_out_of_bounds (p : Parser)
    (h : p.tokenBuffer[p.currentIndex]? = none) :
    currentToken p = .error (.outOfBounds p.currentIndex p.tokenBuffer.length) := by
  simp [currentToken, bufferAt, h]

theorem matchToken_out_of_bounds (expected : TokenType) (p : Parser)
    (h : p.tokenBuffer[p.currentIndex]? = none) :
    matchToken expected p = .error (.outOfBounds p.currentIndex p.tokenBuffer.length) := by
  simp [matchToken, currentToken_out_of_bounds p h, bind, StateT.bind, Except.bind]

/-- A successful `eatToken`: the cursor index grows by one and the first two
slots of the buffer are shifted, the second being refilled from the scanner;
an error of the scanner is passed on. -/
theorem eatToken_match (expected : TokenType) (p : Parser) (cur a b : Token)
    (rest : List Token) (hcur : p.tokenBuffer[p.currentIndex]? = some cur)
    (hbuf : p.tokenBuffer = a :: b :: rest) (htype : cur.type = expected) :
    eatToken expected p =
      match p.lexer.getNextToken with
      | .error e => .error e
      | .ok (t, l) =>
        .ok ((), { lexer := l, tokenBuffer := b :: t :: rest,
                   currentIndex := p.currentIndex + 1 }) := by
  unfold eatToken
  simp only [bind, StateT.bind, Except.bind, matchToken_apply expected p cur hcur, htype,
    decide_True, if_true, modify, modifyGet, MonadStateOf.modifyGet, StateT.modifyGet,
    pure, Except.pure, bufferAt, hbuf, get, getThe, MonadStateOf.get, StateT.get, set,
    StateT.set]
  simp only [List.getElem?_cons_succ, List.getElem?_cons_zero, List.set_cons_zero,
    List.set_cons_succ]
  cases p.lexer.getNextToken with
  | error e => rfl
  | ok r => rfl

/-- A failing `eatToken`: `Parser::error` is called in the state as it is. -/
theorem eatToken_mismatch (expected : TokenType) (p : Parser) (cur : Token)
    (hcur : p.tokenBuffer[p.currentIndex]? = some cur) (htype : cur.type ≠ expected) :
    eatToken expected p =
      .error (.parse (errorText ("Expected " ++ toString expected.code
        ++ " but found " ++ toString cur.type.code
        ++ " at line " ++ toString cur.line) cur p)) := by
  unfold eatToken
  simp [bind, StateT.bind, Except.bind, matchToken_apply expected p cur hcur, htype,
    currentToken_apply p cur hcur, error_apply _ p cur hcur]


/-- Whatever `eatToken` ends in when the kinds agree, it is not the parse
error. -/
theorem eatToken_match_no_parse_error (expected : TokenType) (p : Parser) (cur : Token)
    (hcur : p.tokenBuffer[p.currentIndex]? = some cur) (htype : cur.type = expected)
    (msg : String) : eatToken expected p ≠ .error (.parse msg) := by
  cases hbuf : p.tokenBuffer with
  | nil => rw [hbuf] at hcur; simp at hcur
  | cons a as =>
    cases as with
    | nil =>
      unfold eatToken
      simp [bind, StateT.bind, Except.bind, matchToken_apply expected p cur hcur, htype,
        modify, modifyGet, MonadStateOf.modifyGet, StateT.modifyGet, pure, Except.pure,
        bufferAt, hbuf]
    | cons b rest =>
      rw [eatToken_match expected p cur a b rest hcur hbuf htype]
      cases hg : p.lexer.getNextToken with
      | error e =>
        obtain ⟨n, hn⟩ := Lexer.getNextToken_error hg
        rw [hn]
        simp
      | ok r => simp

/-- The outcome recorded by `eatTokenTrace` is that of `eatToken`, and after a
normal return the members recorded are those of the state `eatToken` returns. -/
theorem eatTokenTrace_agrees (expected : TokenType) (p : Parser) (cur : Token)
    (hcur : p.tokenBuffer[p.currentIndex]? = some cur) :
    (eatTokenTrace expected p).outcome = (eatToken expected p).map (fun _ => ()) ∧
    ∀ p', eatToken expected p = .ok ((), p') →
      eatTokenTrace expected p =
        { currentIndex := p'.currentIndex, tokenBuffer := p'.tokenBuffer, pulls := 1,
          outcome := .ok () } := by
  have htrace : eatTokenTrace expected p =
      if cur.type = expected then
        match p.tokenBuffer[1]? with
        | none =>
          { currentIndex := p.currentIndex + 1, tokenBuffer := p.tokenBuffer, pulls := 0,
            outcome := .error (.outOfBounds 1 p.tokenBuffer.length) }
        | some t1 =>
          match p.tokenBuffer[0]? with
          | none =>
            { currentIndex := p.currentIndex + 1, tokenBuffer := p.tokenBuffer, pulls := 0,
              outcome := .error (.outOfBounds 0 p.tokenBuffer.length) }
          | some _ =>
            match p.lexer.getNextToken with
            | .error e =>
              { currentIndex := p.currentIndex + 1, tokenBuffer := p.tokenBuffer.set 0 t1,
                pulls := 1, outcome := .error e }
            | .ok (t, _) =>
              { currentIndex := p.currentIndex + 1,
                tokenBuffer := (p.tokenBuffer.set 0 t1).set 1 t,
                pulls := 1, outcome := .ok () }
      else
        { currentIndex := p.currentIndex, tokenBuffer := p.tokenBuffer, pulls := 0,
          outcome := .error (.parse (errorText ("Expected " ++ toString expected.code
            ++ " but found " ++ toString cur.type.code
            ++ " at line " ++ toString cur.line) cur p)) } := by
    unfold eatTokenTrace
    simp only [hcur]
  rw [htrace]
  by_cases htype : cur.type = expected
  · rw [if_pos htype]
    cases hbuf : p.tokenBuffer with
    | nil => rw [hbuf] at hcur; simp at hcur
    | cons a as =>
      cases as with
      | nil =>
        have heat : eatToken expected p = .error (.outOfBounds 1 1) := by
          unfold eatToken
          simp [bind, StateT.bind, Except.bind, matchToken_apply expected p cur hcur, htype,
            modify, modifyGet, MonadStateOf.modifyGet, StateT.modifyGet, pure, Except.pure,
            bufferAt, hbuf]
        rw [heat]
        refine ⟨?_, fun p' h => Except.noConfusion h⟩
        simp [Except.map]
      | cons b rest =>
        have heat := eatToken_match expected p cur a b rest hcur hbuf htype
        cases hg : p.lexer.getNextToken with
        | error e =>
          simp only [hg] at heat
          rw [heat]
          refine ⟨?_, fun p' h => Except.noConfusion h⟩
          simp [Except.map]
        | ok r =>
          obtain ⟨t, l⟩ := r
          simp only [hg] at heat
          rw [heat]
          refine ⟨?_, fun p' h => ?_⟩
          · simp [Except.map]
          · injection h with h
            injection h with _ h
            subst h
            simp
  · rw [if_neg htype, eatToken_mismatch expected p cur hcur htype]
    exact ⟨rfl, fun p' h => Except.noConfusion h⟩


/-- Claim C25: in every state whose current token can be read,
`eatToken(expected)` throws the parse error if and only if the kind of the
current token differs from `expected`. When it throws, the message spells
out the kind code, the lexeme and the line of the current token, and the
parser object is as it was before the call: `currentIndex` and `tokenBuffer`
are unchanged and `lexer.getNextToken()` has not been called. The outcome
recorded with the object is that of `eatToken`; when the kinds agree the
cursor has moved. -/
theorem C25_eatToken_raises_on_mismatch (expected : TokenType) (p : Parser) (cur : Token)
    (hcur : p.tokenBuffer[p.currentIndex]? = some cur) :
    ((∃ msg, eatToken expected p = .error (.parse msg)) ↔ cur.type ≠ expected) ∧
    (cur.type ≠ expected →
      eatToken expected p =
        .error (.parse ("Expected " ++ toString expected.code
          ++ " but found " ++ toString cur.type.code
          ++ " at line " ++ toString cur.line
          ++ " at line " ++ toString cur.line
          ++ ". Current token: " ++ cur.lexeme
          ++ " (type=" ++ toString cur.type.code ++ ")"
          ++ ", Next token: "
          ++ (match p.tokenBuffer[p.currentIndex + 1]? with
              | some t => t.lexeme
              | none => "none"))) ∧
      eatToken expected p =
        (error ("Expected " ++ toString expected.code
          ++ " but found " ++ toString cur.type.code
          ++ " at line " ++ toString cur.line) : ParseM Unit) p ∧
      (∀ lexer : Lexer, eatToken expected { p with lexer := lexer } = eatToken expected p) ∧
      eatTokenTrace expected p =
        { currentIndex := p.currentIndex, tokenBuffer := p.tokenBuffer, pulls := 0,
          outcome := .error (.parse ("Expected " ++ toString expected.code
            ++ " but found " ++ toString cur.type.code
            ++ " at line " ++ toString cur.line
            ++ " at line " ++ toString cur.line
            ++ ". Current token: " ++ cur.lexeme
            ++ " (type=" ++ toString cur.type.code ++ ")"
            ++ ", Next token: "
            ++ (match p.tokenBuffer[p.currentIndex + 1]? with
                | some t => t.lexeme
                | none => "none"))) }) ∧
    (eatTokenTrace expected p).outcome = (eatToken expected p).map (fun _ => ()) ∧
    (cur.type = expected →
      (eatTokenTrace expected p).currentIndex = p.currentIndex + 1) := by
  refine ⟨⟨?_, ?_⟩, ?_, (eatTokenTrace_agrees expected p cur hcur).1, ?_⟩
  · rintro ⟨msg, hmsg⟩ htype
    exact eatToken_match_no_parse_error expected p cur hcur htype msg hmsg
  · intro htype
    exact ⟨_, eatToken_mismatch expected p cur hcur htype⟩
  · intro htype
    refine ⟨?_, ?_, ?_, ?_⟩
    · rw [eatToken_mismatch expected p cur hcur htype]
      rfl
    · rw [eatToken_mismatch expected p cur hcur htype, error_apply _ p cur hcur]
    · intro lexer
      rw [eatToken_mismatch expected p cur hcur htype,
        eatToken_mismatch expected { p with lexer := lexer } cur hcur htype]
      rfl
    · unfold eatTokenTrace
      simp only [hcur, if_neg htype]
      rfl
  · intro htype
    unfold eatTokenTrace
    simp only [hcur, if_pos htype]
    cases p.tokenBuffer[1]? with
    | none => rfl
    | some t1 =>
      cases p.tokenBuffer[0]? with
      | none => rfl
      | some t0 =>
        cases p.lexer.getNextToken with
        | error e => rfl
        | ok r => rfl

/-- C25 (witness): on `int a;`, `eatToken(ID)` at the token `int` throws and
leaves the cursor at 0, the buffer as it was and the scanner untouched, while
`eatToken(INT)` there moves the cursor, shifts the buffer and pulls `;`. -/
theorem C25_eatToken_raises_on_mismatch_witness :
    eatToken .ID ⟨⟨"int a;".toList, 5, 1⟩, [⟨.INT, "int", 1⟩, ⟨.ID, "a", 1⟩], 0⟩ =
      .error (.parse ("Expected 25 but found 2 at line 1 at line 1. "
        ++ "Current token: int (type=2), Next token: a")) ∧
    eatTokenTrace .ID ⟨⟨"int a;".toList, 5, 1⟩, [⟨.INT, "int", 1⟩, ⟨.ID, "a", 1⟩], 0⟩ =
      { currentIndex := 0, tokenBuffer := [⟨.INT, "int", 1⟩, ⟨.ID, "a", 1⟩], pulls := 0,
        outcome := .error (.parse ("Expected 25 but found 2 at line 1 at line 1. "
          ++ "Current token: int (type=2), Next token: a")) } ∧
    eatTokenTrace .INT ⟨⟨"int a;".toList, 5, 1⟩, [⟨.INT, "int", 1⟩, ⟨.ID, "a", 1⟩], 0⟩ =
      { currentIndex := 1, tokenBuffer := [⟨.ID, "a", 1⟩, ⟨.SEMICOLON, ";", 1⟩], pulls := 1,
        outcome := .ok () } ∧
    Parser.new (Lexer.new "int a;".toList) =
      .ok ⟨⟨"int a;".toList, 5, 1⟩, [⟨.INT, "int", 1⟩, ⟨.ID, "a", 1⟩], 0⟩ :=
  ⟨((C25_eatToken_raises_on_mismatch .ID
      ⟨⟨"int a;".toList, 5, 1⟩, [⟨.INT, "int", 1⟩, ⟨.ID, "a", 1⟩], 0⟩ ⟨.INT, "int", 1⟩ rfl).2.1
      (by decide)).1,
    ((C25_eatToken_raises_on_mismatch .ID
      ⟨⟨"int a;".toList, 5, 1⟩, [⟨.INT, "int", 1⟩, ⟨.ID, "a", 1⟩], 0⟩ ⟨.INT, "int", 1⟩ rfl).2.1
      (by decide)).2.2.2,
    rfl, rfl⟩


/-! ## Every run of `parse()` on a fresh parser -/

theorem matchType_apply (p : Parser) (t : Token)
    (h : p.tokenBuffer[p.currentIndex]? = some t) :
    matchType p = .ok (decide (t.type = .INT) || decide (t.type = .VOID), p) := by
  by_cases hint : t.type = .INT
  · simp [matchType, matchToken_apply _ p t h, hint, bind, StateT.bind, Except.bind, pure,
      StateT.pure, Except.pure]
  · simp [matchType, matchToken_apply _ p t h, hint, bind, StateT.bind, Except.bind]

/-- With the cursor index at 1 in a buffer of two tokens and `(` as current
token, `parseFunDeclaration` eats the `(` and then reads the buffer at
index 2. -/
theorem parseFunDeclaration_second_eat (fuel : Nat) (typeToken idToken a t2 : Token)
    (l3 : Lexer) (h2 : t2.type = .LPAREN) :
    ∃ e, parseFunDeclaration fuel typeToken idToken ⟨l3, [a, t2], 1⟩ = .error e ∧
      ((∃ msg, e = .scan msg) ∨ e = .outOfBounds 2 2) := by
  have hm : matchToken .LPAREN ⟨l3, [a, t2], 1⟩ = .ok (true, ⟨l3, [a, t2], 1⟩) := by
    rw [matchToken_apply .LPAREN ⟨l3, [a, t2], 1⟩ t2 rfl, h2]
    rfl
  have heat := eatToken_match .LPAREN ⟨l3, [a, t2], 1⟩ t2 a t2 [] rfl rfl h2
  cases hg : l3.getNextToken with
  | error e =>
    obtain ⟨n, hn⟩ := Lexer.getNextToken_error hg
    refine ⟨e, ?_, Or.inl ⟨_, hn⟩⟩
    simp only [hg] at heat
    unfold parseFunDeclaration
    simp [bind, StateT.bind, Except.bind, pure, StateT.pure, Except.pure, hm, heat]
  | ok r =>
    obtain ⟨t3, l4⟩ := r
    simp only [hg] at heat
    have hoob : matchToken .VOID ⟨l4, [t2, t3], 2⟩ = .error (.outOfBounds 2 2) :=
      matchToken_out_of_bounds .VOID ⟨l4, [t2, t3], 2⟩ rfl
    refine ⟨.outOfBounds 2 2, ?_, Or.inr rfl⟩
    unfold parseFunDeclaration
    simp [bind, StateT.bind, Except.bind, pure, StateT.pure, Except.pure, hm, heat, hoob]

/-- On the state that the constructor leaves, `parseDeclaration` ends in the
parse error, in an error of the scanner, or in the read of the buffer at
index 2. -/
theorem parseDeclaration_fresh (fuel : Nat) (t0 t1 : Token) (l2 : Lexer) :
    ∃ e, parseDeclaration fuel ⟨l2, [t0, t1], 0⟩ = .error e ∧
      ((∃ msg, e = .parse msg) ∨ (∃ msg, e = .scan msg) ∨ e = .outOfBounds 2 2) := by
  by_cases hty : t0.type = .INT ∨ t0.type = .VOID
  · have hm : matchType ⟨l2, [t0, t1], 0⟩ = .ok (true, ⟨l2, [t0, t1], 0⟩) := by
      rw [matchType_apply ⟨l2, [t0, t1], 0⟩ t0 rfl]
      rcases hty with h | h <;> simp [h]
    have hcur := currentToken_apply ⟨l2, [t0, t1], 0⟩ t0 rfl
    have heat := eatToken_match t0.type ⟨l2, [t0, t1], 0⟩ t0 t0 t1 [] rfl rfl rfl
    cases hg : l2.getNextToken with
    | error e =>
      obtain ⟨n, hn⟩ := Lexer.getNextToken_error hg
      refine ⟨e, ?_, Or.inr (Or.inl ⟨_, hn⟩)⟩
      simp only [hg] at heat
      unfold parseDeclaration
      simp [bind, StateT.bind, Except.bind, pure, StateT.pure, Except.pure, hm, hcur, heat]
    | ok r =>
      obtain ⟨t2, l3⟩ := r
      simp only [hg] at heat
      have hm1 : ∀ k : TokenType, matchToken k ⟨l3, [t1, t2], 1⟩ =
          .ok (decide (t2.type = k), ⟨l3, [t1, t2], 1⟩) :=
        fun k => matchToken_apply k ⟨l3, [t1, t2], 1⟩ t2 rfl
      have hcur1 := currentToken_apply ⟨l3, [t1, t2], 1⟩ t2 rfl
      by_cases hparen : t2.type = .LPAREN
      · obtain ⟨e, he, hkind⟩ := parseFunDeclaration_second_eat fuel t0
          ⟨.ID, "", t0.line⟩ t1 t2 l3 hparen
        refine ⟨e, ?_, Or.inr hkind⟩
        unfold parseDeclaration
        simp [bind, StateT.bind, Except.bind, pure, StateT.pure, Except.pure, hm, hcur, heat, hm1, hparen, he]
      · by_cases hid : t2.type = .ID
        · have heat1 := eatToken_match .ID ⟨l3, [t1, t2], 1⟩ t2 t1 t2 [] rfl rfl hid
          cases hg1 : l3.getNextToken with
          | error e =>
            obtain ⟨n, hn⟩ := Lexer.getNextToken_error hg1
            refine ⟨e, ?_, Or.inr (Or.inl ⟨_, hn⟩)⟩
            simp only [hg1] at heat1
            unfold parseDeclaration
            simp [bind, StateT.bind, Except.bind, pure, StateT.pure, Except.pure, hm, hcur, heat, hm1, hparen, hid, hcur1,
              heat1]
          | ok r1 =>
            obtain ⟨t3, l4⟩ := r1
            simp only [hg1] at heat1
            have hoob : matchToken .LPAREN ⟨l4, [t2, t3], 2⟩ = .error (.outOfBounds 2 2) :=
              matchToken_out_of_bounds .LPAREN ⟨l4, [t2, t3], 2⟩ rfl
            refine ⟨.outOfBounds 2 2, ?_, Or.inr (Or.inr rfl)⟩
            unfold parseDeclaration
            simp [bind, StateT.bind, Except.bind, pure, StateT.pure, Except.pure, hm, hcur, heat, hm1, hparen, hid, hcur1,
              heat1, hoob]
        · refine ⟨.parse (errorText "Expected identifier after type specifier" t2
            ⟨l3, [t1, t2], 1⟩), ?_, Or.inl ⟨_, rfl⟩⟩
          unfold parseDeclaration
          simp [bind, StateT.bind, Except.bind, pure, StateT.pure, Except.pure, hm, hcur, heat, hm1, hparen, hid,
            error_apply _ ⟨l3, [t1, t2], 1⟩ t2 rfl]
  · have h1 : t0.type ≠ .INT := fun h => hty (Or.inl h)
    have h2 : t0.type ≠ .VOID := fun h => hty (Or.inr h)
    exact ⟨_, parseDeclaration_not_type fuel ⟨l2, [t0, t1], 0⟩ t0 rfl h1 h2,
      Or.inl ⟨_, rfl⟩⟩

theorem parse_of_parseDeclaration_error (fuel : Nat) (p : Parser) (e : Err)
    (h : parseDeclaration fuel p = .error e) : parse fuel p = .error e := by
  unfold parse parseProgram parseDeclarationList
  simp [bind, StateT.bind, Except.bind, h]


/-- Claim C26: `Parser::parse()` returns a Program for no input.  For every
source text and every fuel, the constructor either fails with an error of
the scanner or leaves two tokens in the buffer with the index at 0, and on
that parser `parse()` ends in the parse error, in an error of the scanner,
or in the read of `tokenBuffer[2]` while the buffer holds 2 tokens; so does
the whole pipeline.  Each of the three endings occurs. -/
theorem C26_parse_returns_no_program (fuel : Nat) (source : List Char) :
    (match Parser.new (Lexer.new source) with
      | .error e => ∃ msg, e = .scan msg
      | .ok p =>
        p.tokenBuffer.length = 2 ∧ p.currentIndex = 0 ∧
        ∃ e, parse fuel p = .error e ∧
          ((∃ msg, e = .parse msg) ∨ (∃ msg, e = .scan msg) ∨ e = .outOfBounds 2 2)) ∧
    (∃ e, parseSource fuel source = .error e ∧
      ((∃ msg, e = .parse msg) ∨ (∃ msg, e = .scan msg) ∨ e = .outOfBounds 2 2)) ∧
    (∃ msg, parseSource fuel "".toList = .error (.parse msg)) ∧
    (∃ msg, parseSource fuel "int x;".toList = .error (.parse msg)) ∧
    (∃ msg, parseSource fuel "int /*".toList = .error (.scan msg)) ∧
    parseSource fuel "int a b".toList = .error (.outOfBounds 2 2) ∧
    parseSource fuel "int f(void) \x7b \x7d".toList = .error (.outOfBounds 2 2) := by
  refine ⟨?_, ?_, ⟨_, rfl⟩, ⟨_, rfl⟩, ⟨_, rfl⟩, rfl, rfl⟩
  · cases h0 : (Lexer.new source).getNextToken with
    | error e =>
      obtain ⟨n, hn⟩ := Lexer.getNextToken_error h0
      simp only [Parser.new, h0]
      exact ⟨_, hn⟩
    | ok r0 =>
      obtain ⟨t0, l1⟩ := r0
      cases h1 : l1.getNextToken with
      | error e =>
        obtain ⟨n, hn⟩ := Lexer.getNextToken_error h1
        simp only [Parser.new, h0, h1]
        exact ⟨_, hn⟩
      | ok r1 =>
        obtain ⟨t1, l2⟩ := r1
        obtain ⟨e, he, hkind⟩ := parseDeclaration_fresh fuel t0 t1 l2
        have hnew : Parser.new (Lexer.new source) = .ok ⟨l2, [t0, t1], 0⟩ := by
          simp only [Parser.new, h0, h1]
        rw [hnew]
        exact ⟨rfl, rfl, e, parse_of_parseDeclaration_error fuel _ e he, hkind⟩
  · cases h0 : (Lexer.new source).getNextToken with
    | error e =>
      obtain ⟨n, hn⟩ := Lexer.getNextToken_error h0
      refine ⟨e, ?_, Or.inr (Or.inl ⟨_, hn⟩)⟩
      simp only [parseSource, runOn, Parser.new, h0]
    | ok r0 =>
      obtain ⟨t0, l1⟩ := r0
      cases h1 : l1.getNextToken with
      | error e =>
        obtain ⟨n, hn⟩ := Lexer.getNextToken_error h1
        refine ⟨e, ?_, Or.inr (Or.inl ⟨_, hn⟩)⟩
        simp only [parseSource, runOn, Parser.new, h0, h1]
      | ok r1 =>
        obtain ⟨t1, l2⟩ := r1
        obtain ⟨e, he, hkind⟩ := parseDeclaration_fresh fuel t0 t1 l2
        refine ⟨e, ?_, hkind⟩
        simp only [parseSource, runOn, Parser.new, h0, h1,
          parse_of_parseDeclaration_error fuel _ e he]


/-! ## Integer literals -/

theorem isdigit_toNat {c : Char} (h : isdigit c = true) : 48 ≤ c.toNat ∧ c.toNat ≤ 57 := by
  simpa [isdigit] using h

theorem isdigit_not_space {c : Char} (h : isdigit c = true) : isspace c = false := by
  obtain ⟨h1, h2⟩ := isdigit_toNat h
  have hne : c ≠ ' ' := by
    intro hc
    rw [hc] at h1
    exact absurd h1 (by decide)
  simp only [isspace, Bool.or_eq_false_iff, decide_eq_false_iff_not, Bool.and_eq_false_iff,
    Nat.not_le]
  exact ⟨hne, Or.inr (by omega)⟩

theorem isdigit_not_alpha {c : Char} (h : isdigit c = true) : isalpha c = false := by
  obtain ⟨h1, h2⟩ := isdigit_toNat h
  have e1 : 'a'.toNat = 97 := rfl
  have e2 : 'z'.toNat = 122 := rfl
  have e3 : 'A'.toNat = 65 := rfl
  have e4 : 'Z'.toNat = 90 := rfl
  simp only [isalpha, e1, e2, e3, e4, Bool.or_eq_false_iff, Bool.and_eq_false_iff,
    decide_eq_false_iff_not, Nat.not_le]
  exact ⟨Or.inl (by omega), Or.inl (by omega)⟩

theorem foldl_digits_eq (d : List Char) :
    d.foldl (fun a c => 10 * a + (c.toNat - '0'.toNat)) 0 = decimalValue d := by
  induction d using List.reverseRecOn with
  | nil => rfl
  | append_singleton d c ih =>
    rw [List.foldl_append, List.foldl_cons, List.foldl_nil, ih]
    simp only [decimalValue, List.reverse_append, List.reverse_cons, List.reverse_nil,
      List.nil_append, List.singleton_append, List.map_cons, Nat.ofDigits_cons]
    omega

/-- On a non-empty string of digits whose value fits `int`, `std::stoi`
returns the base-10 value. -/
theorem stoi_digits (d : List Char) (hne : d ≠ []) (hdig : ∀ c ∈ d, isdigit c = true)
    (hval : decimalValue d < 2 ^ 31) : stoi (String.mk d) = .ok (decimalValue d : Int) := by
  obtain ⟨c, cs, rfl⟩ := List.exists_cons_of_ne_nil hne
  have hc : isdigit c = true := hdig c (List.mem_cons_self _ _)
  obtain ⟨h1, h2⟩ := isdigit_toNat hc
  have hsp := isdigit_not_space hc
  have hminus : c ≠ '-' := by
    intro h
    rw [h] at h1
    exact absurd h1 (by decide)
  have hplus : c ≠ '+' := by
    intro h
    rw [h] at h1
    exact absurd h1 (by decide)
  have hdrop : (c :: cs).dropWhile isspace = c :: cs := by
    rw [List.dropWhile_cons_of_neg (by simp [hsp])]
  have htake : (c :: cs).takeWhile isdigit = c :: cs :=
    List.takeWhile_eq_self_iff.mpr hdig
  have hsigned : (match c :: cs with
      | '-' :: r => (true, r)
      | '+' :: r => (false, r)
      | _ => (false, c :: cs) : Bool × List Char) = (false, c :: cs) := by
    split
    · rename_i r heq
      exact absurd (List.cons.inj heq).1 hminus
    · rename_i r heq
      exact absurd (List.cons.inj heq).1 hplus
    · rfl
  unfold stoi
  have hle : ¬ decimalValue (c :: cs) > 2 ^ 31 - 1 := by omega
  have hnil : ¬ (c :: cs = []) := hne
  simp only [String.toList, hdrop, hsigned, htake, foldl_digits_eq, if_neg hle, if_neg hnil]
  simp


/-- On a NUM token whose lexeme is a string of digits with a value that fits
`int`, `parseFactor` eats the token and returns the number node of that
value; an error of the scanner while the look-ahead is refilled is passed
on. -/
theorem parseFactor_num (fuel : Nat) (p : Parser) (cur a b : Token) (rest : List Token)
    (d : List Char) (hcur : p.tokenBuffer[p.currentIndex]? = some cur)
    (hbuf : p.tokenBuffer = a :: b :: rest) (htype : cur.type = .NUM)
    (hlex : cur.lexeme = String.mk d) (hne : d ≠ [])
    (hdig : ∀ c ∈ d, isdigit c = true) (hval : decimalValue d < 2 ^ 31) :
    parseFactor (fuel + 1) p =
      match p.lexer.getNextToken with
      | .error e => .error e
      | .ok (t, l) =>
        .ok (.Num (decimalValue d) cur.line,
          { lexer := l, tokenBuffer := b :: t :: rest, currentIndex := p.currentIndex + 1 }) := by
  have heat := eatToken_match .NUM p cur a b rest hcur hbuf htype
  have hstoi := stoi_digits d hne hdig hval
  unfold parseFactor
  cases hg : p.lexer.getNextToken with
  | error e =>
    simp only [hg] at heat
    simp [bind, StateT.bind, Except.bind, pure, StateT.pure, Except.pure,
      currentToken_apply p cur hcur, htype, heat]
  | ok r =>
    obtain ⟨t, l⟩ := r
    simp only [hg] at heat
    simp [bind, StateT.bind, Except.bind, pure, StateT.pure, Except.pure,
      currentToken_apply p cur hcur, htype, heat, hlex, hstoi]


/-- C22 (counterexample): over the source `1 x /*` the current token of the
parser is NUM `1`, whose digit denotes 1, below 2^31, and `parseFactor`
returns no node: the `eatToken(NUM)` in it refills the look-ahead, the
scanner runs into the comment that is never closed, and the scan error is
thrown before the node is built. -/
theorem C22_counterexample_refill_fails :
    Parser.new (Lexer.new "1 x /*".toList) =
      .ok ⟨⟨"1 x /*".toList, 3, 1⟩, [⟨.NUM, "1", 1⟩, ⟨.ID, "x", 1⟩], 0⟩ ∧
    decimalValue "1".toList < 2 ^ 31 ∧
    (∀ fuel : Nat,
      parseFactor (fuel + 1)
          ⟨⟨"1 x /*".toList, 3, 1⟩, [⟨.NUM, "1", 1⟩, ⟨.ID, "x", 1⟩], 0⟩ =
        .error (.scan "Unterminated comment at line 1")) ∧
    (∀ fuel : Nat, runOn "1 x /*".toList (parseFactor (fuel + 1)) =
      .error (.scan "Unterminated comment at line 1")) ∧
    ∀ (fuel : Nat) (node : ASTNode), runOn "1 x /*".toList (parseFactor fuel) ≠ .ok node := by
  refine ⟨rfl, by decide, fun _ => rfl, fun _ => rfl, fun fuel node h => ?_⟩
  cases fuel with
  | zero =>
    have h1 : runOn "1 x /*".toList (parseFactor 0) = .error .outOfFuel := rfl
    rw [h1] at h
    exact Except.noConfusion h
  | succ fuel =>
    have h1 : runOn "1 x /*".toList (parseFactor (fuel + 1)) =
        .error (.scan "Unterminated comment at line 1") := rfl
    rw [h1] at h
    exact Except.noConfusion h

/-- Claim C22 (amended): integer literals.  Where the first unread character
after blanks and comments is a digit, `getNextToken` returns one NUM token
whose lexeme is the maximal run of digits from there on (digits only, so no
sign, and every leading zero kept), on the line of its first digit.  Where
that token is the current token of a parser whose buffer holds two tokens or
more and its digits denote a value below 2^31, `parseFactor` does what the
refill of the look-ahead in `eatToken(NUM)` allows: where the scanner
returns the next token, `parseFactor` returns the number node with the
base-10 value of the digits and the line of the token and leaves the cursor
one further, the buffer shifted and refilled; where the scanner throws, it
throws the same scan error and returns no node. -/
theorem C22_integer_literals (l ls : Lexer) (c : Char) (cs : List Char)
    (hskip : l.skipBlanksLoop l.remaining = .ok ls) (hrest : ls.rest = c :: cs)
    (hdigit : isdigit c = true) :
    ∃ tok l1, l.getNextToken = .ok (tok, l1) ∧ tok.type = .NUM ∧
      tok.lexeme = String.mk ((c :: cs).takeWhile (fun x => isdigit x)) ∧
      tok.lexeme.data ≠ [] ∧ (∀ x ∈ tok.lexeme.data, isdigit x = true) ∧
      l1.rest = (c :: cs).dropWhile (fun x => isdigit x) ∧
      (∀ x r, l1.rest = x :: r → isdigit x = false) ∧
      tok.line = ls.currentLine ∧
      ∀ (fuel : Nat) (p : Parser) (a b : Token) (rest : List Token),
        p.tokenBuffer[p.currentIndex]? = some tok → p.tokenBuffer = a :: b :: rest →
        decimalValue tok.lexeme.data < 2 ^ 31 →
        parseFactor (fuel + 1) p =
          match p.lexer.getNextToken with
          | .error e => .error e
          | .ok (t, l2) =>
            .ok (.Num (decimalValue tok.lexeme.data) tok.line,
              { lexer := l2, tokenBuffer := b :: t :: rest,
                currentIndex := p.currentIndex + 1 }) := by
  have hnul : c ≠ NUL := by
    intro h
    rw [h] at hdigit
    exact absurd hdigit (by decide)
  have halpha : ¬ (isalpha c = true) := by
    rw [isdigit_not_alpha hdigit]
    exact Bool.false_ne_true
  have hget : l.getNextToken = .ok ls.handleNumber := by
    rw [Lexer.getNextToken_of_skip hskip, Lexer.peek_of_rest_cons hrest, if_neg hnul,
      if_neg halpha, if_pos hdigit]
  have hne : (c :: cs).takeWhile (fun x => isdigit x) ≠ [] := by
    rw [List.takeWhile_cons_of_pos hdigit]
    exact List.cons_ne_nil _ _
  have hall : ∀ x ∈ (c :: cs).takeWhile (fun x => isdigit x), isdigit x = true :=
    fun x hx => List.mem_takeWhile_imp hx
  have hdrop : (ls.consume ((c :: cs).takeWhile (fun x => isdigit x))).rest =
      (c :: cs).dropWhile (fun x => isdigit x) :=
    Lexer.rest_consume (by rw [hrest]; exact (List.takeWhile_append_dropWhile _ _).symm)
  rw [hget, Lexer.handleNumber_eq, hrest]
  refine ⟨_, _, rfl, rfl, rfl, hne, hall, hdrop, ?_, rfl, ?_⟩
  · intro x r hx
    rw [hdrop] at hx
    have hhead := List.head_dropWhile_not (fun x => isdigit x) (c :: cs)
      (by rw [hx]; exact List.cons_ne_nil _ _)
    simp only [hx, List.head_cons] at hhead
    simpa using hhead
  · intro fuel p a b rest hcur hbuf hval
    exact parseFactor_num fuel p _ a b rest _ hcur hbuf rfl rfl hne hall hval

/-- C22 (witness): in ` 010+1` the scanner returns NUM `010` and stops before
the `+`; `parseFactor` on the tokens of `010 + 1` returns the number 10, not
8; `-7` is scanned as MINUS and NUM `7`. -/
theorem C22_integer_literals_witness :
    (∃ tok l1, (Lexer.new " 010+1".toList).getNextToken = .ok (tok, l1) ∧
      tok.type = .NUM ∧ tok.lexeme = "010" ∧ l1.rest = "+1".toList ∧ tok.line = 1 ∧
      parseFactor 1 ⟨⟨"010 + 1".toList, 5, 1⟩, [tok, ⟨.PLUS, "+", 1⟩], 0⟩ =
        .ok (.Num 10 1,
          ⟨⟨"010 + 1".toList, 7, 1⟩, [⟨.PLUS, "+", 1⟩, ⟨.NUM, "1", 1⟩], 1⟩)) ∧
    Parser.new (Lexer.new "010 + 1".toList) =
      .ok ⟨⟨"010 + 1".toList, 5, 1⟩, [⟨.NUM, "010", 1⟩, ⟨.PLUS, "+", 1⟩], 0⟩ ∧
    runOn "010 + 1".toList (parseFactor 1) = .ok (.Num 10 1) ∧
    (Lexer.new "-7".toList).getAllTokens.map
        (fun r => r.1.map (fun t => (t.type, t.lexeme))) =
      .ok [(.MINUS, "-"), (.NUM, "7"), (.END_OF_FILE, "")] := by
  refine ⟨?_, rfl, rfl, rfl⟩
  obtain ⟨tok, l1, h1, h2, h3, _, _, h4, _, h5, h6⟩ :=
    C22_integer_literals (Lexer.new " 010+1".toList) ⟨" 010+1".toList, 1, 1⟩
      '0' "10+1".toList rfl rfl (by decide)
  have hlex : tok.lexeme = "010" := h3
  refine ⟨tok, l1, h1, h2, hlex, h4, h5, ?_⟩
  rw [h6 0 ⟨⟨"010 + 1".toList, 5, 1⟩, [tok, ⟨.PLUS, "+", 1⟩], 0⟩ tok ⟨.PLUS, "+", 1⟩ [] rfl rfl
    (by rw [hlex]; decide), hlex, h5]
  rfl


/-! ## Progress and termination of the scanner -/

/-- One call of `getNextToken` keeps the source, never moves the cursor back,
keeps it within the source, and for a token other than END_OF_FILE moves it
forward and returns a lexeme that is not empty. -/
theorem Lexer.getNextToken_progress {l l1 : Lexer} {tok : Token}
    (h : l.getNextToken = .ok (tok, l1)) :
    l1.source = l.source ∧ l.currentPos ≤ l1.currentPos ∧
      (l.currentPos ≤ l.source.length → l1.currentPos ≤ l1.source.length) ∧
      (tok.type ≠ .END_OF_FILE → l.currentPos < l1.currentPos ∧ tok.lexeme ≠ "") := by
  obtain ⟨b, w, r, hrest, hl1, hlex, _, _, hcase⟩ := Lexer.getNextToken_spec h
  have hlen : l.rest.length = l.source.length - l.currentPos := by
    unfold Lexer.rest
    rw [List.length_drop]
  rw [hrest] at hlen
  simp only [List.length_append] at hlen
  have hpos : l1.currentPos = l.currentPos + (b.length + w.length) := by
    rw [hl1]
    show l.currentPos + (b ++ w).length = _
    rw [List.length_append]
  have hsrc : l1.source = l.source := by rw [hl1]; rfl
  refine ⟨hsrc, by omega, fun hle => by rw [hsrc]; omega, fun hne => ?_⟩
  rcases hcase with ⟨heof, _, _⟩ | ⟨_, hw⟩
  · exact absurd heof hne
  · have hwlen : 0 < w.length := List.length_pos.mpr hw
    refine ⟨by omega, ?_⟩
    rw [hlex]
    intro hempty
    exact hw (congrArg String.data hempty)

/-- With more rounds than unread characters the loop of `getAllTokens` ends:
on a list of tokens, or on the error of an unterminated comment. -/
theorem Lexer.getAllTokensLoop_total (n : Nat) :
    ∀ (l : Lexer) (tok : Token) (acc : List Token),
      (tok.type ≠ .END_OF_FILE → l.remaining < n) →
      (∃ res l', Lexer.getAllTokensLoop n l tok acc = .ok (res, l')) ∨
        ∃ k : Nat, Lexer.getAllTokensLoop n l tok acc =
          .error (.scan ("Unterminated comment at line " ++ toString k)) := by
  induction n with
  | zero =>
    intro l tok acc hfuel
    have heof : tok.type = .END_OF_FILE := by
      by_contra hne
      exact absurd (hfuel hne) (Nat.not_lt_zero _)
    rw [Lexer.getAllTokensLoop, if_neg (by simp [heof])]
    exact Or.inl ⟨_, _, rfl⟩
  | succ n ih =>
    intro l tok acc hfuel
    by_cases heof : tok.type = .END_OF_FILE
    · rw [Lexer.getAllTokensLoop, if_neg (by simp [heof])]
      exact Or.inl ⟨_, _, rfl⟩
    · rw [Lexer.getAllTokensLoop, if_pos heof]
      cases hg : l.getNextToken with
      | error e =>
        obtain ⟨k, hk⟩ := Lexer.getNextToken_error hg
        exact Or.inr ⟨k, by rw [hk]⟩
      | ok x =>
        obtain ⟨t, l1⟩ := x
        have hrem := Lexer.getNextToken_remaining hg
        have hlt := hfuel heof
        exact ih l1 t (acc ++ [tok]) (fun hne => by have := hrem.2 hne; omega)

/-- The method `getAllTokens` ends on every state. -/
theorem Lexer.getAllTokens_total (l : Lexer) :
    (∃ toks l', l.getAllTokens = .ok (toks, l')) ∨
      ∃ k : Nat, l.getAllTokens =
        .error (.scan ("Unterminated comment at line " ++ toString k)) := by
  unfold Lexer.getAllTokens
  cases hg : l.getNextToken with
  | error e =>
    obtain ⟨k, hk⟩ := Lexer.getNextToken_error hg
    exact Or.inr ⟨k, by rw [hk]⟩
  | ok x =>
    obtain ⟨t, l1⟩ := x
    have hrem := Lexer.getNextToken_remaining hg
    exact Lexer.getAllTokensLoop_total _ l1 t [] (fun _ => by omega)

/-- A scan has at most one token per unread character and one more, and its
END_OF_FILE token is the last one and the only one. -/
theorem Lexer.Scans.shape (toks : List Token) :
    ∀ (l : Lexer), Lexer.Scans l toks →
      toks.length ≤ l.remaining + 1 ∧
        ∃ init last, toks = init ++ [last] ∧ last.type = .END_OF_FILE ∧
          ∀ t ∈ init, t.type ≠ .END_OF_FILE := by
  induction toks with
  | nil => intro l h; exact False.elim h
  | cons t ts ih =>
    intro l h
    obtain ⟨l1, hg, hcase⟩ := h
    have hrem := Lexer.getNextToken_remaining hg
    rcases hcase with ⟨heof, hts⟩ | ⟨hne, hscan⟩
    · subst hts
      refine ⟨by simp, [], t, rfl, heof, ?_⟩
      intro x hx
      exact absurd hx (List.not_mem_nil _)
    · obtain ⟨hlen, init, last, heq, hlast, hinit⟩ := ih l1 hscan
      have hlt := hrem.2 hne
      refine ⟨by simp only [List.length_cons]; omega, t :: init, last, by rw [heq]; rfl,
        hlast, ?_⟩
      intro x hx
      rcases List.mem_cons.mp hx with rfl | hx
      · exact hne
      · exact hinit x hx


/-- Claim C28: progress and termination of the scanner.  Every call of
`getNextToken` that returns a token keeps the cursor within the source when
it was within it before and never moves it back, and when the token is not
END_OF_FILE the cursor has moved forward and the lexeme is not empty.
From every state `getAllTokens` ends: either it raises the error of an
unterminated comment, or it returns at most one token per unread character
and one more (so at most `length(source) + 1` tokens), of which the last
one, and no other, is END_OF_FILE. -/
theorem C28_scanner_progress_and_termination (l : Lexer) :
    (∀ (tok : Token) (l1 : Lexer), l.getNextToken = .ok (tok, l1) →
      l1.source = l.source ∧ l.currentPos ≤ l1.currentPos ∧
      (l.currentPos ≤ l.source.length → l1.currentPos ≤ l1.source.length) ∧
      (tok.type ≠ .END_OF_FILE → l.currentPos < l1.currentPos ∧ tok.lexeme ≠ "")) ∧
    ((∃ k : Nat, l.getAllTokens =
        .error (.scan ("Unterminated comment at line " ++ toString k))) ∨
      ∃ toks l', l.getAllTokens = .ok (toks, l') ∧
        toks.length ≤ l.remaining + 1 ∧ toks.length ≤ l.source.length + 1 ∧
        ∃ init last, toks = init ++ [last] ∧ last.type = .END_OF_FILE ∧
          ∀ t ∈ init, t.type ≠ .END_OF_FILE) := by
  refine ⟨fun tok l1 h => Lexer.getNextToken_progress h, ?_⟩
  rcases Lexer.getAllTokens_total l with ⟨toks, l', h⟩ | hk
  · obtain ⟨hlen, hshape⟩ := Lexer.Scans.shape toks l (Lexer.getAllTokens_scans h)
    have hrem : l.remaining ≤ l.source.length := Nat.sub_le _ _
    exact Or.inr ⟨toks, l', h, hlen, by omega, hshape⟩
  · exact Or.inl hk

/-- C28 (witness): on `ab /* c */ 1` the first call moves the cursor from 0
to 2 and returns `ab`; `getAllTokens` returns three tokens, END_OF_FILE last;
on `a /*` it raises the error of the unterminated comment. -/
theorem C28_scanner_progress_and_termination_witness :
    (Lexer.new "ab /* c */ 1".toList).getNextToken =
      .ok (⟨.ID, "ab", 1⟩, ⟨"ab /* c */ 1".toList, 2, 1⟩) ∧
    ((⟨"ab /* c */ 1".toList, 2, 1⟩ : Lexer).source = (Lexer.new "ab /* c */ 1".toList).source ∧
      (Lexer.new "ab /* c */ 1".toList).currentPos ≤ (⟨"ab /* c */ 1".toList, 2, 1⟩ : Lexer).currentPos ∧
      ((Lexer.new "ab /* c */ 1".toList).currentPos ≤ (Lexer.new "ab /* c */ 1".toList).source.length →
        (⟨"ab /* c */ 1".toList, 2, 1⟩ : Lexer).currentPos ≤
          (⟨"ab /* c */ 1".toList, 2, 1⟩ : Lexer).source.length) ∧
      ((⟨.ID, "ab", 1⟩ : Token).type ≠ .END_OF_FILE →
        (Lexer.new "ab /* c */ 1".toList).currentPos <
          (⟨"ab /* c */ 1".toList, 2, 1⟩ : Lexer).currentPos ∧
        (⟨.ID, "ab", 1⟩ : Token).lexeme ≠ "")) ∧
    (Lexer.new "ab /* c */ 1".toList).getAllTokens =
      .ok ([⟨.ID, "ab", 1⟩, ⟨.NUM, "1", 1⟩, ⟨.END_OF_FILE, "", 1⟩],
        ⟨"ab /* c */ 1".toList, 12, 1⟩) ∧
    (Lexer.new "a /*".toList).getAllTokens =
      .error (.scan "Unterminated comment at line 1") :=
  ⟨rfl,
    (C28_scanner_progress_and_termination (Lexer.new "ab /* c */ 1".toList)).1
      ⟨.ID, "ab", 1⟩ ⟨"ab /* c */ 1".toList, 2, 1⟩ rfl,
    rfl, rfl⟩


/-! ## Scanning a lexeme again -/

/-- The token of `handleOperator` is returned again wherever its characters are
followed by something other than `=`. -/
theorem Lexer.handleOperator_rescan (c : Char) (cs : List Char) :
    ∃ ty w r, c :: cs = w ++ r ∧ (w = [c] ∨ w = [c, '=']) ∧ ty ≠ .END_OF_FILE ∧
      (∀ ls : Lexer, ls.rest = c :: cs →
        ls.handleOperator = (⟨ty, String.mk w, ls.currentLine⟩, ls.consume w)) ∧
      (c = '/' → w = [c]) ∧
      ∀ (ls : Lexer) (tail : List Char), ls.rest = w ++ tail → tail.headD NUL ≠ '=' →
        ls.handleOperator = (⟨ty, String.mk w, ls.currentLine⟩, ls.consume w) := by
  by_cases h0 : c = '=' ∧ cs.headD NUL = '='
  · refine ⟨.EQ, [c, '='], cs.tail, ?_, Or.inr rfl, by decide, fun ls hrest => ?_, ?_,
      fun ls tail hrest htail => ?_⟩
    · rw [headD_eq_cons h0.2 (by decide)]; rfl
    · have e := Lexer.handleOperator_eq hrest
      rw [if_pos h0] at e
      rw [e, h0.1]
    · intro hc
      rw [hc] at h0
      exact absurd h0.1 (by decide)
    · have e := Lexer.handleOperator_eq (show ls.rest = c :: ('=' :: tail) from hrest)
      rw [if_pos ⟨h0.1, rfl⟩] at e
      rw [e, h0.1]
  by_cases h1 : c = '!' ∧ cs.headD NUL = '='
  · refine ⟨.NE, [c, '='], cs.tail, ?_, Or.inr rfl, by decide, fun ls hrest => ?_, ?_,
      fun ls tail hrest htail => ?_⟩
    · rw [headD_eq_cons h1.2 (by decide)]; rfl
    · have e := Lexer.handleOperator_eq hrest
      rw [if_neg h0, if_pos h1] at e
      rw [e, h1.1]
    · intro hc
      rw [hc] at h1
      exact absurd h1.1 (by decide)
    · have e := Lexer.handleOperator_eq (show ls.rest = c :: ('=' :: tail) from hrest)
      rw [if_neg (fun hj => h0 ⟨hj.1, h1.2⟩), if_pos ⟨h1.1, rfl⟩] at e
      rw [e, h1.1]
  by_cases h2 : c = '<' ∧ cs.headD NUL = '='
  · refine ⟨.LE, [c, '='], cs.tail, ?_, Or.inr rfl, by decide, fun ls hrest => ?_, ?_,
      fun ls tail hrest htail => ?_⟩
    · rw [headD_eq_cons h2.2 (by decide)]; rfl
    · have e := Lexer.handleOperator_eq hrest
      rw [if_neg h0, if_neg h1, if_pos h2] at e
      rw [e, h2.1]
    · intro hc
      rw [hc] at h2
      exact absurd h2.1 (by decide)
    · have e := Lexer.handleOperator_eq (show ls.rest = c :: ('=' :: tail) from hrest)
      rw [if_neg (fun hj => h0 ⟨hj.1, h2.2⟩), if_neg (fun hj => h1 ⟨hj.1, h2.2⟩), if_pos ⟨h2.1, rfl⟩] at e
      rw [e, h2.1]
  by_cases h3 : c = '>' ∧ cs.headD NUL = '='
  · refine ⟨.GE, [c, '='], cs.tail, ?_, Or.inr rfl, by decide, fun ls hrest => ?_, ?_,
      fun ls tail hrest htail => ?_⟩
    · rw [headD_eq_cons h3.2 (by decide)]; rfl
    · have e := Lexer.handleOperator_eq hrest
      rw [if_neg h0, if_neg h1, if_neg h2, if_pos h3] at e
      rw [e, h3.1]
    · intro hc
      rw [hc] at h3
      exact absurd h3.1 (by decide)
    · have e := Lexer.handleOperator_eq (show ls.rest = c :: ('=' :: tail) from hrest)
      rw [if_neg (fun hj => h0 ⟨hj.1, h3.2⟩), if_neg (fun hj => h1 ⟨hj.1, h3.2⟩), if_neg (fun hj => h2 ⟨hj.1, h3.2⟩), if_pos ⟨h3.1, rfl⟩] at e
      rw [e, h3.1]
  by_cases k0 : c = '+'
  · refine ⟨.PLUS, [c], cs, rfl, Or.inl rfl, by decide, fun ls hrest => ?_, fun _ => rfl,
      fun ls tail hrest htail => ?_⟩
    · have e := Lexer.handleOperator_eq hrest
      rw [if_neg h0, if_neg h1, if_neg h2, if_neg h3, if_pos k0] at e
      rw [e, k0]
    · have e := Lexer.handleOperator_eq (show ls.rest = c :: tail from hrest)
      rw [if_neg (fun hj => htail hj.2), if_neg (fun hj => htail hj.2), if_neg (fun hj => htail hj.2), if_neg (fun hj => htail hj.2),
        if_pos k0] at e
      rw [e, k0]
  by_cases k1 : c = '-'
  · refine ⟨.MINUS, [c], cs, rfl, Or.inl rfl, by decide, fun ls hrest => ?_, fun _ => rfl,
      fun ls tail hrest htail => ?_⟩
    · have e := Lexer.handleOperator_eq hrest
      rw [if_neg h0, if_neg h1, if_neg h2, if_neg h3, if_neg k0, if_pos k1] at e
      rw [e, k1]
    · have e := Lexer.handleOperator_eq (show ls.rest = c :: tail from hrest)
      rw [if_neg (fun hj => htail hj.2), if_neg (fun hj => htail hj.2), if_neg (fun hj => htail hj.2), if_neg (fun hj => htail hj.2), if_neg k0,
        if_pos k1] at e
      rw [e, k1]
  by_cases k2 : c = '*'
  · refine ⟨.TIMES, [c], cs, rfl, Or.inl rfl, by decide, fun ls hrest => ?_, fun _ => rfl,
      fun ls tail hrest htail => ?_⟩
    · have e := Lexer.handleOperator_eq hrest
      rw [if_neg h0, if_neg h1, if_neg h2, if_neg h3, if_neg k0, if_neg k1, if_pos k2] at e
      rw [e, k2]
    · have e := Lexer.handleOperator_eq (show ls.rest = c :: tail from hrest)
      rw [if_neg (fun hj => htail hj.2), if_neg (fun hj => htail hj.2), if_neg (fun hj => htail hj.2), if_neg (fun hj => htail hj.2), if_neg k0, if_neg k1,
        if_pos k2] at e
      rw [e, k2]
  by_cases k3 : c = '/'
  · refine ⟨.DIVIDE, [c], cs, rfl, Or.inl rfl, by decide, fun ls hrest => ?_, fun _ => rfl,
      fun ls tail hrest htail => ?_⟩
    · have e := Lexer.handleOperator_eq hrest
      rw [if_neg h0, if_neg h1, if_neg h2, if_neg h3, if_neg k0, if_neg k1, if_neg k2, if_pos k3] at e
      rw [e, k3]
    · have e := Lexer.handleOperator_eq (show ls.rest = c :: tail from hrest)
      rw [if_neg (fun hj => htail hj.2), if_neg (fun hj => htail hj.2), if_neg (fun hj => htail hj.2), if_neg (fun hj => htail hj.2), if_neg k0, if_neg k1, if_neg k2,
        if_pos k3] at e
      rw [e, k3]
  by_cases k4 : c = '='
  · refine ⟨.ASSIGN, [c], cs, rfl, Or.inl rfl, by decide, fun ls hrest => ?_, fun _ => rfl,
      fun ls tail hrest htail => ?_⟩
    · have e := Lexer.handleOperator_eq hrest
      rw [if_neg h0, if_neg h1, if_neg h2, if_neg h3, if_neg k0, if_neg k1, if_neg k2, if_neg k3, if_pos k4] at e
      rw [e, k4]
    · have e := Lexer.handleOperator_eq (show ls.rest = c :: tail from hrest)
      rw [if_neg (fun hj => htail hj.2), if_neg (fun hj => htail hj.2), if_neg (fun hj => htail hj.2), if_neg (fun hj => htail hj.2), if_neg k0, if_neg k1, if_neg k2, if_neg k3,
        if_pos k4] at e
      rw [e, k4]
  by_cases k5 : c = '<'
  · refine ⟨.LT, [c], cs, rfl, Or.inl rfl, by decide, fun ls hrest => ?_, fun _ => rfl,
      fun ls tail hrest htail => ?_⟩
    · have e := Lexer.handleOperator_eq hrest
      rw [if_neg h0, if_neg h1, if_neg h2, if_neg h3, if_neg k0, if_neg k1, if_neg k2, if_neg k3, if_neg k4, if_pos k5] at e
      rw [e, k5]
    · have e := Lexer.handleOperator_eq (show ls.rest = c :: tail from hrest)
      rw [if_neg (fun hj => htail hj.2), if_neg (fun hj => htail hj.2), if_neg (fun hj => htail hj.2), if_neg (fun hj => htail hj.2), if_neg k0, if_neg k1, if_neg k2, if_neg k3, if_neg k4,
        if_pos k5] at e
      rw [e, k5]
  by_cases k6 : c = '>'
  · refine ⟨.GT, [c], cs, rfl, Or.inl rfl, by decide, fun ls hrest => ?_, fun _ => rfl,
      fun ls tail hrest htail => ?_⟩
    · have e := Lexer.handleOperator_eq hrest
      rw [if_neg h0, if_neg h1, if_neg h2, if_neg h3, if_neg k0, if_neg k1, if_neg k2, if_neg k3, if_neg k4, if_neg k5, if_pos k6] at e
      rw [e, k6]
    · have e := Lexer.handleOperator_eq (show ls.rest = c :: tail from hrest)
      rw [if_neg (fun hj => htail hj.2), if_neg (fun hj => htail hj.2), if_neg (fun hj => htail hj.2), if_neg (fun hj => htail hj.2), if_neg k0, if_neg k1, if_neg k2, if_neg k3, if_neg k4, if_neg k5,
        if_pos k6] at e
      rw [e, k6]
  refine ⟨.ERROR, [c], cs, rfl, Or.inl rfl, by decide, fun ls hrest => ?_, fun _ => rfl,
    fun ls tail hrest htail => ?_⟩
  · have e := Lexer.handleOperator_eq hrest
    rw [if_neg h0, if_neg h1, if_neg h2, if_neg h3, if_neg k0, if_neg k1, if_neg k2, if_neg k3, if_neg k4, if_neg k5, if_neg k6] at e
    rw [e]
    rfl
  · have e := Lexer.handleOperator_eq (show ls.rest = c :: tail from hrest)
    rw [if_neg (fun hj => htail hj.2), if_neg (fun hj => htail hj.2), if_neg (fun hj => htail hj.2), if_neg (fun hj => htail hj.2), if_neg k0, if_neg k1, if_neg k2, if_neg k3, if_neg k4, if_neg k5, if_neg k6] at e
    rw [e]
    rfl

theorem Lexer.atComment_of_second {l : Lexer} {c : Char} {t : List Char}
    (hrest : l.rest = c :: t) (h : t.headD NUL ≠ '*') : l.atComment = false := by
  obtain ⟨_, hdrop⟩ := Lexer.rest_cons_getD hrest
  have hget : l.source.getD (l.currentPos + 1) NUL = t.headD NUL := by
    rw [← hdrop]
    simp [List.getD_eq_getElem?_getD, List.headD_eq_head?_getD, List.head?_drop]
  unfold Lexer.atComment
  rw [hget, decide_eq_false h, Bool.and_false]

theorem takeWhile_append_sep (p : Char → Bool) (w tail : List Char)
    (hw : ∀ x ∈ w, p x = true) (ht : ∀ x tl, tail = x :: tl → p x = false) :
    (w ++ tail).takeWhile p = w := by
  rw [List.takeWhile_append_of_pos hw]
  cases tail with
  | nil => simp
  | cons x tl =>
    rw [List.takeWhile_cons_of_neg (by simp [ht x tl rfl])]
    simp

theorem sep_cons {tail : List Char} (hsep : tail = [] ∨ ∃ tl, tail = ' ' :: tl) :
    ∀ x tl, tail = x :: tl → x = ' ' := by
  intro x tl h
  rcases hsep with hnil | ⟨tl', htl⟩
  · rw [hnil] at h
    exact List.noConfusion h
  · rw [htl] at h
    exact ((List.cons.inj h).1).symm

theorem sep_headD {tail : List Char} (hsep : tail = [] ∨ ∃ tl, tail = ' ' :: tl) :
    tail.headD NUL = NUL ∨ tail.headD NUL = ' ' := by
  rcases hsep with hnil | ⟨tl', htl⟩
  · rw [hnil]; exact Or.inl rfl
  · rw [htl]; exact Or.inr rfl

/-- Where the unread text opens with a character that is not white space and
no comment opens, the token is decided by the dispatch on that character. -/
theorem Lexer.getNextToken_of_head {l : Lexer} {c : Char} {t : List Char}
    (hrest : l.rest = c :: t) (hspace : isspace c = false)
    (hcomment : c ≠ '/' ∨ t.headD NUL ≠ '*') :
    l.getNextToken =
      if c = NUL then .ok (⟨.END_OF_FILE, "", l.currentLine⟩, l)
      else if isalpha c then .ok l.handleIdentifier
      else if isdigit c then .ok l.handleNumber
      else if strchr ['+', '-', '*', '/', '=', '!', '<', '>'] c then
        .ok l.handleOperator
      else if strchr [';', ',', '(', ')', '[', ']', '{', '}'] c then
        .ok l.handleSymbol
      else .ok (⟨.ERROR, String.singleton c, (l.consume [c]).currentLine⟩,
        l.consume [c]) := by
  have hpeek := Lexer.peek_of_rest_cons hrest
  have hat : l.atComment = false := by
    rcases hcomment with h | h
    · exact Lexer.atComment_of_peek_ne (by rw [hpeek]; exact h)
    · exact Lexer.atComment_of_second hrest h
  have hskip := Lexer.skipBlanksLoop_noop (l := l) (by rw [hpeek]; exact hspace) hat
    l.remaining
  rw [Lexer.getNextToken_of_skip hskip, hpeek, Lexer.advance_eq_consume hrest]


theorem ok_pair_fst {α β : Type} {a a' : α} {b b' : β}
    (h : (Except.ok (a, b) : Except Err (α × β)) = .ok (a', b')) : a' = a := by
  injection h with h
  exact (Prod.mk.inj h).1.symm

/-- Every token other than END_OF_FILE that `getNextToken` returns is scanned
again from its lexeme. -/
theorem Lexer.getNextToken_rescans {l l1 : Lexer} {tok : Token}
    (h : l.getNextToken = .ok (tok, l1)) (hne : tok.type ≠ .END_OF_FILE) :
    Lexer.Rescans tok.type tok.lexeme.data := by
  cases hs : l.skipBlanksLoop l.remaining with
  | error e =>
    unfold Lexer.getNextToken at h
    rw [hs] at h
    exact Except.noConfusion h
  | ok ls =>
    have hnsp := Lexer.skipBlanksLoop_not_space _ _ _ hs
    rw [Lexer.getNextToken_of_skip hs] at h
    cases hrest : ls.rest with
    | nil =>
      rw [Lexer.peek_of_rest_nil hrest, if_pos rfl] at h
      have htok := ok_pair_fst h
      rw [htok] at hne
      exact absurd rfl hne
    | cons c cs =>
      have hpeek := Lexer.peek_of_rest_cons hrest
      rw [hpeek] at h hnsp
      by_cases hnul : c = NUL
      · rw [if_pos hnul] at h
        have htok := ok_pair_fst h
        rw [htok] at hne
        exact absurd rfl hne
      rw [if_neg hnul] at h
      intro l' tail hrest' hsep
      have hsp := sep_cons hsep
      by_cases halpha : isalpha c = true
      · rw [if_pos halpha, Lexer.handleIdentifier_eq, hrest] at h
        have htok := ok_pair_fst h
        subst htok
        have halnum : isalnum c = true := by simp [isalnum, halpha]
        have hslash : c ≠ '/' := by
          intro hc
          rw [hc] at halpha
          exact absurd halpha (by decide)
        have hw : (c :: cs).takeWhile (fun x => isalnum x) =
            c :: cs.takeWhile (fun x => isalnum x) := List.takeWhile_cons_of_pos halnum
        have hrest1 : l'.rest = (c :: cs).takeWhile (fun x => isalnum x) ++ tail := hrest'
        have hrest2 : l'.rest = c :: (cs.takeWhile (fun x => isalnum x) ++ tail) := by
          rw [hrest1, hw]; rfl
        have htake : l'.rest.takeWhile (fun x => isalnum x) =
            (c :: cs).takeWhile (fun x => isalnum x) := by
          rw [hrest1]
          exact takeWhile_append_sep _ _ _ (fun x hx => List.mem_takeWhile_imp hx)
            (fun x tl hx => by rw [hsp x tl hx]; decide)
        rw [Lexer.getNextToken_of_head hrest2 hnsp (Or.inl hslash), if_neg hnul, if_pos halpha,
          Lexer.handleIdentifier_eq, htake]
      rw [if_neg halpha] at h
      by_cases hdigit : isdigit c = true
      · rw [if_pos hdigit, Lexer.handleNumber_eq, hrest] at h
        have htok := ok_pair_fst h
        subst htok
        have hslash : c ≠ '/' := by
          intro hc
          rw [hc] at hdigit
          exact absurd hdigit (by decide)
        have hw : (c :: cs).takeWhile (fun x => isdigit x) =
            c :: cs.takeWhile (fun x => isdigit x) := List.takeWhile_cons_of_pos hdigit
        have hrest1 : l'.rest = (c :: cs).takeWhile (fun x => isdigit x) ++ tail := hrest'
        have hrest2 : l'.rest = c :: (cs.takeWhile (fun x => isdigit x) ++ tail) := by
          rw [hrest1, hw]; rfl
        have htake : l'.rest.takeWhile (fun x => isdigit x) =
            (c :: cs).takeWhile (fun x => isdigit x) := by
          rw [hrest1]
          exact takeWhile_append_sep _ _ _ (fun x hx => List.mem_takeWhile_imp hx)
            (fun x tl hx => by rw [hsp x tl hx]; decide)
        rw [Lexer.getNextToken_of_head hrest2 hnsp (Or.inl hslash), if_neg hnul, if_neg halpha,
          if_pos hdigit, Lexer.handleNumber_eq, htake]
      rw [if_neg hdigit] at h
      have hstar : tail.headD NUL ≠ '*' := by
        rcases sep_headD hsep with hh | hh <;> rw [hh] <;> decide
      have heq : tail.headD NUL ≠ '=' := by
        rcases sep_headD hsep with hh | hh <;> rw [hh] <;> decide
      by_cases hop : strchr ['+', '-', '*', '/', '=', '!', '<', '>'] c = true
      · rw [if_pos hop] at h
        obtain ⟨ty, w, r, _, hwc, _, hfirst, hdiv, hagain⟩ := Lexer.handleOperator_rescan c cs
        rw [hfirst ls hrest] at h
        have htok := ok_pair_fst h
        subst htok
        have hrest1 : l'.rest = w ++ tail := hrest'
        have hhead : ∃ t, l'.rest = c :: t ∧ (c ≠ '/' ∨ t.headD NUL ≠ '*') := by
          by_cases hc : c = '/'
          · refine ⟨tail, ?_, Or.inr hstar⟩
            rw [hrest1, hdiv hc]; rfl
          · rcases hwc with hw | hw
            · exact ⟨tail, by rw [hrest1, hw]; rfl, Or.inl hc⟩
            · exact ⟨'=' :: tail, by rw [hrest1, hw]; rfl, Or.inl hc⟩
        obtain ⟨t, hrest2, hcomment⟩ := hhead
        rw [Lexer.getNextToken_of_head hrest2 hnsp hcomment, if_neg hnul, if_neg halpha,
          if_neg hdigit, if_pos hop, hagain l' tail hrest1 heq]
      rw [if_neg hop] at h
      have hslash : c ≠ '/' := by
        intro hc
        rw [hc] at hop
        exact hop (by decide)
      have hrest2 : l'.rest = c :: tail → l'.getNextToken =
          if strchr [';', ',', '(', ')', '[', ']', '{', '}'] c then .ok l'.handleSymbol
          else .ok (⟨.ERROR, String.singleton c, (l'.consume [c]).currentLine⟩,
            l'.consume [c]) := by
        intro hr
        rw [Lexer.getNextToken_of_head hr hnsp (Or.inl hslash), if_neg hnul, if_neg halpha,
          if_neg hdigit, if_neg hop]
      by_cases hsym : strchr [';', ',', '(', ')', '[', ']', '{', '}'] c = true
      · rw [if_pos hsym] at h
        obtain ⟨ty, _, hall⟩ := Lexer.handleSymbol_uniform c
        rw [hall ls cs hrest] at h
        have htok := ok_pair_fst h
        subst htok
        have hrest1 : l'.rest = c :: tail := hrest'
        rw [hrest2 hrest1, if_pos hsym, hall l' tail hrest1]
      · rw [if_neg hsym, Lexer.advance_eq_consume hrest] at h
        have htok := ok_pair_fst h
        subst htok
        have hrest1 : l'.rest = c :: tail := hrest'
        have hcnl : c ≠ '\n' := by
          intro hc
          rw [hc] at hnsp
          exact absurd hnsp (by decide)
        have hline : (l'.consume [c]).currentLine = l'.currentLine := by
          show l'.currentLine + [c].count '\n' = l'.currentLine
          rw [List.count_singleton, if_neg (by simpa using hcnl)]
          rfl
        rw [hrest2 hrest1, if_neg hsym, hline]
        rfl


/-- A space in front of the unread text is skipped. -/
theorem Lexer.getNextToken_leading_space {l : Lexer} {r : List Char}
    (hrest : l.rest = ' ' :: r) : l.getNextToken = (l.consume [' ']).getNextToken := by
  have hrest1 : (l.consume [' ']).rest = r := Lexer.rest_consume (w := [' ']) hrest
  have hsw : l.skipWhitespace = (l.consume [' ']).skipWhitespace := by
    rw [Lexer.skipWhitespace_eq, Lexer.skipWhitespace_eq, hrest, hrest1,
      List.takeWhile_cons_of_pos (by decide), Lexer.consume_consume]
    rfl
  have hloop : ∀ k, l.skipBlanksLoop k = (l.consume [' ']).skipBlanksLoop k := by
    intro k
    cases k <;> simp only [Lexer.skipBlanksLoop, hsw]
  have hrem : (l.consume [' ']).remaining ≤ l.remaining := by
    show l.source.length - (l.currentPos + 1) ≤ l.source.length - l.currentPos
    omega
  unfold Lexer.getNextToken
  rw [hloop, Lexer.skipBlanksLoop_fuel l.remaining (l.consume [' ']).remaining
    (l.consume [' ']) hrem (le_refl _)]

theorem Lexer.Scans.congr {l l' : Lexer} (h : l'.getNextToken = l.getNextToken)
    {toks : List Token} (hs : Lexer.Scans l toks) : Lexer.Scans l' toks := by
  cases toks with
  | nil => exact False.elim hs
  | cons t ts =>
    obtain ⟨l1, hg, hcase⟩ := hs
    exact ⟨l1, by rw [h, hg], hcase⟩

theorem joinLexemes_cons_eof (t : Token) (ts : List Token) (h : t.type = .END_OF_FILE) :
    joinLexemes (t :: ts) = joinLexemes ts := by
  unfold joinLexemes
  rw [List.filter_cons_of_neg (by simp [h])]

theorem joinLexemes_cons (t : Token) (ts : List Token) (h : t.type ≠ .END_OF_FILE) :
    ∃ tail, joinLexemes (t :: ts) = t.lexeme.data ++ tail ∧
      ((tail = [] ∧ joinLexemes ts = []) ∨ tail = ' ' :: joinLexemes ts) := by
  unfold joinLexemes
  rw [List.filter_cons_of_pos (by simp [h]), List.map_cons]
  cases hrest : (ts.filter (fun t => decide (t.type ≠ .END_OF_FILE))).map
      (fun t => t.lexeme.data) with
  | nil => exact ⟨[], by simp [List.intercalate], Or.inl ⟨rfl, by simp [List.intercalate]⟩⟩
  | cons x xs => exact ⟨_, by simp [List.intercalate], Or.inr rfl⟩

/-- The text of the joined lexemes is scanned to tokens of the same kinds and
lexemes, also behind one more space. -/
theorem Lexer.Scans.rescan (toks : List Token) :
    ∀ (l : Lexer), Lexer.Scans l toks →
      ∀ (l' : Lexer), (l'.rest = joinLexemes toks ∨ l'.rest = ' ' :: joinLexemes toks) →
        ∃ toks', Lexer.Scans l' toks' ∧
          toks'.map (fun t => (t.type, t.lexeme)) = toks.map (fun t => (t.type, t.lexeme)) := by
  induction toks with
  | nil => intro l h; exact False.elim h
  | cons t ts ih =>
    intro l h l' hrest'
    have hmain : ∀ l2 : Lexer, l2.rest = joinLexemes (t :: ts) →
        ∃ toks', Lexer.Scans l2 toks' ∧
          toks'.map (fun t => (t.type, t.lexeme)) =
            (t :: ts).map (fun t => (t.type, t.lexeme)) := by
      intro l2 hrest2
      obtain ⟨l1, hg, hcase⟩ := h
      rcases hcase with ⟨heof, hts⟩ | ⟨hne, hscan⟩
      · subst hts
        obtain ⟨b, w, r, _, _, hlex, _, _, hw⟩ := Lexer.getNextToken_spec hg
        have hwnil : w = [] := by
          rcases hw with ⟨_, hw, _⟩ | ⟨hne, _⟩
          · exact hw
          · exact absurd heof hne
        rw [joinLexemes_cons_eof t [] heof] at hrest2
        have hnil : l2.rest = [] := hrest2
        refine ⟨[⟨.END_OF_FILE, "", l2.currentLine⟩],
          ⟨l2, Lexer.getNextToken_of_peek_nul (Lexer.peek_of_rest_nil hnil),
            Or.inl ⟨rfl, rfl⟩⟩, ?_⟩
        simp only [List.map_cons, List.map_nil, heof, hlex, hwnil]
      · obtain ⟨tail, hjoin, htail⟩ := joinLexemes_cons t ts hne
        rw [hjoin] at hrest2
        have hsep : tail = [] ∨ ∃ tl, tail = ' ' :: tl := by
          rcases htail with ⟨h1, _⟩ | h1
          · exact Or.inl h1
          · exact Or.inr ⟨_, h1⟩
        have hget := Lexer.getNextToken_rescans hg hne l2 tail hrest2 hsep
        have hrest3 : (l2.consume t.lexeme.data).rest = tail := Lexer.rest_consume hrest2
        have hnext : (l2.consume t.lexeme.data).rest = joinLexemes ts ∨
            (l2.consume t.lexeme.data).rest = ' ' :: joinLexemes ts := by
          rcases htail with ⟨h1, h2⟩ | h1
          · exact Or.inl (by rw [hrest3, h1, h2])
          · exact Or.inr (by rw [hrest3, h1])
        obtain ⟨toks', hscan', hmap⟩ := ih l1 hscan _ hnext
        refine ⟨⟨t.type, String.mk t.lexeme.data, l2.currentLine⟩ :: toks',
          ⟨_, hget, Or.inr ⟨hne, hscan'⟩⟩, ?_⟩
        simp only [List.map_cons, hmap]
    rcases hrest' with hr | hr
    · exact hmain l' hr
    · obtain ⟨toks', hscan', hmap⟩ := hmain (l'.consume [' '])
        (Lexer.rest_consume (w := [' ']) hr)
      exact ⟨toks', Lexer.Scans.congr (Lexer.getNextToken_leading_space hr) hscan', hmap⟩

/-- The loop of `getAllTokens` returns the tokens of the scan. -/
theorem Lexer.getAllTokensLoop_of_scans (n : Nat) :
    ∀ (l : Lexer) (tok : Token) (acc ts : List Token),
      ((tok.type = .END_OF_FILE ∧ ts = []) ∨ (tok.type ≠ .END_OF_FILE ∧ Lexer.Scans l ts)) →
      (tok.type ≠ .END_OF_FILE → l.remaining < n) →
      ∃ l', Lexer.getAllTokensLoop n l tok acc = .ok (acc ++ tok :: ts, l') := by
  induction n with
  | zero =>
    intro l tok acc ts hcase hfuel
    rcases hcase with ⟨heof, hts⟩ | ⟨hne, _⟩
    · rw [Lexer.getAllTokensLoop, if_neg (by simp [heof]), hts]
      exact ⟨_, rfl⟩
    · exact absurd (hfuel hne) (Nat.not_lt_zero _)
  | succ n ih =>
    intro l tok acc ts hcase hfuel
    rcases hcase with ⟨heof, hts⟩ | ⟨hne, hscan⟩
    · rw [Lexer.getAllTokensLoop, if_neg (by simp [heof]), hts]
      exact ⟨_, rfl⟩
    · cases ts with
      | nil => exact False.elim hscan
      | cons t ts1 =>
        obtain ⟨l1, hg, hcase1⟩ := hscan
        have hrem := Lexer.getNextToken_remaining hg
        have hlt := hfuel hne
        obtain ⟨l', hl'⟩ := ih l1 t (acc ++ [tok]) ts1 hcase1
          (fun hne1 => by have := hrem.2 hne1; omega)
        refine ⟨l', ?_⟩
        rw [Lexer.getAllTokensLoop, if_pos hne]
        simp only [hg]
        rw [hl']
        simp

theorem Lexer.getAllTokens_of_scans {l : Lexer} {toks : List Token}
    (h : Lexer.Scans l toks) : ∃ l', l.getAllTokens = .ok (toks, l') := by
  cases toks with
  | nil => exact False.elim h
  | cons t ts =>
    obtain ⟨l1, hg, hcase⟩ := h
    have hrem := Lexer.getNextToken_remaining hg
    obtain ⟨l', hl'⟩ := Lexer.getAllTokensLoop_of_scans (l.remaining + 1) l1 t [] ts hcase
      (fun _ => by omega)
    refine ⟨l', ?_⟩
    unfold Lexer.getAllTokens
    simp only [hg]
    rw [hl']
    rfl


/-! ## The lexemes are the text of the source, and scanning them again -/

/-- After a call of `getNextToken` the lexeme is the text between the place
where the first loop of the call ended and the cursor. -/
theorem Lexer.getNextToken_lexeme {l l1 : Lexer} {tok : Token}
    (h : l.getNextToken = .ok (tok, l1)) :
    ∃ ls, l.skipBlanksLoop l.remaining = .ok ls ∧ l1.source = l.source ∧
      l.source.drop ls.currentPos = tok.lexeme.data ++ l.source.drop l1.currentPos ∧
      l1.currentPos = ls.currentPos + tok.lexeme.data.length := by
  obtain ⟨b, w, r, hskip, hrest, hl1, hlex, _, _, _⟩ := Lexer.getNextToken_spec_skip h
  have h1 : (l.consume b).rest = w ++ r := Lexer.rest_consume hrest
  have h2 : (l.consume (b ++ w)).rest = r :=
    Lexer.rest_consume (by rw [hrest, List.append_assoc])
  refine ⟨l.consume b, hskip, by rw [hl1]; rfl, ?_, ?_⟩
  · rw [hl1, hlex]
    show (l.consume b).rest = w ++ (l.consume (b ++ w)).rest
    rw [h1, h2]
  · rw [hl1, hlex]
    show l.currentPos + (b ++ w).length = l.currentPos + b.length + w.length
    rw [List.length_append, Nat.add_assoc]

/-- Every token of a scan was returned by a call of `getNextToken` on a state
over the same source. -/
theorem Lexer.Scans.calls (toks : List Token) :
    ∀ (l : Lexer), Lexer.Scans l toks →
      ∀ t ∈ toks, ∃ l0 l1 : Lexer, l0.source = l.source ∧ l0.getNextToken = .ok (t, l1) := by
  induction toks with
  | nil => intro l h; exact False.elim h
  | cons t ts ih =>
    intro l h x hx
    obtain ⟨l1, hg, hcase⟩ := h
    rcases List.mem_cons.mp hx with rfl | hx
    · exact ⟨l, l1, rfl, hg⟩
    · rcases hcase with ⟨_, hts⟩ | ⟨_, hscan⟩
      · rw [hts] at hx
        exact absurd hx (List.not_mem_nil _)
      · obtain ⟨l0, l2, hsrc, hg2⟩ := ih l1 hscan x hx
        exact ⟨l0, l2, by rw [hsrc, (Lexer.getNextToken_progress hg).1], hg2⟩

/-- The unread text is, token by token, the blanks skipped and the lexeme; what
is left over begins with a NUL character. -/
theorem Lexer.Scans.decompose (toks : List Token) :
    ∀ (l : Lexer), Lexer.Scans l toks →
      ∃ (blanks : List (List Char)) (rest : List Char), blanks.length = toks.length ∧
        l.rest = (List.zipWith (fun b t => b ++ t.lexeme.data) blanks toks).flatten ++ rest ∧
        (NUL ∉ l.rest → rest = []) := by
  induction toks with
  | nil => intro l h; exact False.elim h
  | cons t ts ih =>
    intro l h
    obtain ⟨l1, hg, hcase⟩ := h
    obtain ⟨b, w, r, hrest, hl1, hlex, _, _, hw⟩ := Lexer.getNextToken_spec hg
    have hr1 : l1.rest = r := by
      rw [hl1]
      exact Lexer.rest_consume (by rw [hrest, List.append_assoc])
    have hdata : t.lexeme.data = w := by rw [hlex]
    rcases hcase with ⟨heof, hts⟩ | ⟨hne, hscan⟩
    · subst hts
      refine ⟨[b], r, rfl, ?_, fun hnul => ?_⟩
      · rw [hrest]
        simp [hdata]
      · rcases hw with ⟨_, hwnil, hpeek⟩ | ⟨hne, _⟩
        · have hrb : (l.consume b).rest = r := by
            rw [hwnil] at hrest
            exact Lexer.rest_consume hrest
          rw [Lexer.peek_eq_headD, hrb] at hpeek
          cases r with
          | nil => rfl
          | cons x xs =>
            exfalso
            apply hnul
            rw [hrest]
            simp only [List.headD_cons] at hpeek
            rw [hpeek]
            simp
        · exact absurd heof hne
    · obtain ⟨blanks, rest, hlen, hdec, hnul⟩ := ih l1 hscan
      refine ⟨b :: blanks, rest, by simp [hlen], ?_, fun hn => hnul ?_⟩
      · have hr : r = (List.zipWith (fun b t => b ++ t.lexeme.data) blanks ts).flatten ++ rest := by
          rw [← hr1, hdec]
        rw [hrest, hr]
        simp [hdata]
      · intro hmem
        apply hn
        rw [hrest, ← hr1]
        simp [hmem]

/-- Claim C29: the round trip of scanning again.  Where `getAllTokens` succeeds
on a source, every token was returned by a call of `getNextToken` for which
the lexeme is exactly the text of the source between the end of the skipped
blanks and the cursor after the call; the source is, token by token, the
skipped text followed by the lexeme (up to the first NUL character, so all
of it for a source without NUL); and `getAllTokens` on the lexemes of the
tokens other than END_OF_FILE joined with single spaces succeeds with tokens
of the same kinds and lexemes, in the same order. -/
theorem C29_rescan_round_trip (source : List Char) (toks : List Token) (lend : Lexer)
    (h : (Lexer.new source).getAllTokens = .ok (toks, lend)) :
    (∀ t ∈ toks, ∃ l0 ls l1 : Lexer, l0.source = source ∧
        l0.getNextToken = .ok (t, l1) ∧ l0.skipBlanksLoop l0.remaining = .ok ls ∧
        source.drop ls.currentPos = t.lexeme.data ++ source.drop l1.currentPos ∧
        l1.currentPos = ls.currentPos + t.lexeme.data.length) ∧
    (∃ (blanks : List (List Char)) (rest : List Char), blanks.length = toks.length ∧
        source = (List.zipWith (fun b t => b ++ t.lexeme.data) blanks toks).flatten ++ rest ∧
        (NUL ∉ source → rest = [])) ∧
    ∃ toks' lend', (Lexer.new (joinLexemes toks)).getAllTokens = .ok (toks', lend') ∧
      toks'.map (fun t => (t.type, t.lexeme)) = toks.map (fun t => (t.type, t.lexeme)) := by
  have hscan := Lexer.getAllTokens_scans h
  refine ⟨fun t ht => ?_, ?_, ?_⟩
  · obtain ⟨l0, l1, hsrc, hg⟩ := Lexer.Scans.calls toks _ hscan t ht
    have hsrc0 : l0.source = source := hsrc
    obtain ⟨ls, hskip, _, hdrop, hpos⟩ := Lexer.getNextToken_lexeme hg
    rw [hsrc0] at hdrop
    exact ⟨l0, ls, l1, hsrc0, hg, hskip, hdrop, hpos⟩
  · obtain ⟨blanks, rest, hlen, hdec, hnul⟩ := Lexer.Scans.decompose toks _ hscan
    exact ⟨blanks, rest, hlen, hdec, hnul⟩
  · obtain ⟨toks', hscan', hmap⟩ := Lexer.Scans.rescan toks _ hscan
      (Lexer.new (joinLexemes toks)) (Or.inl rfl)
    obtain ⟨lend', hall⟩ := Lexer.getAllTokens_of_scans hscan'
    exact ⟨toks', lend', hall, hmap⟩


/-- C29 (witness): the tokens of `a<=b /*c*/` and, on the next line, `12` are
scanned again from `a <= b 12` with the same kinds and lexemes. -/
theorem C29_rescan_round_trip_witness :
    (Lexer.new "a<=b /*c*/\n12".toList).getAllTokens =
      .ok ([⟨.ID, "a", 1⟩, ⟨.LE, "<=", 1⟩, ⟨.ID, "b", 1⟩, ⟨.NUM, "12", 2⟩,
          ⟨.END_OF_FILE, "", 2⟩], ⟨"a<=b /*c*/\n12".toList, 13, 2⟩) ∧
    joinLexemes [⟨.ID, "a", 1⟩, ⟨.LE, "<=", 1⟩, ⟨.ID, "b", 1⟩, ⟨.NUM, "12", 2⟩,
        ⟨.END_OF_FILE, "", 2⟩] = "a <= b 12".toList ∧
    ∃ toks' lend', (Lexer.new "a <= b 12".toList).getAllTokens = .ok (toks', lend') ∧
      toks'.map (fun t => (t.type, t.lexeme)) =
        [(.ID, "a"), (.LE, "<="), (.ID, "b"), (.NUM, "12"), (.END_OF_FILE, "")] :=
  ⟨rfl, rfl,
    (C29_rescan_round_trip "a<=b /*c*/\n12".toList
      [⟨.ID, "a", 1⟩, ⟨.LE, "<=", 1⟩, ⟨.ID, "b", 1⟩, ⟨.NUM, "12", 2⟩, ⟨.END_OF_FILE, "", 2⟩]
      ⟨"a<=b /*c*/\n12".toList, 13, 2⟩ rfl).2.2⟩


end CMinus
